import Mathlib

/-!
Verification of the archetype-ECS storage engine (`src/EntityManager.ts`,
`src/ComponentRegistry.js`) against its natural-language specification.

The TypeScript source is shallowly embedded: JavaScript runtime values are
modelled by the inductive `JVal`, typed-array columns by lists of `JVal`
with an element kind, JS `Map`s by insertion-ordered association lists
(`mget`/`mset`/`mdel`), and the mutable `EntityManager` closure state by the
structure `EMState` with every public method a pure state transformer.
Archetype objects live in an arena (`EMState.archs`); the `archetypes`
key-map and the entity directory refer to arena indices, mirroring JS
object references.
-/

namespace ECS

/-- JS runtime values as far as the engine stores and moves them:
numbers (integral carrier; the engine only stores and copies, never does
arithmetic on row values), the distinguished NaN produced by coercing
`undefined` into a float column, strings, `undefined`, and array values. -/
inductive JVal where
  | num (n : Int)
  | nan
  | str (s : String)
  | undef
  | arrv (vs : List JVal)

/-- Element kind of a column, from `TYPE_MAP` in ComponentRegistry. -/
inductive ColKind where
  | f32 | f64 | i8 | i16 | i32 | u8 | u16 | u32 | generic
deriving DecidableEq, Repr

/-- Whether the kind is a float typed array. -/
def ColKind.isFloat : ColKind → Bool
  | .f32 => true | .f64 => true | _ => false

/-- Bit width of an integer typed-array kind (0 for non-integer kinds). -/
def ColKind.intWidth : ColKind → Nat
  | .i8 => 8 | .i16 => 16 | .i32 => 32
  | .u8 => 8 | .u16 => 16 | .u32 => 32
  | _ => 0

/-- Whether an integer typed-array kind is signed. -/
def ColKind.isSigned : ColKind → Bool
  | .i8 => true | .i16 => true | .i32 => true | _ => false

/-- Two's-complement wrap of an integer into `w` bits (signed or unsigned),
as JS typed-array element conversion does. -/
def wrapInt (w : Nat) (signed : Bool) (n : Int) : Int :=
  let m : Int := (2 : Int) ^ w
  let r := n % m
  if signed ∧ r ≥ (2 : Int) ^ (w - 1) then r - m else r

/-- JS `ToNumber` on the carrier, restricted to the values the engine can
meet: numbers pass through, `undefined` and non-numeric strings give NaN,
integral strings parse, arrays unwrap as JS does (`[] → 0`, `[v] → v`). -/
def toNumberJ : JVal → JVal
  | .num n => .num n
  | .nan => .nan
  | .undef => .nan
  | .str s => if s = "" then .num 0 else
      match s.toInt? with
      | some n => .num n
      | none => .nan
  | .arrv vs =>
      match vs with
      | [] => .num 0
      | [v] =>
          match v with
          | .num n => .num n
          | _ => .nan
      | _ => .nan

/-- Conversion applied when assigning a value into a column of kind `k`
(typed-array element coercion; generic `Array` columns store as-is). -/
def coerceStore (k : ColKind) (v : JVal) : JVal :=
  match k with
  | .generic => v
  | .f32 => toNumberJ v
  | .f64 => toNumberJ v
  | _ =>
      match toNumberJ v with
      | .num n => .num (wrapInt k.intWidth k.isSigned n)
      | _ => .num 0

/-- JS truthiness on the carrier. -/
def JVal.truthy : JVal → Bool
  | .num n => decide (n ≠ 0)
  | .nan => false
  | .str s => decide (s ≠ "")
  | .undef => false
  | .arrv _ => true

/-- JS indexing `v[j]` for the values usable as array-likes. -/
def jsIndex : JVal → Nat → JVal
  | .arrv vs, j => vs.getD j .undef
  | .str s, j =>
      match s.toList.get? j with
      | some c => .str (String.mk [c])
      | none => .undef
  | _, _ => JVal.undef

-- ── Association lists modelling JS Maps ─────────────────

/-- `Map.get`. -/
def mget {κ α : Type} [DecidableEq κ] (m : List (κ × α)) (k : κ) : Option α :=
  (m.find? (fun p => decide (p.1 = k))).map (fun p => p.2)

/-- `Map.set`: updates the entry in place if the key is present
(insertion order kept), otherwise appends. -/
def mset {κ α : Type} [DecidableEq κ] (m : List (κ × α)) (k : κ) (v : α) : List (κ × α) :=
  if (m.find? (fun p => decide (p.1 = k))).isSome then
    m.map (fun p => if p.1 = k then (k, v) else p)
  else
    m ++ [(k, v)]

/-- `Map.delete`. -/
def mdel {κ α : Type} [DecidableEq κ] (m : List (κ × α)) (k : κ) : List (κ × α) :=
  m.filter (fun p => decide (p.1 ≠ k))

/-- JS `Set` built from a list: first-occurrence order, no duplicates. -/
def jsSetOfList {α : Type} [DecidableEq α] (l : List α) : List α :=
  l.foldl (fun acc x => if x ∈ acc then acc else acc ++ [x]) []

/-- `Set.add`. -/
def jsSetAdd {α : Type} [DecidableEq α] (l : List α) (x : α) : List α :=
  if x ∈ l then l else l ++ [x]

/-- `Set.delete`. -/
def jsSetDel {α : Type} [DecidableEq α] (l : List α) (x : α) : List α :=
  l.filter (fun y => decide (y ≠ x))

/-- JS array index assignment `a[i] = v`, appending when `i` equals the
length (the only growing case the engine exercises). -/
def jsArraySet {α : Type} (l : List α) (i : Nat) (v : α) (pad : α) : List α :=
  if i < l.length then l.set i v
  else l ++ List.replicate (i - l.length) pad ++ [v]

-- ── SoA column stores (EntityManager.ts 157-280) ────────

/-- Component identity: the interned symbol, modelled as a number. -/
abbrev Sym := Nat

/-- A row record as produced by `soaRead` / supplied as component data
(a JS object, insertion-ordered). -/
abbrev Record := List (String × JVal)

/-- `ComponentData` (`record | null | undefined`; both falsy cases are
`none`). -/
abbrev ComponentData := Option Record

/-- A parsed field spec: element kind and fixed-array size
(`0` = scalar, matching `_arraySizes[field] || 0`). -/
abbrev FieldSpec := ColKind × Nat

/-- A struct-of-arrays store: `_schema`, `_capacity`, `_fields`
(`_arraySizes` is folded into the schema's size component). -/
structure SoAStore where
  schema : List (String × FieldSpec)
  capacity : Nat
  fields : List (String × List JVal)

/-- Initial element of a freshly allocated column: typed arrays are
zero-filled, generic `Array(capacity)` slots read as `undefined`. -/
def zeroFor (k : ColKind) : JVal :=
  match k with
  | .generic => .undef
  | _ => .num 0

/-- A freshly allocated column of `len` elements. -/
def initCol (k : ColKind) (len : Nat) : List JVal :=
  List.replicate len (zeroFor k)

/-- `createSoAStore`. -/
def createSoAStore (schema : List (String × FieldSpec)) (capacity : Nat) : SoAStore :=
  { schema := schema
    capacity := capacity
    fields := schema.map (fun f =>
      (f.1, initCol f.2.1 (if f.2.2 > 0 then capacity * f.2.2 else capacity))) }

/-- Reallocate one column at `allocSize`, preserving the old prefix. -/
def growCol (k : ColKind) (old : List JVal) (allocSize : Nat) : List JVal :=
  (old ++ List.replicate (allocSize - old.length) (zeroFor k)).take allocSize

/-- `growSoAStore`. -/
def growSoAStore (store : SoAStore) (newCapacity : Nat) : SoAStore :=
  { store with
    capacity := newCapacity
    fields := store.schema.map (fun f =>
      let allocSize := if f.2.2 > 0 then newCapacity * f.2.2 else newCapacity
      (f.1, growCol f.2.1 ((mget store.fields f.1).getD []) allocSize)) }

/-- Write consecutive values into a column starting at `base`
(out-of-range writes are discarded, as typed arrays do). -/
def colWriteAt (col : List JVal) (base : Nat) (vals : List JVal) : List JVal :=
  match vals with
  | [] => col
  | v :: rest => colWriteAt (col.set base v) (base + 1) rest

/-- The `!data` branch of `soaWrite` for one field: zero the row slot(s)
(the literal `0` is assigned, including into string columns). -/
def soaWriteFieldAbsent (size : Nat) (idx : Nat) (col : List JVal) : List JVal :=
  if size > 0 then colWriteAt col (idx * size) (List.replicate size (.num 0))
  else col.set idx (.num 0)

/-- The data branch of `soaWrite` for one field.  Fixed-array fields copy
`src[j] ?? 0` only when `data[field]` is truthy; scalar fields assign
`data[field]` unconditionally (a missing field assigns `undefined`,
which the column coerces). -/
def soaWriteFieldData (k : ColKind) (size : Nat) (idx : Nat) (data : Record)
    (fname : String) (col : List JVal) : List JVal :=
  if size > 0 then
    let src := (mget data fname).getD .undef
    if src.truthy then
      colWriteAt col (idx * size)
        ((List.range size).map (fun j =>
          coerceStore k (match jsIndex src j with | .undef => .num 0 | v => v)))
    else col
  else
    col.set idx (coerceStore k ((mget data fname).getD .undef))

/-- `soaWrite(store, idx, data)`. -/
def soaWrite (store : SoAStore) (idx : Nat) (data : ComponentData) : SoAStore :=
  match data with
  | none =>
      { store with fields := store.schema.foldl (fun fs f =>
          mset fs f.1 (soaWriteFieldAbsent f.2.2 idx ((mget fs f.1).getD []))) store.fields }
  | some d =>
      { store with fields := store.schema.foldl (fun fs f =>
          mset fs f.1 (soaWriteFieldData f.2.1 f.2.2 idx d f.1 ((mget fs f.1).getD []))) store.fields }

/-- `soaRead(store, idx)`: a fresh record, fixed-array fields copied out. -/
def soaRead (store : SoAStore) (idx : Nat) : Record :=
  store.schema.map (fun f =>
    let col := (mget store.fields f.1).getD []
    if f.2.2 > 0 then
      (f.1, JVal.arrv ((List.range f.2.2).map (fun j => col.getD (idx * f.2.2 + j) .undef)))
    else
      (f.1, col.getD idx .undef))

/-- Swap two elements of a column. -/
def colSwap (col : List JVal) (i j : Nat) : List JVal :=
  let tmp := col.getD i .undef
  (col.set i (col.getD j .undef)).set j tmp

/-- `soaSwap(store, idxA, idxB)`. -/
def soaSwap (store : SoAStore) (idxA idxB : Nat) : SoAStore :=
  { store with fields := store.schema.foldl (fun fs f =>
      let col := (mget fs f.1).getD []
      let col' :=
        if f.2.2 > 0 then
          (List.range f.2.2).foldl
            (fun c j => colSwap c (idxA * f.2.2 + j) (idxB * f.2.2 + j)) col
        else colSwap col idxA idxB
      mset fs f.1 col') store.fields }

/-- A snapshot mirror: parallel columns, one per field. -/
abbrev SnapshotStore := List (String × List JVal)

/-- `createSnapshotStore`. -/
def createSnapshotStore (schema : List (String × FieldSpec)) (capacity : Nat) : SnapshotStore :=
  schema.map (fun f =>
    (f.1, initCol f.2.1 (if f.2.2 > 0 then capacity * f.2.2 else capacity)))

/-- `growSnapshotStore`. -/
def growSnapshotStore (snap : SnapshotStore) (schema : List (String × FieldSpec))
    (newCapacity : Nat) : SnapshotStore :=
  schema.map (fun f =>
    let allocSize := if f.2.2 > 0 then newCapacity * f.2.2 else newCapacity
    (f.1, growCol f.2.1 ((mget snap f.1).getD []) allocSize))

-- ── Bitmask helpers (EntityManager.ts 100-153) ──────────

/-- `slotsNeeded(bitCount)` (only ever called with `bitCount ≥ 1`). -/
def slotsNeeded (bitCount : Nat) : Nat :=
  (bitCount - 1) / 32 + 1

/-- `createMask`. -/
def createMask (slots : Nat) : List Nat :=
  List.replicate slots 0

/-- `maskSetBit`: grows the limb array to cover the bit when needed. -/
def maskSetBit (mask : List Nat) (bit : Nat) : List Nat :=
  let slot := bit / 32
  if slot ≥ mask.length then
    let grown := mask ++ List.replicate (slot + 1 - mask.length) 0
    grown.set slot (Nat.lor (grown.getD slot 0) (Nat.shiftLeft 1 (bit % 32)))
  else
    mask.set slot (Nat.lor (mask.getD slot 0) (Nat.shiftLeft 1 (bit % 32)))

/-- `maskContains(a, b)`: `a ⊇ b` (limbs of `a` past its length read 0). -/
def maskContains (a b : List Nat) : Bool :=
  (List.range b.length).all (fun i =>
    Nat.land (a.getD i 0) (b.getD i 0) == b.getD i 0)

/-- `maskDisjoint(a, b)` over the common limb prefix. -/
def maskDisjoint (a b : List Nat) : Bool :=
  (List.range (min a.length b.length)).all (fun i =>
    Nat.land (a.getD i 0) (b.getD i 0) == 0)

/-- `maskOverlaps(a, b)` over the common limb prefix. -/
def maskOverlaps (a b : List Nat) : Bool :=
  (List.range (min a.length b.length)).any (fun i =>
    Nat.land (a.getD i 0) (b.getD i 0) != 0)

/-- `maskKey`: comma-joined decimal limbs (including trailing zero limbs). -/
def maskKey (mask : List Nat) : String :=
  String.intercalate "," (mask.map toString)

-- ── Entity manager state (EntityManager.ts 284-332) ─────

/-- A deferred structural operation. -/
inductive DeferredOp where
  | add (entityId : Nat) (comp : Sym) (data : ComponentData)
  | rem (entityId : Nat) (comp : Sym)
  | destroy (entityId : Nat)

/-- An archetype table.  Objects live in the arena `EMState.archs`; the
key map and directory hold arena indices (JS object references). -/
structure Archetype where
  key : List Nat
  id : Nat
  types : List Sym
  entityIds : List Nat
  components : List (Sym × Option SoAStore)
  snapshots : Option (List (Sym × SnapshotStore))
  snapshotEntityIds : Option (List Nat)
  snapshotCount : Nat
  entityToIndex : List (Nat × Nat)
  count : Nat
  capacity : Nat

instance : Inhabited Archetype :=
  ⟨{ key := []
     id := 0
     types := []
     entityIds := []
     components := []
     snapshots := none
     snapshotEntityIds := none
     snapshotCount := 0
     entityToIndex := []
     count := 0
     capacity := 0 }⟩

/-- Hook-bus state.  Callbacks are opaque identifiers; `flushHooksRun`
returns the invocation trace instead of calling them. -/
structure Hooks where
  addCbs : List (Sym × List Nat)
  removeCbs : List (Sym × List Nat)
  pendingAdd : List (Sym × List Nat)
  pendingRemove : List (Sym × List Nat)
deriving DecidableEq

/-- `SerializedData` (entity-id keys already parsed to numbers). -/
structure SerializedData where
  nextId : Nat
  entities : List Nat
  components : List (String × List (Nat × ComponentData))

/-- The whole closure state of `createEntityManager`, plus the module-level
`componentSchemas` table of ComponentRegistry (read-only here). -/
structure EMState where
  nextId : Nat
  nextArchId : Nat
  allEntityIds : List Nat
  trackFilter : Option (List Nat)
  createdSet : Option (List Nat)
  destroyedSet : Option (List Nat)
  trackedArchetypes : List Nat
  hooks : Option Hooks
  removedData : List (Nat × List (Sym × Record))
  iterating : Nat
  deferred : List DeferredOp
  componentBitIndex : List (Sym × Nat)
  nextBitIndex : Nat
  componentSchemas : List (Sym × List (String × FieldSpec))
  archs : List Archetype
  archetypes : List (List Nat × Nat)
  entityArchetype : List (Nat × Nat)
  queryCacheVersion : Nat
  queryCache : List ((List Nat × Option (List Nat)) × (Nat × List Nat))

/-- The state `createEntityManager()` starts from, given the registry's
schema table. -/
def initState (schemas : List (Sym × List (String × FieldSpec))) : EMState :=
  { nextId := 1
    nextArchId := 1
    allEntityIds := []
    trackFilter := none
    createdSet := none
    destroyedSet := none
    trackedArchetypes := []
    hooks := none
    removedData := []
    iterating := 0
    deferred := []
    componentBitIndex := []
    nextBitIndex := 0
    componentSchemas := schemas
    archs := []
    archetypes := []
    entityArchetype := []
    queryCacheVersion := 0
    queryCache := [] }

/-- `INITIAL_CAPACITY`. -/
def INITIAL_CAPACITY : Nat := 64

/-- Read an archetype object from the arena. -/
def getArch (s : EMState) (ai : Nat) : Archetype :=
  s.archs.getD ai default

/-- Write an archetype object back to the arena. -/
def setArch (s : EMState) (ai : Nat) (a : Archetype) : EMState :=
  { s with archs := s.archs.set ai a }

/-- `getBit`: idempotent bit-index assignment. -/
def getBit (s : EMState) (t : Sym) : Nat × EMState :=
  match mget s.componentBitIndex t with
  | some b => (b, s)
  | none =>
      (s.nextBitIndex,
       { s with
         componentBitIndex := mset s.componentBitIndex t s.nextBitIndex
         nextBitIndex := s.nextBitIndex + 1 })

/-- `computeMask`: slot count is fixed from `nextBitIndex` before any new
bit is assigned; `maskSetBit` grows past it when required. -/
def computeMask (s : EMState) (types : List Sym) : List Nat × EMState :=
  let slots := if s.nextBitIndex > 0 then slotsNeeded s.nextBitIndex else 1
  types.foldl (fun acc t =>
    let r := getBit acc.2 t
    (maskSetBit acc.1 r.1, r.2)) (createMask slots, s)

/-- `getOrCreateArchetype` (keyed by the mask limbs; `maskKey` renders them
injectively, so keying by the limb list is observationally the same). -/
def getOrCreateArchetype (s : EMState) (types : List Sym) : Nat × EMState :=
  let r := computeMask s types
  let mask := r.1
  let s1 := r.2
  match mget s1.archetypes mask with
  | some ai => (ai, s1)
  | none =>
      let tracked :=
        match s1.trackFilter with
        | some tf => maskOverlaps mask tf
        | none => false
      let typeSet := jsSetOfList types
      let comps : List (Sym × Option SoAStore) := typeSet.map (fun t =>
        (t, (mget s1.componentSchemas t).map (fun sch => createSoAStore sch INITIAL_CAPACITY)))
      let snaps : Option (List (Sym × SnapshotStore)) :=
        if tracked then
          some (typeSet.filterMap (fun t =>
            (mget s1.componentSchemas t).map (fun sch =>
              (t, createSnapshotStore sch INITIAL_CAPACITY))))
        else none
      let arch : Archetype :=
        { key := mask
          id := s1.nextArchId
          types := typeSet
          entityIds := []
          components := comps
          snapshots := snaps
          snapshotEntityIds := if tracked then some [] else none
          snapshotCount := 0
          entityToIndex := []
          count := 0
          capacity := INITIAL_CAPACITY }
      let ai := s1.archs.length
      (ai,
       { s1 with
         nextArchId := s1.nextArchId + 1
         archs := s1.archs ++ [arch]
         archetypes := mset s1.archetypes mask ai
         trackedArchetypes :=
           if tracked then s1.trackedArchetypes ++ [ai] else s1.trackedArchetypes
         queryCacheVersion := s1.queryCacheVersion + 1 })

/-- `ensureCapacity`: double capacity, growing every column and any
snapshot mirror. -/
def ensureCapacity (arch : Archetype) : Archetype :=
  if arch.count < arch.capacity then arch
  else
    let newCap := arch.capacity * 2
    { arch with
      capacity := newCap
      components := arch.components.map (fun p =>
        (p.1, p.2.map (fun st => growSoAStore st newCap)))
      snapshots := arch.snapshots.map (fun sn =>
        arch.components.foldl (fun acc p =>
          match p.2 with
          | none => acc
          | some st =>
              match mget acc p.1 with
              | none => acc
              | some snap => mset acc p.1 (growSnapshotStore snap st.schema newCap)) sn) }

/-- `addToArchetype(arch, entityId, componentMap)`. -/
def addToArchetype (s : EMState) (ai : Nat) (entityId : Nat)
    (componentMap : List (Sym × ComponentData)) : EMState :=
  let s1 := setArch s ai (ensureCapacity (getArch s ai))
  let arch := getArch s1 ai
  let idx := arch.count
  let arch1 :=
    { arch with
      entityIds := jsArraySet arch.entityIds idx entityId 0
      components := arch.types.foldl (fun cs t =>
        match mget cs t with
        | some (some store) =>
            mset cs t (some (soaWrite store idx ((mget componentMap t).getD none)))
        | _ => cs) arch.components
      entityToIndex := mset arch.entityToIndex entityId idx
      count := arch.count + 1 }
  let s2 := setArch s1 ai arch1
  { s2 with entityArchetype := mset s2.entityArchetype entityId ai }

/-- `removeFromArchetype(arch, entityId)`: swap-remove. -/
def removeFromArchetype (s : EMState) (ai : Nat) (entityId : Nat) : EMState :=
  let arch := getArch s ai
  let idx := (mget arch.entityToIndex entityId).getD 0
  let lastIdx := arch.count - 1
  let arch1 :=
    if idx ≠ lastIdx then
      let lastEntity := arch.entityIds.getD lastIdx 0
      { arch with
        entityIds := arch.entityIds.set idx lastEntity
        components := arch.components.map (fun p =>
          (p.1, p.2.map (fun st => soaSwap st idx lastIdx)))
        entityToIndex := mset arch.entityToIndex lastEntity idx }
    else arch
  let arch2 :=
    { arch1 with
      entityIds := arch1.entityIds.take lastIdx
      entityToIndex := mdel arch1.entityToIndex entityId
      count := arch.count - 1 }
  let s1 := setArch s ai arch2
  { s1 with entityArchetype := mdel s1.entityArchetype entityId }

/-- `readComponentData`. -/
def readComponentData (arch : Archetype) (t : Sym) (idx : Nat) : Option Record :=
  match mget arch.components t with
  | some (some store) => some (soaRead store idx)
  | _ => none

/-- The archetype scan inside `getMatchingArchetypes` (cache miss path). -/
def matchScan (s : EMState) (includeMask : List Nat) (excludeMask : Option (List Nat)) :
    List Nat :=
  (s.archetypes.map (fun p => p.2)).filter (fun ai =>
    let a := getArch s ai
    maskContains a.key includeMask &&
      (match excludeMask with
       | none => true
       | some em => maskDisjoint a.key em))

/-- `getMatchingArchetypes` with its version-checked query cache. -/
def getMatchingArchetypes (s : EMState) (includeTypes excludeTypes : List Sym) :
    List Nat × EMState :=
  let r1 := computeMask s includeTypes
  let includeMask := r1.1
  let r2 : Option (List Nat) × EMState :=
    if excludeTypes.length > 0 then
      let r := computeMask r1.2 excludeTypes
      (some r.1, r.2)
    else (none, r1.2)
  let excludeMask := r2.1
  let s2 := r2.2
  let qkey := (includeMask, excludeMask)
  match mget s2.queryCache qkey with
  | some c =>
      if c.1 = s2.queryCacheVersion then (c.2, s2)
      else
        let matching := matchScan s2 includeMask excludeMask
        (matching,
         { s2 with queryCache := mset s2.queryCache qkey (s2.queryCacheVersion, matching) })
  | none =>
      let matching := matchScan s2 includeMask excludeMask
      (matching,
       { s2 with queryCache := mset s2.queryCache qkey (s2.queryCacheVersion, matching) })

/-- Push an id onto a component's pending-add buffer when that buffer
exists (i.e. the component has add-observers). -/
def pushPendingAdd (s : EMState) (t : Sym) (id : Nat) : EMState :=
  match s.hooks with
  | none => s
  | some h =>
      match mget h.pendingAdd t with
      | some pending =>
          { s with hooks := some { h with pendingAdd := mset h.pendingAdd t (pending ++ [id]) } }
      | none => s

/-- Record an id in the `destroyed` delta set when tracking is on and the
archetype mask overlaps the filter. -/
def trackDestroyed (s : EMState) (key : List Nat) (id : Nat) : EMState :=
  match s.destroyedSet, s.trackFilter with
  | some ds, some tf =>
      if maskOverlaps key tf then { s with destroyedSet := some (jsSetAdd ds id) } else s
  | _, _ => s

/-- `doDestroyEntity` (EntityManager.ts 443-469). -/
def doDestroyEntity (s : EMState) (id : Nat) : EMState :=
  let s1 :=
    match mget s.entityArchetype id with
    | none => s
    | some ai =>
        let arch := getArch s ai
        let sa :=
          match s.hooks with
          | none => s
          | some h =>
              let h1 :=
                { h with pendingRemove := arch.types.foldl (fun pr t =>
                    match mget pr t with
                    | some pending => mset pr t (pending ++ [id])
                    | none => pr) h.pendingRemove }
              let sh := { s with hooks := some h1 }
              if h1.removeCbs.length > 0 then
                let idx := (mget arch.entityToIndex id).getD 0
                let snapEntries := arch.types.filterMap (fun t =>
                  if (mget h1.removeCbs t).isSome then
                    match mget arch.components t with
                    | some (some store) => some (t, soaRead store idx)
                    | _ => none
                  else none)
                if snapEntries.length > 0 then
                  { sh with removedData := mset sh.removedData id snapEntries }
                else sh
              else sh
        let sb := trackDestroyed sa arch.key id
        removeFromArchetype sb ai id
  { s1 with allEntityIds := jsSetDel s1.allEntityIds id }

/-- `doAddComponent` (EntityManager.ts 471-509). -/
def doAddComponent (s : EMState) (entityId : Nat) (comp : Sym) (data : ComponentData) :
    EMState :=
  match mget s.entityArchetype entityId with
  | none =>
      let r := getOrCreateArchetype s [comp]
      let s1 := addToArchetype r.2 r.1 entityId [(comp, data)]
      pushPendingAdd s1 comp entityId
  | some ai =>
      let arch := getArch s ai
      if comp ∈ arch.types then
        match mget arch.components comp with
        | some (some store) =>
            let idx := (mget arch.entityToIndex entityId).getD 0
            setArch s ai
              { arch with components := mset arch.components comp (some (soaWrite store idx data)) }
        | _ => s
      else
        let newTypes := arch.types ++ [comp]
        let r := getOrCreateArchetype s newTypes
        let s1 := r.2
        let arch1 := getArch s1 ai
        let idx := (mget arch1.entityToIndex entityId).getD 0
        let cmap := arch1.types.foldl (fun m t =>
          mset m t (readComponentData arch1 t idx)) [(comp, data)]
        let s2 := removeFromArchetype s1 ai entityId
        let s3 := addToArchetype s2 r.1 entityId cmap
        pushPendingAdd s3 comp entityId

/-- `doRemoveComponent` (EntityManager.ts 511-550). -/
def doRemoveComponent (s : EMState) (entityId : Nat) (comp : Sym) : EMState :=
  match mget s.entityArchetype entityId with
  | none => s
  | some ai =>
      let arch := getArch s ai
      if comp ∉ arch.types then s
      else
        let s1 :=
          match s.hooks with
          | none => s
          | some h =>
              let h1 :=
                match mget h.pendingRemove comp with
                | some pending =>
                    { h with pendingRemove := mset h.pendingRemove comp (pending ++ [entityId]) }
                | none => h
              let sh := { s with hooks := some h1 }
              if (mget h1.removeCbs comp).isSome then
                match mget arch.components comp with
                | some (some store) =>
                    let idx := (mget arch.entityToIndex entityId).getD 0
                    let cur := (mget sh.removedData entityId).getD []
                    { sh with
                      removedData := mset sh.removedData entityId
                        (mset cur comp (soaRead store idx)) }
                | _ => sh
              else sh
        let s2 := trackDestroyed s1 arch.key entityId
        if arch.types.length = 1 then
          removeFromArchetype s2 ai entityId
        else
          let newTypes := arch.types.filter (fun t => decide (t ≠ comp))
          let r := getOrCreateArchetype s2 newTypes
          let arch1 := getArch r.2 ai
          let idx := (mget arch1.entityToIndex entityId).getD 0
          let cmap := newTypes.foldl (fun m t =>
            mset m t (readComponentData arch1 t idx)) []
          let s3 := removeFromArchetype r.2 ai entityId
          addToArchetype s3 r.1 entityId cmap

/-- Dispatch one deferred op through the ordinary mutator paths. -/
def doOp (s : EMState) (op : DeferredOp) : EMState :=
  match op with
  | .add e c d => doAddComponent s e c d
  | .rem e c => doRemoveComponent s e c
  | .destroy e => doDestroyEntity s e

/-- `flushDeferred`: drain the queue in FIFO order. -/
def flushDeferred (s : EMState) : EMState :=
  let ops := s.deferred
  ops.foldl doOp { s with deferred := [] }

-- ── Public operations (EntityManager.ts 563-1017) ───────

/-- `createEntity()`: allocate the next id, no archetype membership,
no iteration check. -/
def createEntity (s : EMState) : Nat × EMState :=
  (s.nextId,
   { s with
     nextId := s.nextId + 1
     allEntityIds := jsSetAdd s.allEntityIds s.nextId })

/-- `destroyEntity(id)`: deferred while iterating. -/
def destroyEntity (s : EMState) (id : Nat) : EMState :=
  if s.iterating > 0 then { s with deferred := s.deferred ++ [.destroy id] }
  else doDestroyEntity s id

/-- `addComponent(id, C, data?)`: while iterating, an in-place overwrite
when the entity already has C, otherwise deferred. -/
def addComponent (s : EMState) (entityId : Nat) (comp : Sym) (data : ComponentData) :
    EMState :=
  if s.iterating > 0 then
    match mget s.entityArchetype entityId with
    | some ai =>
        let arch := getArch s ai
        if comp ∈ arch.types then
          match mget arch.components comp with
          | some (some store) =>
              let idx := (mget arch.entityToIndex entityId).getD 0
              setArch s ai
                { arch with components := mset arch.components comp (some (soaWrite store idx data)) }
          | _ => s
        else { s with deferred := s.deferred ++ [.add entityId comp data] }
    | none => { s with deferred := s.deferred ++ [.add entityId comp data] }
  else doAddComponent s entityId comp data

/-- `removeComponent(id, C)`: deferred while iterating. -/
def removeComponent (s : EMState) (entityId : Nat) (comp : Sym) : EMState :=
  if s.iterating > 0 then { s with deferred := s.deferred ++ [.rem entityId comp] }
  else doRemoveComponent s entityId comp

/-- The tombstone fallback of `getComponent`. -/
def removedRecordLookup (s : EMState) (entityId : Nat) (comp : Sym) : Option Record :=
  match mget s.removedData entityId with
  | some m => mget m comp
  | none => none

/-- `getComponent(id, C)`: live row when the entity has a placement and a
row index, else the tombstone map, else absent. -/
def getComponent (s : EMState) (entityId : Nat) (comp : Sym) : Option Record :=
  match mget s.entityArchetype entityId with
  | some ai =>
      let arch := getArch s ai
      match mget arch.entityToIndex entityId with
      | some idx => readComponentData arch comp idx
      | none => removedRecordLookup s entityId comp
  | none => removedRecordLookup s entityId comp

/-- The tombstone fallback of `get`. -/
def removedFieldLookup (s : EMState) (entityId : Nat) (sym : Sym) (field : String) : JVal :=
  match mget s.removedData entityId with
  | some m =>
      match mget m sym with
      | some compData => (mget compData field).getD .undef
      | none => .undef
  | none => JVal.undef

/-- The field spec used by `get`/`set`: `_arraySizes[field] || 0` and the
element kind (defaults irrelevant for schema fields). -/
def fieldSpecOf (store : SoAStore) (field : String) : FieldSpec :=
  (mget store.schema field).getD (.generic, 0)

/-- `get(id, fieldRef)`: JS `undefined` is `.undef`.  Falls back to the
tombstone map only when the placement's store for the component is
missing or null. -/
def getField (s : EMState) (entityId : Nat) (sym : Sym) (field : String) : JVal :=
  match mget s.entityArchetype entityId with
  | some ai =>
      let arch := getArch s ai
      match mget arch.components sym with
      | some (some store) =>
          let idx := (mget arch.entityToIndex entityId).getD 0
          let sp := fieldSpecOf store field
          let col := (mget store.fields field).getD []
          if sp.2 > 0 then
            .arrv ((List.range sp.2).map (fun j => col.getD (idx * sp.2 + j) .undef))
          else col.getD idx .undef
      | _ => removedFieldLookup s entityId sym field
  | none => removedFieldLookup s entityId sym field

/-- `set(id, fieldRef, value)`: silent no-op without a live row or store;
never writes tombstones. -/
def setField (s : EMState) (entityId : Nat) (sym : Sym) (field : String) (value : JVal) :
    EMState :=
  match mget s.entityArchetype entityId with
  | none => s
  | some ai =>
      let arch := getArch s ai
      match mget arch.components sym with
      | some (some store) =>
          let idx := (mget arch.entityToIndex entityId).getD 0
          let sp := fieldSpecOf store field
          let col := (mget store.fields field).getD []
          let col' :=
            if sp.2 > 0 then
              match value with
              | .arrv vs => colWriteAt col (idx * sp.2) (vs.map (coerceStore sp.1))
              | _ => col
            else col.set idx (coerceStore sp.1 value)
          let store' : SoAStore := { store with fields := mset store.fields field col' }
          setArch s ai
            { arch with components := mset arch.components sym (some store') }
      | _ => s

/-- `hasComponent(id, C)`. -/
def hasComponent (s : EMState) (entityId : Nat) (comp : Sym) : Bool :=
  match mget s.entityArchetype entityId with
  | some ai => comp ∈ (getArch s ai).types
  | none => false

/-- `query(include, exclude?)`: ids of matched tables, `count` ids per
table in row order. -/
def query (s : EMState) (includeTypes excludeTypes : List Sym) : List Nat × EMState :=
  let r := getMatchingArchetypes s includeTypes excludeTypes
  (r.1.foldl (fun acc ai =>
      let arch := getArch r.2 ai
      acc ++ (List.range arch.count).map (fun i => arch.entityIds.getD i 0)) [],
   r.2)

/-- `count(include, exclude?)`: sum of row counts of matched tables. -/
def countQuery (s : EMState) (includeTypes excludeTypes : List Sym) : Nat × EMState :=
  let r := getMatchingArchetypes s includeTypes excludeTypes
  (r.1.foldl (fun total ai => total + (getArch r.2 ai).count) 0, r.2)

/-- `createEntityWith(C1, d1, …)`: immediate (no iteration check), one
row write, one pending-add push per supplied component. -/
def createEntityWith (s : EMState) (args : List (Sym × ComponentData)) : Nat × EMState :=
  let id := s.nextId
  let s0 :=
    { s with
      nextId := s.nextId + 1
      allEntityIds := jsSetAdd s.allEntityIds s.nextId }
  let types := args.map (fun a => a.1)
  let cmap := args.foldl (fun m a => mset m a.1 a.2) []
  let r := getOrCreateArchetype s0 types
  let s1 := addToArchetype r.2 r.1 id cmap
  let s2 := types.foldl (fun st t => pushPendingAdd st t id) s1
  let s3 :=
    match s2.createdSet, s2.trackFilter with
    | some cs, some tf =>
        if maskOverlaps (getArch s2 r.1).key tf then
          { s2 with createdSet := some (jsSetAdd cs id) }
        else s2
    | _, _ => s2
  (id, s3)

/-- An empty hook bus, allocated on first subscription. -/
def emptyHooks : Hooks :=
  { addCbs := [], removeCbs := [], pendingAdd := [], pendingRemove := [] }

/-- `onAdd(C, cb)`: register an add-observer (callback = opaque id);
first observer of a component allocates its pending buffer. -/
def onAdd (s : EMState) (comp : Sym) (cb : Nat) : EMState :=
  let h := s.hooks.getD emptyHooks
  let h1 :=
    if (mget h.addCbs comp).isSome then h
    else { h with addCbs := mset h.addCbs comp [], pendingAdd := mset h.pendingAdd comp [] }
  let h2 := { h1 with addCbs := mset h1.addCbs comp (((mget h1.addCbs comp).getD []) ++ [cb]) }
  { s with hooks := some h2 }

/-- `onRemove(C, cb)`. -/
def onRemove (s : EMState) (comp : Sym) (cb : Nat) : EMState :=
  let h := s.hooks.getD emptyHooks
  let h1 :=
    if (mget h.removeCbs comp).isSome then h
    else { h with removeCbs := mset h.removeCbs comp [], pendingRemove := mset h.pendingRemove comp [] }
  let h2 := { h1 with removeCbs := mset h1.removeCbs comp (((mget h1.removeCbs comp).getD []) ++ [cb]) }
  { s with hooks := some h2 }

/-- The invocation trace of one pending buffer: callbacks outer loop,
pending ids inner loop (EntityManager.ts 871-873 and 879-881). -/
def bufferTrace (cbs : List Nat) (pending : List Nat) : List (Nat × Nat) :=
  cbs.foldl (fun tr c => tr ++ pending.map (fun e => (c, e))) []

/-- `flushHooks()`: returns the (callback id, entity id) invocation trace
and the post state; observers are modelled as pure (they do not call back
into the manager). -/
def flushHooksRun (s : EMState) : List (Nat × Nat) × EMState :=
  match s.hooks with
  | none => ([], s)
  | some h =>
      let addTrace := h.pendingAdd.foldl (fun tr p =>
        if p.2.length = 0 then tr
        else tr ++ bufferTrace ((mget h.addCbs p.1).getD []) p.2) []
      let removeTrace := h.pendingRemove.foldl (fun tr p =>
        if p.2.length = 0 then tr
        else tr ++ bufferTrace ((mget h.removeCbs p.1).getD []) p.2) []
      let h' :=
        { h with
          pendingAdd := h.pendingAdd.map (fun p => (p.1, []))
          pendingRemove := h.pendingRemove.map (fun p => (p.1, [])) }
      (addTrace ++ removeTrace, { s with hooks := some h' })

/-- `commitRemovals()`: clear the tombstone map. -/
def commitRemovals (s : EMState) : EMState :=
  { s with removedData := [] }

/-- `enableTracking(C)`: set the filter, reset delta sets, retroactively
give snapshot mirrors to overlapping archetypes. -/
def enableTracking (s : EMState) (filterComponent : Sym) : EMState :=
  let r := getBit s filterComponent
  let tf := maskSetBit (createMask (slotsNeeded (r.1 + 1))) r.1
  let s2 :=
    { r.2 with
      trackFilter := some tf
      createdSet := some []
      destroyedSet := some [] }
  s2.archetypes.foldl (fun st p =>
    let ai := p.2
    let arch := getArch st ai
    if maskOverlaps arch.key tf && arch.snapshots.isNone then
      let snaps := arch.components.filterMap (fun q =>
        q.2.map (fun st' => (q.1, createSnapshotStore st'.schema arch.capacity)))
      let st1 := setArch st ai
        { arch with
          snapshots := some snaps
          snapshotEntityIds := some []
          snapshotCount := 0 }
      { st1 with trackedArchetypes := st1.trackedArchetypes ++ [ai] }
    else st) s2

/-- `flushChanges()`: return and reset the delta sets. -/
def flushChanges (s : EMState) : (Option (List Nat) × Option (List Nat)) × EMState :=
  ((s.createdSet, s.destroyedSet),
   { s with createdSet := some [], destroyedSet := some [] })

/-- `flushSnapshots()`: copy each tracked table's committed column prefix
and entity ids into the snapshot mirror. -/
def flushSnapshots (s : EMState) : EMState :=
  s.trackedArchetypes.foldl (fun st ai =>
    let arch := getArch st ai
    let cnt := arch.count
    let snapEids := (List.range cnt).foldl (fun l i =>
      jsArraySet l i (arch.entityIds.getD i 0) 0) (arch.snapshotEntityIds.getD [])
    let snaps' := arch.snapshots.map (fun sn =>
      arch.components.foldl (fun acc p =>
        match p.2 with
        | none => acc
        | some store =>
            match mget acc p.1 with
            | none => acc
            | some snap =>
                mset acc p.1 (store.schema.foldl (fun sp f =>
                  let src := (mget store.fields f.1).getD []
                  let dst := (mget sp f.1).getD []
                  let len := if f.2.2 > 0 then cnt * f.2.2 else cnt
                  mset sp f.1 (colWriteAt dst 0 (src.take len))) snap)) sn)
    setArch st ai
      { arch with
        snapshotEntityIds := some snapEids
        snapshotCount := cnt
        snapshots := snaps' }) s

/-- `deserialize(data, nameToSymbol)` (EntityManager.ts 956-1016):
clears entity/archetype/cache state, then groups loaded entities by mask
key and inserts them; grouping keys by the mask limbs (as `maskKey`
renders limb lists injectively). -/
def deserialize (s : EMState) (data : SerializedData) (nameToSymbol : List (String × Sym)) :
    EMState :=
  let s0 :=
    { s with
      allEntityIds := jsSetOfList data.entities
      archetypes := []
      entityArchetype := []
      queryCache := []
      queryCacheVersion := 0
      nextId := data.nextId }
  let ec0 : List (Nat × List (Sym × ComponentData)) :=
    (jsSetOfList data.entities).map (fun id => (id, []))
  let ec1 := data.components.foldl (fun ec p =>
    match mget nameToSymbol p.1 with
    | none => ec
    | some sym =>
        p.2.foldl (fun ec2 q =>
          match mget ec2 q.1 with
          | none => ec2
          | some compMap => mset ec2 q.1 (mset compMap sym q.2)) ec) ec0
  let grouped := ec1.foldl
    (fun (acc : List (List Nat × List (Nat × List (Sym × ComponentData))) × EMState) e =>
      let types := e.2.map (fun p => p.1)
      if types.length = 0 then acc
      else
        let cm := computeMask acc.2 types
        match mget acc.1 cm.1 with
        | some lst => (mset acc.1 cm.1 (lst ++ [e]), cm.2)
        | none => (acc.1 ++ [(cm.1, [e])], cm.2)) ([], s0)
  grouped.1.foldl (fun st grp =>
    match grp.2 with
    | [] => st
    | first :: _ =>
        let types := first.2.map (fun p => p.1)
        let go := getOrCreateArchetype st types
        grp.2.foldl (fun st2 e => addToArchetype st2 go.1 e.1 e.2) go.2) grouped.2

-- ── Operation labels and forEach ────────────────────────

/-- A public manager call, for quantifying over operation sequences
(callback bodies inside `forEach` are sequences of these). -/
inductive UserOp where
  | createOp
  | createWithOp (args : List (Sym × ComponentData))
  | destroyOp (id : Nat)
  | addCompOp (id : Nat) (comp : Sym) (data : ComponentData)
  | removeCompOp (id : Nat) (comp : Sym)
  | setOp (id : Nat) (sym : Sym) (field : String) (value : JVal)
  | onAddOp (comp : Sym) (cb : Nat)
  | onRemoveOp (comp : Sym) (cb : Nat)
  | flushHooksOp
  | commitRemovalsOp
  | enableTrackingOp (comp : Sym)
  | flushChangesOp
  | flushSnapshotsOp
  | queryOp (includeTypes excludeTypes : List Sym)
  | countOp (includeTypes excludeTypes : List Sym)
  | deserializeOp (data : SerializedData) (nameToSymbol : List (String × Sym))

/-- Apply one public call to the state (discarding return values). -/
def applyOp (s : EMState) (op : UserOp) : EMState :=
  match op with
  | .createOp => (createEntity s).2
  | .createWithOp args => (createEntityWith s args).2
  | .destroyOp id => destroyEntity s id
  | .addCompOp id c d => addComponent s id c d
  | .removeCompOp id c => removeComponent s id c
  | .setOp id sym f v => setField s id sym f v
  | .onAddOp c cb => onAdd s c cb
  | .onRemoveOp c cb => onRemove s c cb
  | .flushHooksOp => (flushHooksRun s).2
  | .commitRemovalsOp => commitRemovals s
  | .enableTrackingOp c => enableTracking s c
  | .flushChangesOp => (flushChanges s).2
  | .flushSnapshotsOp => flushSnapshots s
  | .queryOp inc exc => (query s inc exc).2
  | .countOp inc exc => (countQuery s inc exc).2
  | .deserializeOp d n2s => deserialize s d n2s

/-- The body of `forEach` up to the `finally` block: match tables, bump
the depth counter, run the callback (the public calls `ops`) once per
non-empty matched table. -/
def forEachBody (s : EMState) (includeTypes excludeTypes : List Sym) (ops : List UserOp) :
    EMState :=
  let r := getMatchingArchetypes s includeTypes excludeTypes
  let s1 := { r.2 with iterating := r.2.iterating + 1 }
  r.1.foldl (fun st ai =>
    if (getArch st ai).count = 0 then st
    else ops.foldl applyOp st) s1

/-- `forEach(include, callback, exclude?)`: body, guaranteed depth
decrement, drain of the deferral queue at depth 0. -/
def runForEach (s : EMState) (includeTypes excludeTypes : List Sym) (ops : List UserOp) :
    EMState :=
  let s3 := { forEachBody s includeTypes excludeTypes ops with
              iterating := (forEachBody s includeTypes excludeTypes ops).iterating - 1 }
  if s3.iterating == 0 && s3.deferred.length != 0 then flushDeferred s3 else s3

-- ── Derived notions used by the specification claims ────

/-- Bit `i` of a mask, reading absent limbs as zero (value semantics of
the variable-width bitmask). -/
def maskTestBit (m : List Nat) (i : Nat) : Bool :=
  Nat.testBit (m.getD (i / 32) 0) (i % 32)

/-- Equality of masks "by value": the same set of bits, regardless of how
many trailing zero limbs each carries. -/
def MaskValueEq (a b : List Nat) : Prop :=
  ∀ i, maskTestBit a i = maskTestBit b i

/-- All limbs are genuine `u32` values. -/
def MaskLimbsValid (m : List Nat) : Prop :=
  ∀ x ∈ m, x < 2 ^ 32

/-- The per-buffer dispatch order asserted by the spec: for each pending
id (buffer order), every observer (registration order) before the next
id. -/
def entityMajorTrace (cbs pending : List Nat) : List (Nat × Nat) :=
  pending.foldl (fun tr e => tr ++ cbs.map (fun c => (c, e))) []

/-- The dispatch order over a whole pending map as the code produces it:
buffers in insertion order, observers outer, ids inner. -/
def allBuffersTrace (cbsMap pendingMap : List (Sym × List Nat)) : List (Nat × Nat) :=
  (pendingMap.map (fun p => bufferTrace ((mget cbsMap p.1).getD []) p.2)).flatten

/-- The deferred ops a public call may enqueue (the structural mutations
that move rows). -/
def deferKind : UserOp → Bool
  | .addCompOp _ _ _ => true
  | .removeCompOp _ _ => true
  | .destroyOp _ => true
  | _ => false

-- ── Concrete scenario states (for counterexamples/witnesses) ──

/-- A fresh manager with no registered schemas. -/
def maskDemoState0 : EMState := initState []

/-- After creating the archetype of component `0` (one bit registered,
mask `[1]`, key `"1"`). -/
def maskDemoArchState : EMState := (getOrCreateArchetype maskDemoState0 [0]).2

/-- After a further 32 components (bits 1..32) have been observed, so
`slotsNeeded nextBitIndex = 2`. -/
def maskDemoLater : EMState :=
  (List.range 32).foldl (fun st i => (getBit st (i + 1)).2) maskDemoArchState

/-- A one-row store with a float scalar, an int scalar and a fixed
`i32[2]` field, holding non-zero residue from an earlier row. -/
def c6Store : SoAStore :=
  { schema := [("x", (.f32, 0)), ("n", (.i32, 0)), ("a", (.i32, 2))]
    capacity := 1
    fields := [("x", [.num 7]), ("n", [.num 7]), ("a", [.num 5, .num 6])] }

/-- A reachable state with two add-observers (ids 10, 11) on component 2
and two pending ids (1, 2): `onAdd`, `onAdd`, then two
`createEntityWith`. -/
def c2State : EMState :=
  let s0 := initState [(2, [("hp", (ColKind.f32, 0))])]
  let s1 := onAdd s0 2 10
  let s2 := onAdd s1 2 11
  let s3 := (createEntityWith s2 [(2, some [("hp", .num 1)])]).2
  (createEntityWith s3 [(2, some [("hp", .num 2)])]).2

/-- A reachable state holding a tombstone and a pending-remove entry:
`onRemove(0)`, `createEntityWith(0, hp = 42)` → id 1,
`removeComponent(1, 0)`. -/
def c9State : EMState :=
  let s0 := initState [(0, [("hp", (ColKind.f32, 0))])]
  let s1 := onRemove s0 0 9
  let s2 := (createEntityWith s1 [(0, some [("hp", .num 42)])]).2
  removeComponent s2 1 0

/-- An empty serialized world. -/
def c9Empty : SerializedData := { nextId := 1, entities := [], components := [] }

/-- A hostile serialized world: it stores `nextId = 7` yet also contains
entity id 7 itself, so id 7 is both loaded and the next id the allocator
will hand out. -/
def c4BadData : SerializedData :=
  { nextId := 7, entities := [7], components := [("A", [(7, none)])] }

/-- Deserialize the hostile world, then create one more entity with
component 0: the allocator re-issues id 7 and seats a second row for it
in the same table. -/
def c4State : EMState :=
  (createEntityWith (deserialize (initState []) c4BadData [("A", 0)]) [(0, none)]).2

/-- The pre-removal state of the C3 scenario: two registered components,
a remove-observer on component 0, and one entity (id 1) holding
`hp = 42` and `x = 5`. -/
def c3Pre : EMState :=
  let s0 := initState [(0, [("hp", (ColKind.f32, 0))]), (1, [("x", (ColKind.f32, 0))])]
  let s1 := onRemove s0 0 9
  (createEntityWith s1
    [(0, some [("hp", JVal.num 42)]), (1, some [("x", JVal.num 5)])]).2

/-- A two-component entity whose component 0 is then removed (with a
remove-observer registered), leaving the entity in the reduced `{1}`
archetype while a tombstone for component 0 exists. -/
def c3State : EMState := removeComponent c3Pre 1 0

/-- A one-component variant of `c3Pre`: removing component 0 deletes the
entity's placement entirely. -/
def c3Pre1 : EMState :=
  let s0 := initState [(0, [("hp", (ColKind.f32, 0))])]
  let s1 := onRemove s0 0 9
  (createEntityWith s1 [(0, some [("hp", JVal.num 7)])]).2

/-- The state `deserialize` resets to before loading (EntityManager.ts
961-966): known ids from the input, empty archetype key map and
directory, empty query cache with version 0, `nextId` from the input. -/
def clearedState (s : EMState) (data : SerializedData) : EMState :=
  { s with
    allEntityIds := jsSetOfList data.entities
    archetypes := []
    entityArchetype := []
    queryCache := []
    queryCacheVersion := 0
    nextId := data.nextId }

/-- The entity-to-components grouping input built by `deserialize`
(EntityManager.ts 968-983), named so the loading phase can be stated in
isolation (definitionally the inline folds). -/
def entityComponentsOf (data : SerializedData) (nameToSymbol : List (String × Sym)) :
    List (Nat × List (Sym × ComponentData)) :=
  data.components.foldl (fun ec p =>
    match mget nameToSymbol p.1 with
    | none => ec
    | some sym =>
        p.2.foldl (fun ec2 q =>
          match mget ec2 q.1 with
          | none => ec2
          | some compMap => mset ec2 q.1 (mset compMap sym q.2)) ec)
    ((jsSetOfList data.entities).map (fun id => (id, [])))

/-- The fields of the manager state that the loading phase of
`deserialize` never touches. -/
def MiscEq (a b : EMState) : Prop :=
  a.hooks = b.hooks ∧ a.removedData = b.removedData ∧ a.createdSet = b.createdSet ∧
  a.destroyedSet = b.destroyedSet ∧ a.iterating = b.iterating ∧ a.deferred = b.deferred ∧
  a.nextId = b.nextId ∧ a.allEntityIds = b.allEntityIds

/-- What the loading phase guarantees relative to the cleared state:
untouched misc fields and an append-only tracked-archetype list. -/
def LoadKeeps (a b : EMState) : Prop :=
  MiscEq a b ∧ ∃ t, a.trackedArchetypes = b.trackedArchetypes ++ t

/-- Iteration depth and deferral queue untouched. -/
def QuietFields (a b : EMState) : Prop :=
  a.iterating = b.iterating ∧ a.deferred = b.deferred

/-- States equal except possibly for the bit-index registry
(`componentBitIndex`, `nextBitIndex`) — the footprint of `getBit` and
`computeMask`. -/
def BitsOnly (a b : EMState) : Prop :=
  a.nextId = b.nextId ∧ a.nextArchId = b.nextArchId ∧ a.allEntityIds = b.allEntityIds ∧
  a.trackFilter = b.trackFilter ∧ a.createdSet = b.createdSet ∧
  a.destroyedSet = b.destroyedSet ∧ a.trackedArchetypes = b.trackedArchetypes ∧
  a.hooks = b.hooks ∧ a.removedData = b.removedData ∧ a.iterating = b.iterating ∧
  a.deferred = b.deferred ∧ a.componentSchemas = b.componentSchemas ∧ a.archs = b.archs ∧
  a.archetypes = b.archetypes ∧ a.entityArchetype = b.entityArchetype ∧
  a.queryCacheVersion = b.queryCacheVersion ∧ a.queryCache = b.queryCache

-- ── The structural invariant (spec §8, I1 and its support) ──

/-- Row bookkeeping of one live table: dense ids, row map and directory
agree in both directions. -/
def ArchRowInv (s : EMState) (ai : Nat) : Prop :=
  (getArch s ai).entityIds.length = (getArch s ai).count ∧
  (getArch s ai).entityIds.Nodup ∧
  (∀ i, i < (getArch s ai).count →
      mget (getArch s ai).entityToIndex ((getArch s ai).entityIds.getD i 0) = some i) ∧
  (∀ p ∈ (getArch s ai).entityToIndex,
      p.2 < (getArch s ai).count ∧ (getArch s ai).entityIds.getD p.2 0 = p.1) ∧
  ((getArch s ai).entityToIndex.map Prod.fst).Nodup ∧
  (∀ i, i < (getArch s ai).count →
      mget s.entityArchetype ((getArch s ai).entityIds.getD i 0) = some ai)

/-- Type/key bookkeeping of one live table: component map keys equal the
type set, and the mask bits correspond exactly to the types' bit
indices. -/
def ArchTypeInv (s : EMState) (ai : Nat) : Prop :=
  (getArch s ai).components.map Prod.fst = (getArch s ai).types ∧
  (getArch s ai).types.Nodup ∧
  (∀ t ∈ (getArch s ai).types, ∃ b, mget s.componentBitIndex t = some b ∧
      maskTestBit (getArch s ai).key b = true) ∧
  (∀ b, b < 32 * (getArch s ai).key.length → maskTestBit (getArch s ai).key b = true →
      ∃ t ∈ (getArch s ai).types, mget s.componentBitIndex t = some b)

/-- Bit-registry sanity: assigned bits are below `nextBitIndex`,
injective, and keys unique. -/
def BitInv (s : EMState) : Prop :=
  (∀ p ∈ s.componentBitIndex, p.2 < s.nextBitIndex) ∧
  (∀ p ∈ s.componentBitIndex, ∀ q ∈ s.componentBitIndex, p.2 = q.2 → p.1 = q.1) ∧
  (s.componentBitIndex.map Prod.fst).Nodup

/-- A deferred add must target an already-issued id (so that replaying
it cannot seat a row for an id the allocator will hand out again). -/
def deferAddOKb (nid : Nat) : DeferredOp → Bool
  | .add e _ _ => decide (e < nid)
  | _ => true

/-- The structural invariant: spec I1 (row-map/directory coherence, the
third and sixth clauses of `ArchRowInv`) together with the bookkeeping
that makes it inductive. -/
def Inv (s : EMState) : Prop :=
  (∀ ai ∈ s.archetypes.map Prod.snd, ai < s.archs.length) ∧
  (∀ p ∈ s.archetypes, (getArch s p.2).key = p.1) ∧
  (s.archetypes.map Prod.fst).Nodup ∧
  (s.archetypes.map Prod.snd).Nodup ∧
  (∀ ai ∈ s.archetypes.map Prod.snd, ArchRowInv s ai ∧ ArchTypeInv s ai) ∧
  (∀ p ∈ s.entityArchetype, p.2 ∈ s.archetypes.map Prod.snd ∧
      (mget (getArch s p.2).entityToIndex p.1).isSome = true) ∧
  (s.entityArchetype.map Prod.fst).Nodup ∧
  BitInv s ∧
  (∀ p ∈ s.entityArchetype, p.1 < s.nextId) ∧
  (∀ dop ∈ s.deferred, deferAddOKb s.nextId dop = true)

/-- Input discipline under which an operation preserves the invariant:
`addComponent` only on issued ids; `deserialize` only on worlds whose
ids are below the stored `nextId` (and whose retained deferred adds
stay below it). -/
def OpWF (s : EMState) : UserOp → Prop
  | .addCompOp id _ _ => id < s.nextId
  | .deserializeOp d _ =>
      (∀ id ∈ d.entities, id < d.nextId) ∧
      (∀ dop ∈ s.deferred, deferAddOKb d.nextId dop = true)
  | _ => True

/-- The same discipline for calls made inside a `forEach` callback
(`deserialize` mid-iteration is excluded: it can rewind `nextId` under
live deferred ops). -/
def BodyOpWF (s : EMState) : UserOp → Prop
  | .addCompOp id _ _ => id < s.nextId
  | .deserializeOp _ _ => False
  | _ => True

/-- The state fields the invariant reads, related so that `Inv` transfers
from `b` to `a`: equal tables, directories and bit registry, a `nextId`
that did not shrink, and no deferred op that was not already queued. -/
def InvFieldsLe (a b : EMState) : Prop :=
  a.archs = b.archs ∧ a.archetypes = b.archetypes ∧ a.entityArchetype = b.entityArchetype ∧
  a.componentBitIndex = b.componentBitIndex ∧ a.nextBitIndex = b.nextBitIndex ∧
  b.nextId ≤ a.nextId ∧ (∀ dop ∈ a.deferred, dop ∈ b.deferred)

/-- All entity ids seated by the loading phase of `deserialize`, in
processing order. -/
def allGroupIds (groups : List (List Nat × List (Nat × List (Sym × ComponentData)))) :
    List Nat :=
  (groups.map (fun g => g.2.map Prod.fst)).flatten

/-- The body of the grouping loop of `deserialize` (named so the loop
can be reasoned about in isolation; definitionally the inline lambda). -/
def groupStep (acc : List (List Nat × List (Nat × List (Sym × ComponentData))) × EMState)
    (e : Nat × List (Sym × ComponentData)) :
    List (List Nat × List (Nat × List (Sym × ComponentData))) × EMState :=
  let types := e.2.map (fun p => p.1)
  if types.length = 0 then acc
  else
    let cm := computeMask acc.2 types
    match mget acc.1 cm.1 with
    | some lst => (mset acc.1 cm.1 (lst ++ [e]), cm.2)
    | none => (acc.1 ++ [(cm.1, [e])], cm.2)

/-- The body of the loading loop of `deserialize` (definitionally the
inline lambda). -/
def loadGroup (st : EMState) (grp : List Nat × List (Nat × List (Sym × ComponentData))) :
    EMState :=
  match grp.2 with
  | [] => st
  | first :: _ =>
      let types := first.2.map (fun p => p.1)
      let go := getOrCreateArchetype st types
      grp.2.foldl (fun st2 e => addToArchetype st2 go.1 e.1 e.2) go.2

-- ══ Lemmas: association-list maps ═══════════════════════

theorem mget_nil {κ α : Type} [DecidableEq κ] (k : κ) : mget ([] : List (κ × α)) k = none := rfl

theorem mget_cons {κ α : Type} [DecidableEq κ] (p : κ × α) (m : List (κ × α)) (k : κ) :
    mget (p :: m) k = if p.1 = k then some p.2 else mget m k := by
  by_cases h : p.1 = k
  · simp [mget, List.find?_cons_of_pos, h]
  · simp [mget, List.find?_cons_of_neg, h]

theorem mget_map_upd {κ α : Type} [DecidableEq κ] (m : List (κ × α)) (k k' : κ) (v : α)
    (h : k' ≠ k) :
    mget (m.map (fun p => if p.1 = k then (k, v) else p)) k' = mget m k' := by
  induction m with
  | nil => rfl
  | cons p rest ih =>
      by_cases hp : p.1 = k
      · simp only [List.map_cons, hp, if_true]
        rw [mget_cons, mget_cons, hp]
        simp [Ne.symm h, ih]
      · simp only [List.map_cons, hp, if_false]
        rw [mget_cons, mget_cons, ih]

theorem nodup_append_singleton {α : Type} {l : List α} {x : α} (h : l.Nodup) (hx : x ∉ l) :
    (l ++ [x]).Nodup :=
  List.Nodup.append h (List.nodup_singleton x) (List.disjoint_singleton.mpr hx)

theorem mset_guard_iff {κ α : Type} [DecidableEq κ] (m : List (κ × α)) (k : κ) :
    (m.find? (fun p => decide (p.1 = k))).isSome = true ↔ k ∈ m.map Prod.fst := by
  rw [List.find?_isSome]
  constructor
  · rintro ⟨p, hmem, hp⟩
    exact List.mem_map.mpr ⟨p, hmem, of_decide_eq_true hp⟩
  · intro h
    obtain ⟨p, hmem, hk⟩ := List.mem_map.mp h
    exact ⟨p, hmem, decide_eq_true hk⟩

theorem mget_append_single_ne {κ α : Type} [DecidableEq κ] (m : List (κ × α)) (k k' : κ)
    (v : α) (h : k' ≠ k) :
    mget (m ++ [(k, v)]) k' = mget m k' := by
  induction m with
  | nil => simp [mget_nil, List.nil_append, mget_cons, Ne.symm h]
  | cons q rest ih => rw [List.cons_append, mget_cons, mget_cons, ih]

theorem mget_map_upd_self {κ α : Type} [DecidableEq κ] (m : List (κ × α)) (k : κ) (v : α)
    (h : k ∈ m.map Prod.fst) :
    mget (m.map (fun p => if p.1 = k then (k, v) else p)) k = some v := by
  induction m with
  | nil => simp at h
  | cons q rest ih =>
      by_cases hq : q.1 = k
      · rw [List.map_cons]
        simp only [hq, if_true]
        rw [mget_cons]
        simp
      · rw [List.map_cons]
        simp only [hq, if_false]
        rw [mget_cons]
        simp only [hq, if_false]
        apply ih
        rcases List.mem_map.mp h with ⟨p, hmem, hk⟩
        rcases List.mem_cons.mp hmem with rfl | hmem'
        · exact absurd hk hq
        · exact List.mem_map.mpr ⟨p, hmem', hk⟩

theorem mget_mset_self {κ α : Type} [DecidableEq κ] (m : List (κ × α)) (k : κ) (v : α) :
    mget (mset m k v) k = some v := by
  unfold mset
  by_cases h : (m.find? (fun p => decide (p.1 = k))).isSome
  · rw [if_pos h]
    exact mget_map_upd_self m k v ((mset_guard_iff m k).mp h)
  · rw [if_neg h]
    have hnot : k ∉ m.map Prod.fst := fun hm => h ((mset_guard_iff m k).mpr hm)
    induction m with
    | nil => simp [mget_cons]
    | cons q rest ih =>
        rw [List.cons_append, mget_cons]
        have hq : ¬q.1 = k := fun hh => hnot (List.mem_map.mpr ⟨q, List.mem_cons_self q rest, hh⟩)
        rw [if_neg hq]
        apply ih
        · intro habs
          obtain ⟨p, hmem, hp⟩ := List.find?_isSome.mp habs
          exact hnot (List.mem_map.mpr ⟨p, List.mem_cons_of_mem q hmem, of_decide_eq_true hp⟩)
        · intro hm
          exact hnot (by simpa using Or.inr hm)

theorem mget_mset_ne {κ α : Type} [DecidableEq κ] (m : List (κ × α)) (k k' : κ) (v : α)
    (h : k' ≠ k) :
    mget (mset m k v) k' = mget m k' := by
  unfold mset
  by_cases hf : (m.find? (fun p => decide (p.1 = k))).isSome
  · rw [if_pos hf]
    exact mget_map_upd m k k' v h
  · rw [if_neg hf]
    exact mget_append_single_ne m k k' v h

theorem mget_mdel_self {κ α : Type} [DecidableEq κ] (m : List (κ × α)) (k : κ) :
    mget (mdel m k) k = none := by
  induction m with
  | nil => rfl
  | cons p rest ih =>
      unfold mdel
      rw [List.filter_cons]
      by_cases hp : p.1 = k
      · simp only [hp]
        simpa [mdel] using ih
      · simp only [decide_eq_true_eq]
        rw [if_pos hp]
        rw [mget_cons]
        simp only [hp, if_false]
        simpa [mdel] using ih

theorem mget_mdel_ne {κ α : Type} [DecidableEq κ] (m : List (κ × α)) (k k' : κ)
    (h : k' ≠ k) :
    mget (mdel m k) k' = mget m k' := by
  induction m with
  | nil => rfl
  | cons p rest ih =>
      by_cases hp : p.1 = k
      · have h1 : mdel (p :: rest) k = mdel rest k := by
          simp [mdel, List.filter_cons, hp]
        have h2 : ¬p.1 = k' := fun hh => h (hh ▸ hp)
        rw [h1, ih, mget_cons]
        simp [h2]
      · have h1 : mdel (p :: rest) k = p :: mdel rest k := by
          simp [mdel, List.filter_cons, hp]
        rw [h1, mget_cons, mget_cons, ih]

theorem mget_isSome_iff {κ α : Type} [DecidableEq κ] (m : List (κ × α)) (k : κ) :
    (mget m k).isSome = true ↔ k ∈ m.map Prod.fst := by
  rw [← mset_guard_iff]
  unfold mget
  cases m.find? (fun p => decide (p.1 = k)) <;> simp

theorem mget_eq_none_iff {κ α : Type} [DecidableEq κ] (m : List (κ × α)) (k : κ) :
    mget m k = none ↔ k ∉ m.map Prod.fst := by
  rw [← mget_isSome_iff]
  cases mget m k <;> simp

theorem mem_of_mget_eq_some {κ α : Type} [DecidableEq κ] {m : List (κ × α)} {k : κ} {v : α}
    (h : mget m k = some v) : (k, v) ∈ m := by
  unfold mget at h
  cases hfind : m.find? (fun p => decide (p.1 = k)) with
  | none => rw [hfind] at h; simp at h
  | some q =>
      rw [hfind] at h
      have h2 : q.2 = v := by simpa using h
      have hk0 := List.find?_some hfind
      have hk : q.1 = k := of_decide_eq_true (by simpa using hk0)
      have hmem := List.mem_of_find?_eq_some hfind
      have hq : q = (k, v) := by
        cases q
        simp only at hk h2
        rw [hk, h2]
      exact hq ▸ hmem

theorem mget_eq_some_of_mem_nodup {κ α : Type} [DecidableEq κ] {m : List (κ × α)} {k : κ}
    {v : α} (hmem : (k, v) ∈ m) (hnd : (m.map Prod.fst).Nodup) : mget m k = some v := by
  induction m with
  | nil => simp at hmem
  | cons p rest ih =>
      rw [mget_cons]
      rcases List.mem_cons.mp hmem with rfl | hmem'
      · simp
      · have hk : k ∈ rest.map Prod.fst := List.mem_map.mpr ⟨(k, v), hmem', rfl⟩
        have hp : ¬p.1 = k := by
          intro hh
          rw [List.map_cons] at hnd
          exact (List.nodup_cons.mp hnd).1 (hh ▸ hk)
        rw [if_neg hp]
        exact ih hmem' (List.nodup_cons.mp (List.map_cons _ _ _ ▸ hnd)).2

theorem mem_mset {κ α : Type} [DecidableEq κ] {m : List (κ × α)} {k : κ} {v : α} {p : κ × α}
    (h : p ∈ mset m k v) : p = (k, v) ∨ (p ∈ m ∧ p.1 ≠ k) := by
  unfold mset at h
  by_cases hf : (m.find? (fun q => decide (q.1 = k))).isSome
  · rw [if_pos hf] at h
    obtain ⟨q, hq, hupd⟩ := List.mem_map.mp h
    by_cases hqk : q.1 = k
    · left
      rw [← hupd]
      simp [hqk]
    · right
      rw [← hupd]
      simp only [hqk, if_false]
      exact ⟨hq, hqk⟩
  · rw [if_neg hf] at h
    rcases List.mem_append.mp h with hm | hm
    · right
      refine ⟨hm, ?_⟩
      intro hk
      apply hf
      exact (mset_guard_iff m k).mpr (List.mem_map.mpr ⟨p, hm, hk⟩)
    · left
      simpa using hm

theorem mem_mdel {κ α : Type} [DecidableEq κ] {m : List (κ × α)} {k : κ} {p : κ × α} :
    p ∈ mdel m k ↔ p ∈ m ∧ p.1 ≠ k := by
  unfold mdel
  rw [List.mem_filter]
  simp

theorem mset_keys_of_mem {κ α : Type} [DecidableEq κ] (m : List (κ × α)) (k : κ) (v : α)
    (h : k ∈ m.map Prod.fst) :
    (mset m k v).map Prod.fst = m.map Prod.fst := by
  unfold mset
  rw [if_pos ((mset_guard_iff m k).mpr h)]
  rw [List.map_map]
  apply List.map_congr_left
  intro p _
  by_cases hp : p.1 = k
  · simp [Function.comp, hp]
  · simp [Function.comp, hp]

theorem mset_keys_of_not_mem {κ α : Type} [DecidableEq κ] (m : List (κ × α)) (k : κ) (v : α)
    (h : k ∉ m.map Prod.fst) :
    (mset m k v).map Prod.fst = m.map Prod.fst ++ [k] := by
  unfold mset
  rw [if_neg (fun hf => h ((mset_guard_iff m k).mp hf))]
  simp

theorem mset_keys_nodup {κ α : Type} [DecidableEq κ] (m : List (κ × α)) (k : κ) (v : α)
    (h : (m.map Prod.fst).Nodup) : ((mset m k v).map Prod.fst).Nodup := by
  by_cases hk : k ∈ m.map Prod.fst
  · rw [mset_keys_of_mem m k v hk]
    exact h
  · rw [mset_keys_of_not_mem m k v hk]
    exact nodup_append_singleton h hk

theorem mdel_keys_sublist {κ α : Type} [DecidableEq κ] (m : List (κ × α)) (k : κ) :
    ((mdel m k).map Prod.fst).Sublist (m.map Prod.fst) :=
  List.Sublist.map Prod.fst (List.filter_sublist m)

theorem mdel_keys_nodup {κ α : Type} [DecidableEq κ] (m : List (κ × α)) (k : κ)
    (h : (m.map Prod.fst).Nodup) : ((mdel m k).map Prod.fst).Nodup :=
  (mdel_keys_sublist m k).nodup h

theorem jsSetAdd_nodup {α : Type} [DecidableEq α] (l : List α) (x : α) (h : l.Nodup) :
    (jsSetAdd l x).Nodup := by
  unfold jsSetAdd
  by_cases hx : x ∈ l
  · rw [if_pos hx]
    exact h
  · rw [if_neg hx]
    exact nodup_append_singleton h hx

theorem mem_jsSetAdd {α : Type} [DecidableEq α] (l : List α) (x y : α) :
    y ∈ jsSetAdd l x ↔ y ∈ l ∨ y = x := by
  unfold jsSetAdd
  by_cases hx : x ∈ l
  · rw [if_pos hx]
    constructor
    · exact Or.inl
    · rintro (h | rfl)
      · exact h
      · exact hx
  · rw [if_neg hx]
    simp

theorem jsSetOfList_sound {α : Type} [DecidableEq α] (l : List α) :
    ∀ acc : List α, acc.Nodup →
      (l.foldl (fun acc x => if x ∈ acc then acc else acc ++ [x]) acc).Nodup ∧
      (∀ y, y ∈ l.foldl (fun acc x => if x ∈ acc then acc else acc ++ [x]) acc ↔
        y ∈ acc ∨ y ∈ l) := by
  induction l with
  | nil => intro acc h; simpa using h
  | cons x rest ih =>
      intro acc hacc
      rw [List.foldl_cons]
      by_cases hx : x ∈ acc
      · rw [if_pos hx]
        obtain ⟨h1, h2⟩ := ih acc hacc
        refine ⟨h1, fun y => ?_⟩
        rw [h2 y]
        constructor
        · rintro (h | h)
          · exact Or.inl h
          · exact Or.inr (List.mem_cons_of_mem x h)
        · rintro (h | h)
          · exact Or.inl h
          · rcases List.mem_cons.mp h with rfl | h'
            · exact Or.inl hx
            · exact Or.inr h'
      · rw [if_neg hx]
        have hacc' : (acc ++ [x]).Nodup := nodup_append_singleton hacc hx
        obtain ⟨h1, h2⟩ := ih (acc ++ [x]) hacc'
        refine ⟨h1, fun y => ?_⟩
        rw [h2 y]
        simp only [List.mem_append, List.mem_singleton, List.mem_cons]
        tauto

theorem jsSetOfList_nodup {α : Type} [DecidableEq α] (l : List α) : (jsSetOfList l).Nodup :=
  (jsSetOfList_sound l [] List.nodup_nil).1

theorem mem_jsSetOfList {α : Type} [DecidableEq α] (l : List α) (y : α) :
    y ∈ jsSetOfList l ↔ y ∈ l := by
  have := (jsSetOfList_sound l [] List.nodup_nil).2 y
  unfold jsSetOfList
  rw [this]
  simp

theorem jsArraySet_append {α : Type} (l : List α) (v pad : α) :
    jsArraySet l l.length v pad = l ++ [v] := by
  unfold jsArraySet
  rw [if_neg (by simp)]
  simp

/-- Positional injectivity gives `Nodup`. -/
theorem nodup_of_getD_inj {α : Type} [Inhabited α] (l : List α)
    (h : ∀ i j, i < l.length → j < l.length → l.getD i default = l.getD j default → i = j) :
    l.Nodup := by
  rw [List.Nodup, List.pairwise_iff_getElem]
  intro i j hi hj hij
  intro heq
  have : l.getD i default = l.getD j default := by
    rw [List.getD_eq_getElem?_getD, List.getD_eq_getElem?_getD]
    rw [List.getElem?_eq_getElem hi, List.getElem?_eq_getElem hj]
    simpa using heq
  exact absurd (h i j hi hj this) (Nat.ne_of_lt hij)

-- ══ C7: textual mask keys ═══════════════════════════════

theorem getD_append_zero (m : List Nat) (j : Nat) : (m ++ [0]).getD j 0 = m.getD j 0 := by
  rw [List.getD_eq_getElem?_getD, List.getD_eq_getElem?_getD, List.getElem?_append]
  by_cases h : j < m.length
  · rw [if_pos h]
  · rw [if_neg h]
    rw [List.getElem?_eq_none (by omega : m.length ≤ j)]
    rcases Nat.lt_or_ge (j - m.length) 1 with h1 | h1
    · have : j - m.length = 0 := by omega
      rw [this]
      rfl
    · rw [List.getElem?_eq_none (by simpa using h1)]

theorem maskTestBit_append_zero (m : List Nat) (i : Nat) :
    maskTestBit (m ++ [0]) i = maskTestBit m i := by
  unfold maskTestBit
  rw [getD_append_zero]

theorem maskTestBit_getD (m : List Nat) (j k : Nat) (hk : k < 32) :
    maskTestBit m (32 * j + k) = Nat.testBit (m.getD j 0) k := by
  unfold maskTestBit
  have hdiv : (32 * j + k) / 32 = j := by
    rw [Nat.mul_comm, Nat.add_comm, Nat.add_mul_div_right _ _ (by norm_num : (0:Nat) < 32)]
    rw [Nat.div_eq_of_lt hk]
    omega
  have hmod : (32 * j + k) % 32 = k := by
    rw [Nat.mul_comm, Nat.add_comm, Nat.add_mul_mod_self_right]
    exact Nat.mod_eq_of_lt hk
  rw [hdiv, hmod]

theorem limbs_eq_of_valueEq (m1 m2 : List Nat) (hlen : m1.length = m2.length)
    (hval : MaskValueEq m1 m2) (h1 : MaskLimbsValid m1) (h2 : MaskLimbsValid m2) :
    m1 = m2 := by
  apply List.ext_getElem hlen
  intro j hj1 hj2
  apply Nat.eq_of_testBit_eq
  intro k
  rcases Nat.lt_or_ge k 32 with hk | hk
  · have e1 : m1.getD j 0 = m1[j] := by
      rw [List.getD_eq_getElem?_getD, List.getElem?_eq_getElem hj1]
      rfl
    have e2 : m2.getD j 0 = m2[j] := by
      rw [List.getD_eq_getElem?_getD, List.getElem?_eq_getElem hj2]
      rfl
    rw [← e1, ← e2, ← maskTestBit_getD m1 j k hk, ← maskTestBit_getD m2 j k hk]
    exact hval (32 * j + k)
  · have b1 : m1[j] < 2 ^ k :=
      Nat.lt_of_lt_of_le (h1 m1[j] (List.getElem_mem hj1)) (Nat.pow_le_pow_right (by norm_num) hk)
    have b2 : m2[j] < 2 ^ k :=
      Nat.lt_of_lt_of_le (h2 m2[j] (List.getElem_mem hj2)) (Nat.pow_le_pow_right (by norm_num) hk)
    rw [Nat.testBit_lt_two_pow b1, Nat.testBit_lt_two_pow b2]

/-- C7 counterexample.  The claim asserts that value-equal masks always
get the same textual key and that the same component set addresses the
same archetype table at any later time.  Both fail: `[1]` and `[1, 0]`
are equal by value but `maskKey` renders them as `"1"` and `"1,0"`, and
after 32 further components are registered, `getOrCreateArchetype` on the
very same type list `[0]` creates a second table (`maskDemoLater` holds
one table for `{0}` under key `[1]`; the call returns a new table, index
1, under key `[1, 0]`, with the same `types`). -/
theorem c7_maskKey_counterexample :
    MaskValueEq [1] [1, 0] ∧ maskKey [1] ≠ maskKey [1, 0] ∧
    (getOrCreateArchetype maskDemoState0 [0]).1 = 0 ∧
    (getOrCreateArchetype maskDemoLater [0]).1 = 1 ∧
    (getOrCreateArchetype maskDemoLater [0]).2.archetypes = [([1], 0), ([1, 0], 1)] ∧
    (getArch (getOrCreateArchetype maskDemoLater [0]).2 0).types = [0] ∧
    (getArch (getOrCreateArchetype maskDemoLater [0]).2 1).types = [0] := by
  refine ⟨?_, ?_, ?_, ?_, ?_, ?_, ?_⟩
  · intro i
    exact (maskTestBit_append_zero [1] i).symm
  · decide
  · decide
  · decide
  · decide
  · decide
  · decide

/-- C7 amended: the textual key function is deterministic across masks
that are equal by value and have the same limb count (the counterexample
shows masks differing in trailing zero limbs — as produced when the
registered-component count crosses a 32-bit slot boundary between key
computations — may render differently and hence address different
tables). -/
theorem c7_maskKey_amended (m1 m2 : List Nat) (hlen : m1.length = m2.length)
    (hval : MaskValueEq m1 m2) (h1 : MaskLimbsValid m1) (h2 : MaskLimbsValid m2) :
    maskKey m1 = maskKey m2 := by
  rw [limbs_eq_of_valueEq m1 m2 hlen hval h1 h2]

theorem c7_maskKey_amended_witness :
    maskKey [5, 12] = maskKey [5, 12] :=
  c7_maskKey_amended [5, 12] [5, 12] rfl (fun _ => rfl)
    (by intro x hx; fin_cases hx <;> norm_num)
    (by intro x hx; fin_cases hx <;> norm_num)

-- ══ C6: soaWrite semantics ══════════════════════════════

theorem foldWrite_mget_stable (rest : List (String × FieldSpec))
    (W : String × FieldSpec → List JVal → List JVal) (fs : List (String × List JVal))
    (fname : String) (hnotin : fname ∉ rest.map Prod.fst) :
    mget (rest.foldl (fun fs f => mset fs f.1 (W f ((mget fs f.1).getD []))) fs) fname
      = mget fs fname := by
  induction rest generalizing fs with
  | nil => rfl
  | cons g r ih =>
      rw [List.foldl_cons]
      have hg : ¬g.1 = fname := by
        intro hh
        exact hnotin (List.mem_map.mpr ⟨g, List.mem_cons_self g r, hh⟩)
      have hr : fname ∉ r.map Prod.fst := by
        intro hh
        rw [List.map_cons] at hnotin
        exact hnotin (List.mem_cons_of_mem _ hh)
      rw [ih _ hr, mget_mset_ne _ _ _ _ (fun hh => hg hh.symm)]

theorem foldWrite_mget (schema : List (String × FieldSpec))
    (W : String × FieldSpec → List JVal → List JVal) (fs0 : List (String × List JVal))
    (fname : String) (sp : FieldSpec)
    (hnd : (schema.map Prod.fst).Nodup) (hget : mget schema fname = some sp) :
    mget (schema.foldl (fun fs f => mset fs f.1 (W f ((mget fs f.1).getD []))) fs0) fname
      = some (W (fname, sp) ((mget fs0 fname).getD [])) := by
  induction schema generalizing fs0 with
  | nil => simp [mget_nil] at hget
  | cons g rest ih =>
      rw [List.foldl_cons]
      rw [mget_cons] at hget
      by_cases hg : g.1 = fname
      · rw [if_pos hg] at hget
        have hsp : g.2 = sp := Option.some_injective _ hget
        have hnotin : fname ∉ rest.map Prod.fst := by
          rw [List.map_cons] at hnd
          have := (List.nodup_cons.mp hnd).1
          rw [hg] at this
          exact this
        rw [foldWrite_mget_stable rest W _ fname hnotin]
        have hgp : g = (fname, sp) := by
          cases g
          simp only at hg hsp
          rw [hg, hsp]
        rw [hgp, mget_mset_self]
      · rw [if_neg hg] at hget
        have hnd' : (rest.map Prod.fst).Nodup := by
          rw [List.map_cons] at hnd
          exact (List.nodup_cons.mp hnd).2
        rw [ih _ hnd' hget]
        rw [mget_mset_ne _ _ _ _ (fun hh => hg hh.symm)]

/-- C6 counterexample.  Writing a record that omits schema fields: the
claim says missing numeric fields are set to 0 and missing fixed-array
elements to 0.  The code instead assigns `undefined` to missing scalars
(NaN in a float column) and skips missing fixed-array fields entirely
(the row keeps its previous contents, here `[5, 6]`). -/
theorem c6_soaWrite_counterexample :
    mget (soaWrite c6Store 0 (some [])).fields "x" = some [JVal.nan] ∧
    JVal.nan ≠ JVal.num 0 ∧
    mget (soaWrite c6Store 0 (some [])).fields "a" = some [JVal.num 5, JVal.num 6] ∧
    mget (soaWrite c6Store 0 (some [])).fields "n" = some [JVal.num 0] := by
  refine ⟨rfl, ?_, rfl, rfl⟩
  intro h
  cases h

/-- C6 amended: `soaWrite` treats each schema field independently (in
schema order): scalar fields are assigned `data[field]` coerced by the
column kind — so a missing scalar stores `coerceStore k undefined`,
which is 0 for integer columns, NaN for float columns, and `undefined`
for generic columns, not always 0; fixed-array fields are copied (with
`src[j] ?? 0` for elements beyond the source) only when `data[field]` is
truthy and are left untouched when the field is missing; unknown record
fields are ignored; fields absent from the schema are never written; and
with no data record every slot of the row is zeroed. -/
theorem c6_soaWrite_amended (store : SoAStore) (idx : Nat) (d : Record) (fname : String)
    (k : ColKind) (size : Nat)
    (hnd : (store.schema.map Prod.fst).Nodup)
    (hsp : mget store.schema fname = some (k, size)) :
    (mget (soaWrite store idx (some d)).fields fname
        = some (soaWriteFieldData k size idx d fname ((mget store.fields fname).getD []))) ∧
    (mget (soaWrite store idx none).fields fname
        = some (soaWriteFieldAbsent size idx ((mget store.fields fname).getD []))) ∧
    (∀ f, mget store.schema f = none →
        mget (soaWrite store idx (some d)).fields f = mget store.fields f ∧
        mget (soaWrite store idx none).fields f = mget store.fields f) ∧
    (size = 0 → mget d fname = none →
        soaWriteFieldData k size idx d fname ((mget store.fields fname).getD [])
          = ((mget store.fields fname).getD []).set idx (coerceStore k .undef)) ∧
    (size > 0 → mget d fname = none →
        soaWriteFieldData k size idx d fname ((mget store.fields fname).getD [])
          = (mget store.fields fname).getD []) ∧
    coerceStore .i32 .undef = .num 0 ∧ coerceStore .f32 .undef = .nan ∧
    coerceStore .generic .undef = .undef := by
  refine ⟨?_, ?_, ?_, ?_, ?_, rfl, rfl, rfl⟩
  · unfold soaWrite
    exact foldWrite_mget store.schema
      (fun f col => soaWriteFieldData f.2.1 f.2.2 idx d f.1 col) store.fields fname (k, size)
      hnd hsp
  · unfold soaWrite
    exact foldWrite_mget store.schema
      (fun f col => soaWriteFieldAbsent f.2.2 idx col) store.fields fname (k, size) hnd hsp
  · intro f hf
    have hnotin : f ∉ store.schema.map Prod.fst := (mget_eq_none_iff _ _).mp hf
    constructor
    · unfold soaWrite
      exact foldWrite_mget_stable store.schema _ store.fields f hnotin
    · unfold soaWrite
      exact foldWrite_mget_stable store.schema _ store.fields f hnotin
  · intro hsz hmiss
    subst hsz
    unfold soaWriteFieldData
    simp [hmiss]
  · intro hsz hmiss
    unfold soaWriteFieldData
    rw [if_pos hsz]
    simp [hmiss, JVal.truthy]

theorem c6_soaWrite_amended_witness :
    mget (soaWrite c6Store 0 (some [])).fields "x"
      = some (soaWriteFieldData .f32 0 0 [] "x" ((mget c6Store.fields "x").getD [])) :=
  (c6_soaWrite_amended c6Store 0 [] "x" .f32 0 (by decide) rfl).1

-- ══ C2: flushHooks dispatch order ═══════════════════════

theorem foldl_append_flatten {α β : Type} (f : α → List β) (l : List α) (acc : List β) :
    l.foldl (fun tr a => tr ++ f a) acc = acc ++ (l.map f).flatten := by
  induction l generalizing acc with
  | nil => simp
  | cons x rest ih =>
      rw [List.foldl_cons, ih]
      simp [List.append_assoc]

theorem bufferTrace_eq (cbs pending : List Nat) :
    bufferTrace cbs pending = (cbs.map (fun c => pending.map (fun e => (c, e)))).flatten :=
  foldl_append_flatten _ cbs []

theorem bufferTrace_nil (cbs : List Nat) : bufferTrace cbs [] = [] := by
  rw [bufferTrace_eq]
  simp

theorem flush_trace_eq (cbsMap pend : List (Sym × List Nat)) : ∀ acc,
    pend.foldl (fun tr p =>
        if p.2.length = 0 then tr
        else tr ++ bufferTrace ((mget cbsMap p.1).getD []) p.2) acc
      = acc ++ allBuffersTrace cbsMap pend := by
  induction pend with
  | nil => intro acc; simp [allBuffersTrace]
  | cons p rest ih =>
      intro acc
      rw [List.foldl_cons]
      have hstep : (if p.2.length = 0 then acc
          else acc ++ bufferTrace ((mget cbsMap p.1).getD []) p.2)
          = acc ++ bufferTrace ((mget cbsMap p.1).getD []) p.2 := by
        by_cases hp : p.2.length = 0
        · rw [if_pos hp, List.length_eq_zero.mp hp, bufferTrace_nil, List.append_nil]
        · rw [if_neg hp]
      rw [hstep, ih]
      simp [allBuffersTrace, List.append_assoc]

/-- C2 counterexample.  With observers 10, 11 (in registration order) on
component 2 and pending ids 1, 2 (in buffer order), the claim predicts
the call order `10(1), 11(1), 10(2), 11(2)`; the code loops observers in
the outer loop and produces `10(1), 10(2), 11(1), 11(2)`. -/
theorem c2_flush_order_counterexample :
    (c2State.hooks.getD emptyHooks).addCbs = [(2, [10, 11])] ∧
    (c2State.hooks.getD emptyHooks).pendingAdd = [(2, [1, 2])] ∧
    (flushHooksRun c2State).1 = [(10, 1), (10, 2), (11, 1), (11, 2)] ∧
    entityMajorTrace [10, 11] [1, 2] = [(10, 1), (11, 1), (10, 2), (11, 2)] ∧
    (flushHooksRun c2State).1 ≠ entityMajorTrace [10, 11] [1, 2] := by
  refine ⟨rfl, rfl, rfl, rfl, by decide⟩

/-- C2 amended: `flushHooks` dispatches all pending-add buffers (in
subscription insertion order) before any pending-remove buffer, and for
each component's buffer it iterates the registered observers in the
outer loop — each observer receives every pending id in buffer order
before the next observer runs; afterwards all pending buffers are empty
and the observer lists are unchanged. -/
theorem c2_flushHooks_amended (s : EMState) (h : Hooks) (hh : s.hooks = some h) :
    (flushHooksRun s).1
      = allBuffersTrace h.addCbs h.pendingAdd ++ allBuffersTrace h.removeCbs h.pendingRemove ∧
    ∀ h', (flushHooksRun s).2.hooks = some h' →
      (∀ p ∈ h'.pendingAdd, p.2 = ([] : List Nat)) ∧
      (∀ p ∈ h'.pendingRemove, p.2 = ([] : List Nat)) ∧
      h'.addCbs = h.addCbs ∧ h'.removeCbs = h.removeCbs := by
  unfold flushHooksRun
  rw [hh]
  constructor
  · simp only
    rw [flush_trace_eq h.addCbs h.pendingAdd [], flush_trace_eq h.removeCbs h.pendingRemove []]
    simp
  · intro h' hh'
    simp only [Option.some_injective] at hh'
    have hempty : h' = { h with
        pendingAdd := h.pendingAdd.map (fun p => (p.1, []))
        pendingRemove := h.pendingRemove.map (fun p => (p.1, [])) } := by
      exact (Option.some_injective _ hh').symm
    subst hempty
    refine ⟨?_, ?_, rfl, rfl⟩
    · intro p hp
      obtain ⟨q, _, hq⟩ := List.mem_map.mp hp
      rw [← hq]
    · intro p hp
      obtain ⟨q, _, hq⟩ := List.mem_map.mp hp
      rw [← hq]

theorem c2_flushHooks_amended_witness :
    (flushHooksRun c2State).1
      = allBuffersTrace [(2, [10, 11])] [(2, [1, 2])] ++ allBuffersTrace [] [] :=
  (c2_flushHooks_amended c2State
    { addCbs := [(2, [10, 11])], removeCbs := [], pendingAdd := [(2, [1, 2])],
      pendingRemove := [] } rfl).1

-- ══ C5: count = sum over matched = query length ═════════

theorem getBit_archs (s : EMState) (t : Sym) : (getBit s t).2.archs = s.archs := by
  unfold getBit
  cases mget s.componentBitIndex t <;> rfl

theorem computeMask_fold_archs (types : List Sym) :
    ∀ acc : List Nat × EMState,
      (types.foldl (fun acc t =>
        let r := getBit acc.2 t
        (maskSetBit acc.1 r.1, r.2)) acc).2.archs = acc.2.archs := by
  induction types with
  | nil => intro acc; rfl
  | cons t rest ih =>
      intro acc
      rw [List.foldl_cons, ih]
      exact getBit_archs acc.2 t

theorem computeMask_archs (s : EMState) (types : List Sym) :
    (computeMask s types).2.archs = s.archs :=
  computeMask_fold_archs types _

theorem getMatchingArchetypes_archs (s : EMState) (inc exc : List Sym) :
    (getMatchingArchetypes s inc exc).2.archs = s.archs := by
  unfold getMatchingArchetypes
  by_cases hexc : exc.length > 0
  · simp only [if_pos hexc]
    cases hc : mget (computeMask (computeMask s inc).2 exc).2.queryCache
        ((computeMask s inc).1, some (computeMask (computeMask s inc).2 exc).1) with
    | none =>
        simp only [hc]
        rw [computeMask_archs, computeMask_archs]
    | some c =>
        simp only [hc]
        by_cases hv : c.1 = (computeMask (computeMask s inc).2 exc).2.queryCacheVersion
        · simp only [if_pos hv]
          rw [computeMask_archs, computeMask_archs]
        · simp only [if_neg hv]
          rw [computeMask_archs, computeMask_archs]
  · simp only [if_neg hexc]
    cases hc : mget (computeMask s inc).2.queryCache ((computeMask s inc).1, none) with
    | none =>
        simp only [hc]
        rw [computeMask_archs]
    | some c =>
        by_cases hv : c.1 = (computeMask s inc).2.queryCacheVersion
        · simp only [hc, if_pos hv]
          rw [computeMask_archs]
        · simp only [hc, if_neg hv]
          rw [computeMask_archs]

theorem foldl_add_sum {α : Type} (f : α → Nat) (l : List α) (acc : Nat) :
    l.foldl (fun t a => t + f a) acc = acc + (l.map f).sum := by
  induction l generalizing acc with
  | nil => simp
  | cons x rest ih =>
      rw [List.foldl_cons, ih]
      simp [Nat.add_assoc]

theorem foldl_append_length {α β : Type} (g : α → List β) (l : List α) (acc : List β) :
    (l.foldl (fun acc a => acc ++ g a) acc).length
      = acc.length + (l.map (fun a => (g a).length)).sum := by
  induction l generalizing acc with
  | nil => simp
  | cons x rest ih =>
      rw [List.foldl_cons, ih]
      simp [Nat.add_assoc]

/-- C5: for every manager state, `count(include, exclude)` equals the sum
of the row counts of the matched archetype tables, which equals the
length of the id list `query(include, exclude)` returns. -/
theorem c5_count_query_agree (s : EMState) (inc exc : List Sym) :
    (query s inc exc).1.length = (countQuery s inc exc).1 ∧
    (countQuery s inc exc).1
      = ((getMatchingArchetypes s inc exc).1.map (fun ai => (getArch s ai).count)).sum := by
  have harchs := getMatchingArchetypes_archs s inc exc
  have hc1 : (countQuery s inc exc).1
      = (getMatchingArchetypes s inc exc).1.foldl
          (fun total ai => total + (getArch (getMatchingArchetypes s inc exc).2 ai).count) 0 :=
    rfl
  have hcount : (countQuery s inc exc).1
      = ((getMatchingArchetypes s inc exc).1.map (fun ai => (getArch s ai).count)).sum := by
    rw [hc1, foldl_add_sum]
    simp only [getArch, harchs, Nat.zero_add]
  refine ⟨?_, hcount⟩
  have hq1 : (query s inc exc).1
      = (getMatchingArchetypes s inc exc).1.foldl
          (fun acc ai => acc ++
            (List.range (getArch (getMatchingArchetypes s inc exc).2 ai).count).map
              (fun i => (getArch (getMatchingArchetypes s inc exc).2 ai).entityIds.getD i 0))
          [] := rfl
  rw [hq1, foldl_append_length, hcount]
  simp only [getArch, harchs, List.length_map, List.length_range, List.length_nil,
    Nat.zero_add]

-- ══ C8: structural no-ops ═══════════════════════════════

/-- C8: at iteration depth 0, `removeComponent` on an entity lacking the
component, `set` without a live placement or without a (non-tag) store
for the field's component, and `destroyEntity` of an unknown id (not in
the known set and holding no placement) all return the state unchanged —
in particular they enqueue no hook events and capture no tombstone. -/
theorem c8_silent_noops (s : EMState) (e : Nat) (c : Sym) (sym : Sym) (f : String)
    (v : JVal) (ai : Nat) :
    (s.iterating = 0 → hasComponent s e c = false → removeComponent s e c = s) ∧
    (mget s.entityArchetype e = none → setField s e sym f v = s) ∧
    (mget s.entityArchetype e = some ai → mget (getArch s ai).components sym = none →
        setField s e sym f v = s) ∧
    (mget s.entityArchetype e = some ai → mget (getArch s ai).components sym = some none →
        setField s e sym f v = s) ∧
    (s.iterating = 0 → e ∉ s.allEntityIds → mget s.entityArchetype e = none →
        destroyEntity s e = s) := by
  refine ⟨?_, ?_, ?_, ?_, ?_⟩
  · intro hit hlack
    unfold removeComponent
    rw [if_neg (by omega)]
    unfold doRemoveComponent
    cases harch : mget s.entityArchetype e with
    | none => rfl
    | some ai' =>
        unfold hasComponent at hlack
        rw [harch] at hlack
        simp only [decide_eq_false_iff_not] at hlack
        simp [hlack]
  · intro hnone
    unfold setField
    rw [hnone]
  · intro hsome hstore
    unfold setField
    rw [hsome]
    simp only
    rw [hstore]
  · intro hsome hstore
    unfold setField
    rw [hsome]
    simp only
    rw [hstore]
  · intro hit hunknown hnone
    unfold destroyEntity
    rw [if_neg (by omega)]
    unfold doDestroyEntity
    rw [hnone]
    simp only
    have hdel : jsSetDel s.allEntityIds e = s.allEntityIds := by
      unfold jsSetDel
      apply List.filter_eq_self.mpr
      intro a ha
      simp only [decide_eq_true_eq]
      intro hae
      exact hunknown (hae ▸ ha)
    rw [hdel]

-- ══ C9: deserialize clears only part of the state ═══════

theorem loadKeeps_refl (s : EMState) : LoadKeeps s s :=
  ⟨⟨rfl, rfl, rfl, rfl, rfl, rfl, rfl, rfl⟩, [], by simp⟩

theorem loadKeeps_trans {a b c : EMState} (h1 : LoadKeeps a b) (h2 : LoadKeeps b c) :
    LoadKeeps a c := by
  obtain ⟨⟨m1, m2, m3, m4, m5, m6, m7, m8⟩, t1, ht1⟩ := h1
  obtain ⟨⟨n1, n2, n3, n4, n5, n6, n7, n8⟩, t2, ht2⟩ := h2
  refine ⟨⟨?_, ?_, ?_, ?_, ?_, ?_, ?_, ?_⟩, t2 ++ t1, ?_⟩
  · rw [m1, n1]
  · rw [m2, n2]
  · rw [m3, n3]
  · rw [m4, n4]
  · rw [m5, n5]
  · rw [m6, n6]
  · rw [m7, n7]
  · rw [m8, n8]
  · rw [ht1, ht2, List.append_assoc]

theorem loadKeeps_getBit (s : EMState) (t : Sym) : LoadKeeps (getBit s t).2 s := by
  unfold getBit
  cases mget s.componentBitIndex t with
  | some b => exact loadKeeps_refl s
  | none => exact ⟨⟨rfl, rfl, rfl, rfl, rfl, rfl, rfl, rfl⟩, [], by simp⟩

theorem loadKeeps_computeMask_fold (types : List Sym) :
    ∀ acc : List Nat × EMState,
      LoadKeeps (types.foldl (fun acc t =>
        let r := getBit acc.2 t
        (maskSetBit acc.1 r.1, r.2)) acc).2 acc.2 := by
  induction types with
  | nil => intro acc; exact loadKeeps_refl _
  | cons t rest ih =>
      intro acc
      rw [List.foldl_cons]
      exact loadKeeps_trans (ih _) (loadKeeps_getBit acc.2 t)

theorem loadKeeps_computeMask (s : EMState) (types : List Sym) :
    LoadKeeps (computeMask s types).2 s :=
  loadKeeps_computeMask_fold types _

theorem loadKeeps_getOrCreateArchetype (s : EMState) (types : List Sym) :
    LoadKeeps (getOrCreateArchetype s types).2 s := by
  unfold getOrCreateArchetype
  cases hm : mget (computeMask s types).2.archetypes (computeMask s types).1 with
  | some ai =>
      simp only [hm]
      exact loadKeeps_computeMask s types
  | none =>
      simp only [hm]
      refine loadKeeps_trans ?_ (loadKeeps_computeMask s types)
      refine ⟨⟨rfl, rfl, rfl, rfl, rfl, rfl, rfl, rfl⟩, ?_⟩
      by_cases htr :
          (match (computeMask s types).2.trackFilter with
           | some tf => maskOverlaps (computeMask s types).1 tf
           | none => false) = true
      · exact ⟨[(computeMask s types).2.archs.length], by simp [htr]⟩
      · refine ⟨[], ?_⟩
        rw [List.append_nil]
        simp only [if_neg htr]

theorem loadKeeps_addToArchetype (s : EMState) (ai : Nat) (e : Nat)
    (cmap : List (Sym × ComponentData)) : LoadKeeps (addToArchetype s ai e cmap) s := by
  unfold addToArchetype setArch
  exact ⟨⟨rfl, rfl, rfl, rfl, rfl, rfl, rfl, rfl⟩, [], by simp⟩

theorem loadKeeps_foldl {α : Type} (step : EMState → α → EMState) (l : List α)
    (h : ∀ st x, LoadKeeps (step st x) st) : ∀ st, LoadKeeps (l.foldl step st) st := by
  induction l with
  | nil => intro st; exact loadKeeps_refl st
  | cons x rest ih =>
      intro st
      rw [List.foldl_cons]
      exact loadKeeps_trans (ih _) (h st x)

theorem loadKeeps_foldl_pair {α β : Type} (step : β × EMState → α → β × EMState) (l : List α)
    (h : ∀ acc x, LoadKeeps (step acc x).2 acc.2) :
    ∀ acc, LoadKeeps (l.foldl step acc).2 acc.2 := by
  induction l with
  | nil => intro acc; exact loadKeeps_refl _
  | cons x rest ih =>
      intro acc
      rw [List.foldl_cons]
      exact loadKeeps_trans (ih _) (h acc x)

set_option maxHeartbeats 2000000 in
theorem deserialize_keeps (s : EMState) (d : SerializedData) (n2s : List (String × Sym)) :
    LoadKeeps (deserialize s d n2s)
      { s with
        allEntityIds := jsSetOfList d.entities
        archetypes := []
        entityArchetype := []
        queryCache := []
        queryCacheVersion := 0
        nextId := d.nextId } := by
  unfold deserialize
  refine loadKeeps_trans (loadKeeps_foldl _ _ ?_ _) (loadKeeps_foldl_pair _ _ ?_ _)
  · intro st grp
    cases grp.2 with
    | nil => exact loadKeeps_refl st
    | cons first rest =>
        simp only
        exact loadKeeps_trans
          (loadKeeps_foldl _ _
            (fun (st2 : EMState) (e : Nat × List (Sym × ComponentData)) =>
              loadKeeps_addToArchetype st2 _ e.1 e.2) _)
          (loadKeeps_getOrCreateArchetype st _)
  · intro acc e
    by_cases hlen : (e.2.map (fun p => p.1)).length = 0
    · simp only [if_pos hlen]
      exact loadKeeps_refl _
    · simp only [if_neg hlen]
      cases hm : mget acc.1 (computeMask acc.2 (e.2.map (fun p => p.1))).1 with
      | some lst =>
          simp only [hm]
          exact loadKeeps_computeMask acc.2 _
      | none =>
          simp only [hm]
          exact loadKeeps_computeMask acc.2 _

-- ══ Quiet-field preservation (iterating, deferred) ══════

theorem quiet_refl (s : EMState) : QuietFields s s := ⟨rfl, rfl⟩

theorem quiet_trans {a b c : EMState} (h1 : QuietFields a b) (h2 : QuietFields b c) :
    QuietFields a c :=
  ⟨h1.1.trans h2.1, h1.2.trans h2.2⟩

theorem quiet_of_loadKeeps {a b : EMState} (h : LoadKeeps a b) : QuietFields a b :=
  ⟨h.1.2.2.2.2.1, h.1.2.2.2.2.2.1⟩

theorem loadKeeps_setArch (s : EMState) (ai : Nat) (a : Archetype) :
    LoadKeeps (setArch s ai a) s := by
  unfold setArch
  exact ⟨⟨rfl, rfl, rfl, rfl, rfl, rfl, rfl, rfl⟩, [], by simp⟩

theorem loadKeeps_removeFromArchetype (s : EMState) (ai : Nat) (e : Nat) :
    LoadKeeps (removeFromArchetype s ai e) s := by
  unfold removeFromArchetype setArch
  exact ⟨⟨rfl, rfl, rfl, rfl, rfl, rfl, rfl, rfl⟩, [], by simp⟩

theorem quiet_getOrCreateArchetype (s : EMState) (types : List Sym) :
    QuietFields (getOrCreateArchetype s types).2 s :=
  quiet_of_loadKeeps (loadKeeps_getOrCreateArchetype s types)

theorem quiet_addToArchetype (s : EMState) (ai : Nat) (e : Nat)
    (cmap : List (Sym × ComponentData)) : QuietFields (addToArchetype s ai e cmap) s :=
  quiet_of_loadKeeps (loadKeeps_addToArchetype s ai e cmap)

theorem quiet_removeFromArchetype (s : EMState) (ai : Nat) (e : Nat) :
    QuietFields (removeFromArchetype s ai e) s :=
  quiet_of_loadKeeps (loadKeeps_removeFromArchetype s ai e)

theorem quiet_computeMask (s : EMState) (types : List Sym) :
    QuietFields (computeMask s types).2 s :=
  quiet_of_loadKeeps (loadKeeps_computeMask s types)

theorem quiet_pushPendingAdd (s : EMState) (t : Sym) (id : Nat) :
    QuietFields (pushPendingAdd s t id) s := by
  unfold pushPendingAdd
  cases s.hooks with
  | none => exact quiet_refl s
  | some h =>
      dsimp only
      cases mget h.pendingAdd t with
      | some pending => exact ⟨rfl, rfl⟩
      | none => exact quiet_refl s

theorem quiet_trackDestroyed (s : EMState) (key : List Nat) (id : Nat) :
    QuietFields (trackDestroyed s key id) s := by
  unfold trackDestroyed
  cases s.destroyedSet with
  | none => exact quiet_refl s
  | some ds =>
      cases s.trackFilter with
      | none => exact quiet_refl s
      | some tf =>
          dsimp only
          by_cases ho : maskOverlaps key tf = true
          · rw [if_pos ho]
            exact ⟨rfl, rfl⟩
          · rw [if_neg ho]
            exact quiet_refl s

theorem setArch_it (s : EMState) (ai : Nat) (a : Archetype) :
    (setArch s ai a).iterating = s.iterating := rfl

theorem setArch_df (s : EMState) (ai : Nat) (a : Archetype) :
    (setArch s ai a).deferred = s.deferred := rfl

theorem removeFromArchetype_it (s : EMState) (ai : Nat) (e : Nat) :
    (removeFromArchetype s ai e).iterating = s.iterating := rfl

theorem removeFromArchetype_df (s : EMState) (ai : Nat) (e : Nat) :
    (removeFromArchetype s ai e).deferred = s.deferred := rfl

theorem addToArchetype_it (s : EMState) (ai : Nat) (e : Nat)
    (cmap : List (Sym × ComponentData)) :
    (addToArchetype s ai e cmap).iterating = s.iterating := rfl

theorem addToArchetype_df (s : EMState) (ai : Nat) (e : Nat)
    (cmap : List (Sym × ComponentData)) :
    (addToArchetype s ai e cmap).deferred = s.deferred := rfl

theorem getOrCreateArchetype_it (s : EMState) (types : List Sym) :
    (getOrCreateArchetype s types).2.iterating = s.iterating :=
  (quiet_getOrCreateArchetype s types).1

theorem getOrCreateArchetype_df (s : EMState) (types : List Sym) :
    (getOrCreateArchetype s types).2.deferred = s.deferred :=
  (quiet_getOrCreateArchetype s types).2

theorem pushPendingAdd_it (s : EMState) (t : Sym) (id : Nat) :
    (pushPendingAdd s t id).iterating = s.iterating :=
  (quiet_pushPendingAdd s t id).1

theorem pushPendingAdd_df (s : EMState) (t : Sym) (id : Nat) :
    (pushPendingAdd s t id).deferred = s.deferred :=
  (quiet_pushPendingAdd s t id).2

theorem trackDestroyed_it (s : EMState) (key : List Nat) (id : Nat) :
    (trackDestroyed s key id).iterating = s.iterating :=
  (quiet_trackDestroyed s key id).1

theorem trackDestroyed_df (s : EMState) (key : List Nat) (id : Nat) :
    (trackDestroyed s key id).deferred = s.deferred :=
  (quiet_trackDestroyed s key id).2

theorem quiet_doDestroyEntity (s : EMState) (id : Nat) :
    QuietFields (doDestroyEntity s id) s := by
  unfold doDestroyEntity
  cases hm : mget s.entityArchetype id with
  | none => exact ⟨rfl, rfl⟩
  | some ai =>
      cases hh : s.hooks with
      | none =>
          dsimp only
          refine ⟨?_, ?_⟩ <;>
            simp only [removeFromArchetype_it, removeFromArchetype_df, trackDestroyed_it,
              trackDestroyed_df]
      | some h =>
          dsimp only
          refine ⟨?_, ?_⟩ <;>
            (split <;> (try split) <;>
              simp only [removeFromArchetype_it, removeFromArchetype_df, trackDestroyed_it,
                trackDestroyed_df])

theorem quiet_doAddComponent (s : EMState) (e : Nat) (c : Sym) (d : ComponentData) :
    QuietFields (doAddComponent s e c d) s := by
  unfold doAddComponent
  cases hm : mget s.entityArchetype e with
  | none =>
      dsimp only
      refine ⟨?_, ?_⟩ <;>
        simp only [pushPendingAdd_it, pushPendingAdd_df, addToArchetype_it, addToArchetype_df,
          getOrCreateArchetype_it, getOrCreateArchetype_df]
  | some ai =>
      dsimp only
      refine ⟨?_, ?_⟩ <;>
        (split <;> (try split) <;>
          simp only [pushPendingAdd_it, pushPendingAdd_df, addToArchetype_it, addToArchetype_df,
            removeFromArchetype_it, removeFromArchetype_df, getOrCreateArchetype_it,
            getOrCreateArchetype_df, setArch_it, setArch_df])

theorem quiet_doRemoveComponent (s : EMState) (e : Nat) (c : Sym) :
    QuietFields (doRemoveComponent s e c) s := by
  unfold doRemoveComponent
  cases hm : mget s.entityArchetype e with
  | none => exact quiet_refl s
  | some ai =>
      dsimp only
      refine ⟨?_, ?_⟩ <;>
        (split <;>
          [skip;
           (cases hh : s.hooks <;> dsimp only <;>
             (repeat' split) <;>
             simp only [pushPendingAdd_it, pushPendingAdd_df, addToArchetype_it,
               addToArchetype_df, removeFromArchetype_it, removeFromArchetype_df,
               getOrCreateArchetype_it, getOrCreateArchetype_df, trackDestroyed_it,
               trackDestroyed_df])]) <;>
        rfl

theorem quiet_doOp (s : EMState) (op : DeferredOp) : QuietFields (doOp s op) s := by
  cases op with
  | add e c d => exact quiet_doAddComponent s e c d
  | rem e c => exact quiet_doRemoveComponent s e c
  | destroy e => exact quiet_doDestroyEntity s e

theorem quiet_foldl {α : Type} (step : EMState → α → EMState) (l : List α)
    (h : ∀ st x, QuietFields (step st x) st) : ∀ st, QuietFields (l.foldl step st) st := by
  induction l with
  | nil => intro st; exact quiet_refl st
  | cons x rest ih =>
      intro st
      rw [List.foldl_cons]
      exact quiet_trans (ih _) (h st x)

theorem quiet_setField (s : EMState) (e : Nat) (sym : Sym) (f : String) (v : JVal) :
    QuietFields (setField s e sym f v) s := by
  unfold setField
  cases hm : mget s.entityArchetype e with
  | none => exact quiet_refl s
  | some ai =>
      dsimp only
      cases hst : mget (getArch s ai).components sym with
      | none => exact quiet_refl s
      | some st =>
          cases st with
          | none => exact quiet_refl s
          | some store => exact ⟨rfl, rfl⟩

theorem quiet_flushHooksRun (s : EMState) : QuietFields (flushHooksRun s).2 s := by
  unfold flushHooksRun
  cases hh : s.hooks with
  | none => exact quiet_refl s
  | some h => exact ⟨rfl, rfl⟩

theorem quiet_enableTracking (s : EMState) (c : Sym) :
    QuietFields (enableTracking s c) s := by
  unfold enableTracking
  dsimp only
  refine quiet_trans (quiet_foldl _ _ ?_ _) ?_
  · intro st p
    dsimp only
    split
    · exact ⟨rfl, rfl⟩
    · exact quiet_refl st
  · exact ⟨(quiet_of_loadKeeps (loadKeeps_getBit s c)).1,
      (quiet_of_loadKeeps (loadKeeps_getBit s c)).2⟩

theorem quiet_flushSnapshots (s : EMState) : QuietFields (flushSnapshots s) s := by
  unfold flushSnapshots
  refine quiet_foldl _ _ ?_ s
  intro st ai
  exact ⟨rfl, rfl⟩

theorem quiet_getMatchingArchetypes (s : EMState) (inc exc : List Sym) :
    QuietFields (getMatchingArchetypes s inc exc).2 s := by
  unfold getMatchingArchetypes
  by_cases hexc : exc.length > 0
  · simp only [if_pos hexc]
    cases hc : mget (computeMask (computeMask s inc).2 exc).2.queryCache
        ((computeMask s inc).1, some (computeMask (computeMask s inc).2 exc).1) with
    | none =>
        simp only [hc]
        exact ⟨(quiet_trans (quiet_computeMask _ _) (quiet_computeMask _ _)).1,
          (quiet_trans (quiet_computeMask _ _) (quiet_computeMask _ _)).2⟩
    | some c =>
        simp only [hc]
        by_cases hv : c.1 = (computeMask (computeMask s inc).2 exc).2.queryCacheVersion
        · simp only [if_pos hv]
          exact quiet_trans (quiet_computeMask _ _) (quiet_computeMask _ _)
        · simp only [if_neg hv]
          exact ⟨(quiet_trans (quiet_computeMask _ _) (quiet_computeMask _ _)).1,
            (quiet_trans (quiet_computeMask _ _) (quiet_computeMask _ _)).2⟩
  · simp only [if_neg hexc]
    cases hc : mget (computeMask s inc).2.queryCache ((computeMask s inc).1, none) with
    | none =>
        simp only [hc]
        exact ⟨(quiet_computeMask _ _).1, (quiet_computeMask _ _).2⟩
    | some c =>
        by_cases hv : c.1 = (computeMask s inc).2.queryCacheVersion
        · simp only [hc, if_pos hv]
          exact quiet_computeMask _ _
        · simp only [hc, if_neg hv]
          exact ⟨(quiet_computeMask _ _).1, (quiet_computeMask _ _).2⟩

theorem quiet_createEntityWith (s : EMState) (args : List (Sym × ComponentData)) :
    QuietFields (createEntityWith s args).2 s := by
  unfold createEntityWith
  dsimp only
  have chain : QuietFields
      ((args.map (fun a => a.1)).foldl
        (fun st t => pushPendingAdd st t s.nextId)
        (addToArchetype
          (getOrCreateArchetype
            { s with
              nextId := s.nextId + 1
              allEntityIds := jsSetAdd s.allEntityIds s.nextId }
            (args.map (fun a => a.1))).2
          (getOrCreateArchetype
            { s with
              nextId := s.nextId + 1
              allEntityIds := jsSetAdd s.allEntityIds s.nextId }
            (args.map (fun a => a.1))).1
          s.nextId
          (args.foldl (fun m a => mset m a.1 a.2) []))) s := by
    refine quiet_trans (quiet_foldl _ _ (fun st t => quiet_pushPendingAdd st t s.nextId) _) ?_
    refine quiet_trans (quiet_addToArchetype _ _ _ _) ?_
    exact quiet_trans (quiet_getOrCreateArchetype _ _) ⟨rfl, rfl⟩
  split
  · split
    · exact ⟨chain.1, chain.2⟩
    · exact chain
  · exact chain

theorem quiet_applyOp_core (s : EMState) (op : UserOp) (h : deferKind op = false) :
    QuietFields (applyOp s op) s := by
  cases op with
  | createOp => exact ⟨rfl, rfl⟩
  | createWithOp args => exact quiet_createEntityWith s args
  | destroyOp id => simp [deferKind] at h
  | addCompOp id c d => simp [deferKind] at h
  | removeCompOp id c => simp [deferKind] at h
  | setOp id sym f v => exact quiet_setField s id sym f v
  | onAddOp c cb => exact ⟨rfl, rfl⟩
  | onRemoveOp c cb => exact ⟨rfl, rfl⟩
  | flushHooksOp => exact quiet_flushHooksRun s
  | commitRemovalsOp => exact ⟨rfl, rfl⟩
  | enableTrackingOp c => exact quiet_enableTracking s c
  | flushChangesOp => exact ⟨rfl, rfl⟩
  | flushSnapshotsOp => exact quiet_flushSnapshots s
  | queryOp inc exc => exact quiet_getMatchingArchetypes s inc exc
  | countOp inc exc => exact quiet_getMatchingArchetypes s inc exc
  | deserializeOp d n2s =>
      exact ⟨(quiet_of_loadKeeps (deserialize_keeps s d n2s)).1,
        (quiet_of_loadKeeps (deserialize_keeps s d n2s)).2⟩

theorem iterating_applyOp (s : EMState) (op : UserOp) :
    (applyOp s op).iterating = s.iterating := by
  cases op with
  | destroyOp id =>
      dsimp only [applyOp]
      unfold destroyEntity
      split
      · rfl
      · exact (quiet_doDestroyEntity s id).1
  | addCompOp id c d =>
      dsimp only [applyOp]
      unfold addComponent
      split
      · cases hm : mget s.entityArchetype id with
        | none => rfl
        | some ai =>
            dsimp only
            split
            · split <;> rfl
            · rfl
      · exact (quiet_doAddComponent s id c d).1
  | removeCompOp id c =>
      dsimp only [applyOp]
      unfold removeComponent
      split
      · rfl
      · exact (quiet_doRemoveComponent s id c).1
  | createOp => rfl
  | createWithOp args => exact (quiet_createEntityWith s args).1
  | setOp id sym f v => exact (quiet_setField s id sym f v).1
  | onAddOp c cb => rfl
  | onRemoveOp c cb => rfl
  | flushHooksOp => exact (quiet_flushHooksRun s).1
  | commitRemovalsOp => rfl
  | enableTrackingOp c => exact (quiet_enableTracking s c).1
  | flushChangesOp => rfl
  | flushSnapshotsOp => exact (quiet_flushSnapshots s).1
  | queryOp inc exc => exact (quiet_getMatchingArchetypes s inc exc).1
  | countOp inc exc => exact (quiet_getMatchingArchetypes s inc exc).1
  | deserializeOp d n2s => exact (quiet_of_loadKeeps (deserialize_keeps s d n2s)).1

theorem deferred_doOp (s : EMState) (op : DeferredOp) : (doOp s op).deferred = s.deferred :=
  (quiet_doOp s op).2

theorem foldl_doOp_deferred (l : List DeferredOp) :
    ∀ st : EMState, (l.foldl doOp st).deferred = st.deferred := by
  induction l with
  | nil => intro st; rfl
  | cons x rest ih =>
      intro st
      rw [List.foldl_cons, ih, deferred_doOp]

theorem flushDeferred_deferred (s : EMState) : (flushDeferred s).deferred = [] := by
  unfold flushDeferred
  rw [foldl_doOp_deferred]

theorem iterating_foldl_applyOp (ops : List UserOp) :
    ∀ st : EMState, (ops.foldl applyOp st).iterating = st.iterating := by
  induction ops with
  | nil => intro st; rfl
  | cons x rest ih =>
      intro st
      rw [List.foldl_cons, ih, iterating_applyOp]

theorem forEachBody_it (s : EMState) (inc exc : List Sym) (ops : List UserOp) :
    (forEachBody s inc exc ops).iterating = s.iterating + 1 := by
  unfold forEachBody
  dsimp only
  have hfold : ∀ (l : List Nat) (st : EMState),
      (l.foldl (fun st ai =>
        if (getArch st ai).count = 0 then st else ops.foldl applyOp st) st).iterating
        = st.iterating := by
    intro l
    induction l with
    | nil => intro st; rfl
    | cons x rest ih =>
        intro st
        rw [List.foldl_cons]
        rw [ih]
        split
        · rfl
        · exact iterating_foldl_applyOp ops st
  rw [hfold]
  exact congrArg (fun n => n + 1) (quiet_getMatchingArchetypes s inc exc).1

theorem bitsOnly_refl (s : EMState) : BitsOnly s s :=
  ⟨rfl, rfl, rfl, rfl, rfl, rfl, rfl, rfl, rfl, rfl, rfl, rfl, rfl, rfl, rfl, rfl, rfl⟩

theorem bitsOnly_trans {a b c : EMState} (h1 : BitsOnly a b) (h2 : BitsOnly b c) :
    BitsOnly a c := by
  obtain ⟨a1, a2, a3, a4, a5, a6, a7, a8, a9, a10, a11, a12, a13, a14, a15, a16, a17⟩ := h1
  obtain ⟨b1, b2, b3, b4, b5, b6, b7, b8, b9, b10, b11, b12, b13, b14, b15, b16, b17⟩ := h2
  exact ⟨a1.trans b1, a2.trans b2, a3.trans b3, a4.trans b4, a5.trans b5, a6.trans b6,
    a7.trans b7, a8.trans b8, a9.trans b9, a10.trans b10, a11.trans b11, a12.trans b12,
    a13.trans b13, a14.trans b14, a15.trans b15, a16.trans b16, a17.trans b17⟩

theorem bitsOnly_getBit (s : EMState) (t : Sym) : BitsOnly (getBit s t).2 s := by
  unfold getBit
  cases mget s.componentBitIndex t with
  | some b => exact bitsOnly_refl s
  | none =>
      exact ⟨rfl, rfl, rfl, rfl, rfl, rfl, rfl, rfl, rfl, rfl, rfl, rfl, rfl, rfl, rfl,
        rfl, rfl⟩

theorem bitsOnly_computeMask (s : EMState) (types : List Sym) :
    BitsOnly (computeMask s types).2 s := by
  unfold computeMask
  have hfold : ∀ (l : List Sym) (acc : List Nat × EMState),
      BitsOnly (l.foldl (fun acc t =>
        let r := getBit acc.2 t
        (maskSetBit acc.1 r.1, r.2)) acc).2 acc.2 := by
    intro l
    induction l with
    | nil => intro acc; exact bitsOnly_refl _
    | cons t rest ih =>
        intro acc
        rw [List.foldl_cons]
        exact bitsOnly_trans (ih _) (bitsOnly_getBit acc.2 t)
  exact hfold types _

theorem getOrCreateArchetype_ea (s : EMState) (types : List Sym) :
    (getOrCreateArchetype s types).2.entityArchetype = s.entityArchetype := by
  unfold getOrCreateArchetype
  cases hm : mget (computeMask s types).2.archetypes (computeMask s types).1 with
  | some ai =>
      simp only [hm]
      exact (bitsOnly_computeMask s types).2.2.2.2.2.2.2.2.2.2.2.2.2.2.1
  | none =>
      simp only [hm]
      exact (bitsOnly_computeMask s types).2.2.2.2.2.2.2.2.2.2.2.2.2.2.1

theorem getOrCreateArchetype_nextId (s : EMState) (types : List Sym) :
    (getOrCreateArchetype s types).2.nextId = s.nextId :=
  (loadKeeps_getOrCreateArchetype s types).1.2.2.2.2.2.2.1

theorem getOrCreateArchetype_hooks (s : EMState) (types : List Sym) :
    (getOrCreateArchetype s types).2.hooks = s.hooks :=
  (loadKeeps_getOrCreateArchetype s types).1.1

theorem addToArchetype_hooks (s : EMState) (ai : Nat) (e : Nat)
    (cmap : List (Sym × ComponentData)) : (addToArchetype s ai e cmap).hooks = s.hooks := rfl

theorem addToArchetype_nextId (s : EMState) (ai : Nat) (e : Nat)
    (cmap : List (Sym × ComponentData)) : (addToArchetype s ai e cmap).nextId = s.nextId := rfl

theorem addToArchetype_ea (s : EMState) (ai : Nat) (e : Nat)
    (cmap : List (Sym × ComponentData)) :
    (addToArchetype s ai e cmap).entityArchetype = mset s.entityArchetype e ai := rfl

theorem pushPendingAdd_ea (s : EMState) (t : Sym) (id : Nat) :
    (pushPendingAdd s t id).entityArchetype = s.entityArchetype := by
  unfold pushPendingAdd
  cases s.hooks with
  | none => rfl
  | some h =>
      dsimp only
      cases mget h.pendingAdd t with
      | some pending => rfl
      | none => rfl

theorem pushPendingAdd_nextId (s : EMState) (t : Sym) (id : Nat) :
    (pushPendingAdd s t id).nextId = s.nextId := by
  unfold pushPendingAdd
  cases s.hooks with
  | none => rfl
  | some h =>
      dsimp only
      cases mget h.pendingAdd t with
      | some pending => rfl
      | none => rfl

theorem foldl_pushPendingAdd_ea (l : List Sym) (id : Nat) :
    ∀ st : EMState,
      (l.foldl (fun st t => pushPendingAdd st t id) st).entityArchetype
        = st.entityArchetype := by
  induction l with
  | nil => intro st; rfl
  | cons x rest ih =>
      intro st
      rw [List.foldl_cons, ih, pushPendingAdd_ea]

theorem foldl_pushPendingAdd_nextId (l : List Sym) (id : Nat) :
    ∀ st : EMState,
      (l.foldl (fun st t => pushPendingAdd st t id) st).nextId = st.nextId := by
  induction l with
  | nil => intro st; rfl
  | cons x rest ih =>
      intro st
      rw [List.foldl_cons, ih, pushPendingAdd_nextId]

theorem pushPendingAdd_effect (s : EMState) (h : Hooks) (c : Sym) (pending : List Nat)
    (id : Nat) (hh : s.hooks = some h) (hp : mget h.pendingAdd c = some pending) :
    (pushPendingAdd s c id).hooks
      = some { h with pendingAdd := mset h.pendingAdd c (pending ++ [id]) } := by
  unfold pushPendingAdd
  rw [hh]
  dsimp only
  rw [hp]

theorem createEntityWith_nextId_ea (s : EMState) (args : List (Sym × ComponentData)) :
    (createEntityWith s args).2.nextId = s.nextId + 1 ∧
    (createEntityWith s args).2.entityArchetype
      = mset s.entityArchetype s.nextId
          (getOrCreateArchetype
            { s with nextId := s.nextId + 1, allEntityIds := jsSetAdd s.allEntityIds s.nextId }
            (args.map (fun a => a.1))).1 := by
  unfold createEntityWith
  dsimp only
  constructor
  · split <;> (try split) <;> (try dsimp only) <;>
      rw [foldl_pushPendingAdd_nextId, addToArchetype_nextId, getOrCreateArchetype_nextId]
  · split <;> (try split) <;> (try dsimp only) <;>
      rw [foldl_pushPendingAdd_ea, addToArchetype_ea, getOrCreateArchetype_ea]

theorem createEntityWith_pending_single (s : EMState) (h : Hooks) (c : Sym)
    (dta : ComponentData) (pending : List Nat) (hh : s.hooks = some h)
    (hp : mget h.pendingAdd c = some pending) :
    (createEntityWith s [(c, dta)]).2.hooks
      = some { h with pendingAdd := mset h.pendingAdd c (pending ++ [s.nextId]) } := by
  unfold createEntityWith
  dsimp only
  split <;> (try split) <;>
    exact pushPendingAdd_effect _ h c pending s.nextId
      (by rw [addToArchetype_hooks, getOrCreateArchetype_hooks]; exact hh) hp

/-- C10: `createEntity` and `createEntityWith` are never deferred: at any
iteration depth, `createEntity` immediately allocates the next id
(touching nothing else), and `createEntityWith` immediately allocates
the id, inserts the row (the directory maps the new id to the target
archetype of the supplied component list), pushes a pending-add entry
for a component with observers, and leaves the deferral queue unchanged;
no public call other than `addComponent` / `removeComponent` /
`destroyEntity` ever touches the deferral queue. -/
theorem c10_creates_immediate (s : EMState) (args : List (Sym × ComponentData))
    (op : UserOp) (h : Hooks) (c : Sym) (dta : ComponentData) (pending : List Nat) :
    ((createEntity s).1 = s.nextId ∧
     (createEntity s).2
       = { s with nextId := s.nextId + 1, allEntityIds := jsSetAdd s.allEntityIds s.nextId }) ∧
    ((createEntityWith s args).1 = s.nextId ∧
     (createEntityWith s args).2.deferred = s.deferred ∧
     (createEntityWith s args).2.nextId = s.nextId + 1 ∧
     (mget (createEntityWith s args).2.entityArchetype s.nextId).isSome = true) ∧
    (s.hooks = some h → mget h.pendingAdd c = some pending →
     (createEntityWith s [(c, dta)]).2.hooks
       = some { h with pendingAdd := mset h.pendingAdd c (pending ++ [s.nextId]) }) ∧
    (deferKind op = false → (applyOp s op).deferred = s.deferred) := by
  refine ⟨⟨rfl, rfl⟩, ⟨rfl, (quiet_createEntityWith s args).2,
    (createEntityWith_nextId_ea s args).1, ?_⟩, ?_, ?_⟩
  · rw [(createEntityWith_nextId_ea s args).2, mget_mset_self]
    rfl
  · intro hh hp
    exact createEntityWith_pending_single s h c dta pending hh hp
  · intro hdk
    exact (quiet_applyOp_core s op hdk).2

theorem c10_creates_immediate_witness :
    ((createEntityWith c2State [(2, none)]).2.hooks.getD emptyHooks).pendingAdd
      = [(2, [1, 2, 3])] ∧
    (applyOp c2State .flushChangesOp).deferred = c2State.deferred :=
  ⟨by
    rw [(c10_creates_immediate c2State [(2, none)] .flushChangesOp
      { addCbs := [(2, [10, 11])], removeCbs := [], pendingAdd := [(2, [1, 2])],
        pendingRemove := [] } 2 none [1, 2]).2.2.1 rfl rfl]
    rfl,
   (c10_creates_immediate c2State [(2, none)] .flushChangesOp emptyHooks 2 none []).2.2.2 rfl⟩

-- ══ C1: deferral discipline during iteration ════════════

/-- C1: while iteration depth is positive, `addComponent` on an entity
lacking C, `removeComponent`, and `destroyEntity` only append the
corresponding op to the deferral queue; `addComponent` on an entity that
already has C overwrites the row in place (no hook buffer change, no
deferral, no archetype or directory change); per-field `set` ignores the
depth counter entirely; `flushDeferred` replays the queue in FIFO
arrival order through the ordinary mutator paths (`doAddComponent` /
`doRemoveComponent` / `doDestroyEntity`, which update hook pending
buffers normally); an outermost `forEach` (entered at depth 0) leaves an
empty queue behind, while a `forEach` entered at depth > 0 only
decrements the counter and never drains. -/
theorem c1_deferral_discipline (s : EMState) (e : Nat) (c : Sym) (dta : ComponentData)
    (sym : Sym) (f : String) (v : JVal) (n : Nat) (inc exc : List Sym) (ops : List UserOp) :
    (s.iterating > 0 → hasComponent s e c = false →
        addComponent s e c dta = { s with deferred := s.deferred ++ [.add e c dta] }) ∧
    (s.iterating > 0 →
        removeComponent s e c = { s with deferred := s.deferred ++ [.rem e c] }) ∧
    (s.iterating > 0 →
        destroyEntity s e = { s with deferred := s.deferred ++ [.destroy e] }) ∧
    (s.iterating > 0 → hasComponent s e c = true →
        (addComponent s e c dta).hooks = s.hooks ∧
        (addComponent s e c dta).deferred = s.deferred ∧
        (addComponent s e c dta).entityArchetype = s.entityArchetype ∧
        (addComponent s e c dta).archetypes = s.archetypes) ∧
    (setField { s with iterating := n } e sym f v
        = { setField s e sym f v with iterating := n }) ∧
    (flushDeferred s = s.deferred.foldl doOp { s with deferred := [] }) ∧
    (s.iterating = 0 → s.deferred = [] → (runForEach s inc exc ops).deferred = []) ∧
    (s.iterating > 0 →
        runForEach s inc exc ops
          = { forEachBody s inc exc ops with
              iterating := (forEachBody s inc exc ops).iterating - 1 }) := by
  refine ⟨?_, ?_, ?_, ?_, ?_, rfl, ?_, ?_⟩
  · intro hit hlack
    unfold addComponent
    rw [if_pos hit]
    cases hm : mget s.entityArchetype e with
    | none => rfl
    | some ai =>
        unfold hasComponent at hlack
        rw [hm] at hlack
        simp only [decide_eq_false_iff_not] at hlack
        dsimp only
        rw [if_neg hlack]
  · intro hit
    unfold removeComponent
    rw [if_pos hit]
  · intro hit
    unfold destroyEntity
    rw [if_pos hit]
  · intro hit hhas
    unfold addComponent
    rw [if_pos hit]
    cases hm : mget s.entityArchetype e with
    | none =>
        unfold hasComponent at hhas
        rw [hm] at hhas
        simp at hhas
    | some ai =>
        unfold hasComponent at hhas
        rw [hm] at hhas
        simp only [decide_eq_true_eq] at hhas
        dsimp only
        rw [if_pos hhas]
        cases hst : mget (getArch s ai).components c with
        | none => exact ⟨rfl, rfl, rfl, rfl⟩
        | some st =>
            cases st with
            | none => exact ⟨rfl, rfl, rfl, rfl⟩
            | some store => exact ⟨rfl, rfl, rfl, rfl⟩
  · unfold setField getArch
    dsimp only
    cases hm : mget s.entityArchetype e with
    | none => rfl
    | some ai =>
        dsimp only
        cases hst : mget (s.archs.getD ai default).components sym with
        | none => rfl
        | some st =>
            cases st with
            | none => rfl
            | some store => rfl
  · intro h0 hdef
    unfold runForEach
    dsimp only
    have hbit : (forEachBody s inc exc ops).iterating - 1 = 0 := by
      rw [forEachBody_it, h0]
    rw [hbit]
    by_cases hlen : (forEachBody s inc exc ops).deferred.length = 0
    · rw [if_neg (by simp [hlen])]
      exact List.length_eq_zero.mp hlen
    · rw [if_pos (by simp [hlen])]
      exact flushDeferred_deferred _
  · intro hit
    unfold runForEach
    dsimp only
    have hbit : (forEachBody s inc exc ops).iterating - 1 = s.iterating := by
      rw [forEachBody_it]
      omega
    rw [hbit]
    rw [if_neg (by simp; omega)]

theorem c1_deferral_discipline_witness :
    removeComponent { c2State with iterating := 1 } 1 2
        = { { c2State with iterating := 1 } with
            deferred := { c2State with iterating := 1 }.deferred ++ [.rem 1 2] } ∧
    (runForEach c2State [] [] []).deferred = [] :=
  ⟨(c1_deferral_discipline { c2State with iterating := 1 } 1 2 none 2 "hp" (.num 0) 0 [] []
      []).2.1 (by decide),
   (c1_deferral_discipline c2State 1 2 none 2 "hp" (.num 0) 0 [] [] []).2.2.2.2.2.2.1
     rfl rfl⟩

/-- C9 counterexample.  From a reachable state with a tombstone for
entity 1 and a pending-remove entry (built by `onRemove`,
`createEntityWith`, `removeComponent`), deserializing an empty world
leaves both intact: the tombstone map still has key 1 and the
pending-remove buffer of component 0 still holds id 1, contradicting the
claim that deserialize clears every piece of mutable manager state
(pending hook buffers, tombstones) before loading. -/
theorem c9_deserialize_counterexample :
    (deserialize c9State c9Empty []).removedData.map Prod.fst = [1] ∧
    ((deserialize c9State c9Empty []).hooks.getD emptyHooks).pendingRemove = [(0, [1])] ∧
    (deserialize c9State c9Empty []).removedData.length ≠ 0 := by
  refine ⟨rfl, rfl, by decide⟩

theorem c8_silent_noops_witness :
    removeComponent (initState []) 1 0 = initState [] ∧
    setField (initState []) 1 0 "x" (.num 3) = initState [] ∧
    destroyEntity (initState []) 1 = initState [] :=
  ⟨(c8_silent_noops (initState []) 1 0 0 "x" (.num 3) 0).1 rfl rfl,
   (c8_silent_noops (initState []) 1 0 0 "x" (.num 3) 0).2.1 rfl,
   (c8_silent_noops (initState []) 1 0 0 "x" (.num 3) 0).2.2.2.2 rfl (by decide) rfl⟩

-- ══ Invariant preservation machinery (claim C4) ═════════

theorem getD_set_self {α : Type} (l : List α) (i : Nat) (a d : α) (h : i < l.length) :
    (l.set i a).getD i d = a := by
  rw [List.getD_eq_getElem?_getD, List.getElem?_set_self]
  · simp
  · exact h

theorem getD_set_ne {α : Type} (l : List α) (i j : Nat) (a d : α) (h : i ≠ j) :
    (l.set i a).getD j d = l.getD j d := by
  rw [List.getD_eq_getElem?_getD, List.getElem?_set_ne h, ← List.getD_eq_getElem?_getD]

theorem getD_replicate_zero (n i : Nat) : (List.replicate n 0).getD i (0 : Nat) = 0 := by
  rcases Nat.lt_or_ge i n with h | h
  · rw [List.getD_eq_getElem?_getD, List.getElem?_replicate, if_pos h]
    rfl
  · exact List.getD_eq_default _ _ (by simpa using h)

theorem getD_pad_zeros (m : List Nat) (k j : Nat) :
    (m ++ List.replicate k 0).getD j 0 = m.getD j 0 := by
  induction k generalizing m with
  | zero => simp
  | succ n ih =>
      have hsplit : m ++ List.replicate (n + 1) 0 = (m ++ [0]) ++ List.replicate n 0 := by
        rw [List.replicate_succ, List.append_assoc]
        rfl
      rw [hsplit, ih (m ++ [0]), getD_append_zero]

theorem getD_append_lt {α : Type} (l l' : List α) (i : Nat) (d : α) (h : i < l.length) :
    (l ++ l').getD i d = l.getD i d := by
  rw [List.getD_eq_getElem?_getD, List.getD_eq_getElem?_getD, List.getElem?_append, if_pos h]

theorem getD_append_self_len {α : Type} (l : List α) (a d : α) :
    (l ++ [a]).getD l.length d = a := by
  rw [List.getD_eq_getElem?_getD, List.getElem?_append, if_neg (lt_irrefl l.length)]
  simp

theorem maskTestBit_pad_zeros (m : List Nat) (k i : Nat) :
    maskTestBit (m ++ List.replicate k 0) i = maskTestBit m i := by
  unfold maskTestBit
  rw [getD_pad_zeros]

theorem maskTestBit_createMask (n b : Nat) : maskTestBit (createMask n) b = false := by
  unfold maskTestBit createMask
  rw [getD_replicate_zero]
  exact Nat.zero_testBit _

theorem maskTestBit_oob (m : List Nat) (b : Nat) (h : 32 * m.length ≤ b) :
    maskTestBit m b = false := by
  unfold maskTestBit
  have hlen : m.length ≤ b / 32 := (Nat.le_div_iff_mul_le (by norm_num)).mpr (by omega)
  rw [List.getD_eq_default _ _ hlen]
  exact Nat.zero_testBit _

theorem maskTestBit_set_lor (lst : List Nat) (slot : Nat) (hslot : slot < lst.length)
    (bit b : Nat) (hbs : bit / 32 = slot) :
    maskTestBit (lst.set slot (Nat.lor (lst.getD slot 0) (Nat.shiftLeft 1 (bit % 32)))) b
      = (b == bit || maskTestBit lst b) := by
  have hshift : Nat.shiftLeft 1 (bit % 32) = 2 ^ (bit % 32) := by
    have h0 : Nat.shiftLeft 1 (bit % 32) = 1 <<< (bit % 32) := rfl
    rw [h0, Nat.shiftLeft_eq, one_mul]
  unfold maskTestBit
  by_cases hq : b / 32 = slot
  · rw [hq, getD_set_self _ _ _ _ hslot]
    have hlor : Nat.lor (lst.getD slot 0) (Nat.shiftLeft 1 (bit % 32))
        = lst.getD slot 0 ||| 2 ^ (bit % 32) := by rw [hshift]; rfl
    rw [hlor, Nat.testBit_or, Nat.testBit_two_pow]
    have hiff : (bit % 32 = b % 32) ↔ (b = bit) := by omega
    by_cases hbb : b = bit
    · simp [hbb]
    · have hne : ¬ (bit % 32 = b % 32) := fun hc => hbb (hiff.mp hc)
      simp [hbb, hne]
  · rw [getD_set_ne _ _ _ _ _ (fun hc => hq hc.symm)]
    have hbb : ¬ b = bit := fun hc => hq (by rw [hc]; exact hbs)
    simp [hbb]

theorem maskTestBit_maskSetBit (m : List Nat) (bit b : Nat) :
    maskTestBit (maskSetBit m bit) b = (b == bit || maskTestBit m b) := by
  unfold maskSetBit
  dsimp only
  by_cases hg : bit / 32 ≥ m.length
  · rw [if_pos hg]
    have hslot : bit / 32 < (m ++ List.replicate (bit / 32 + 1 - m.length) 0).length := by
      rw [List.length_append, List.length_replicate]
      omega
    rw [maskTestBit_set_lor _ _ hslot bit b rfl, maskTestBit_pad_zeros]
  · rw [if_neg hg]
    exact maskTestBit_set_lor m _ (by omega) bit b rfl

theorem getBit_self (s : EMState) (t : Sym) :
    mget (getBit s t).2.componentBitIndex t = some (getBit s t).1 := by
  unfold getBit
  cases hm : mget s.componentBitIndex t with
  | some b => simpa using hm
  | none => exact mget_mset_self _ _ _

theorem getBit_mono (s : EMState) (t t' : Sym) (b' : Nat)
    (h : mget s.componentBitIndex t' = some b') :
    mget (getBit s t).2.componentBitIndex t' = some b' := by
  unfold getBit
  cases hm : mget s.componentBitIndex t with
  | some b => exact h
  | none =>
      dsimp only
      by_cases ht : t' = t
      · subst ht
        rw [hm] at h
        cases h
      · exact (mget_mset_ne _ _ _ _ ht).trans h

theorem getBit_nextId (s : EMState) (t : Sym) : (getBit s t).2.nextId = s.nextId := by
  unfold getBit
  cases mget s.componentBitIndex t <;> rfl

theorem bitInv_getBit (s : EMState) (t : Sym) (h : BitInv s) : BitInv (getBit s t).2 := by
  obtain ⟨h1, h2, h3⟩ := h
  unfold getBit
  cases hm : mget s.componentBitIndex t with
  | some b => exact ⟨h1, h2, h3⟩
  | none =>
      dsimp only
      have hnotmem : t ∉ s.componentBitIndex.map Prod.fst := (mget_eq_none_iff _ _).mp hm
      refine ⟨?_, ?_, ?_⟩
      · intro p hp
        rcases mem_mset hp with hp1 | ⟨hpm, _⟩
        · rw [hp1]
          exact Nat.lt_succ_self _
        · exact Nat.lt_succ_of_lt (h1 p hpm)
      · intro p hp q hq heq
        rcases mem_mset hp with hp1 | ⟨hpm, _⟩ <;> rcases mem_mset hq with hq1 | ⟨hqm, _⟩
        · rw [hp1, hq1]
        · subst hp1
          exact absurd heq.symm (Nat.ne_of_lt (h1 q hqm))
        · subst hq1
          exact absurd heq (Nat.ne_of_lt (h1 p hpm))
        · exact h2 p hpm q hqm heq
      · rw [mset_keys_of_not_mem _ _ _ hnotmem]
        exact nodup_append_singleton h3 hnotmem

theorem computeMask_fold_spec (types : List Sym) :
    ∀ acc : List Nat × EMState,
      (∀ t' b', mget acc.2.componentBitIndex t' = some b' →
          mget (types.foldl (fun acc t =>
            let r := getBit acc.2 t
            (maskSetBit acc.1 r.1, r.2)) acc).2.componentBitIndex t' = some b') ∧
      (∀ b, maskTestBit acc.1 b = true →
          maskTestBit (types.foldl (fun acc t =>
            let r := getBit acc.2 t
            (maskSetBit acc.1 r.1, r.2)) acc).1 b = true) ∧
      (∀ t ∈ types, ∃ b, mget (types.foldl (fun acc t =>
            let r := getBit acc.2 t
            (maskSetBit acc.1 r.1, r.2)) acc).2.componentBitIndex t = some b ∧
          maskTestBit (types.foldl (fun acc t =>
            let r := getBit acc.2 t
            (maskSetBit acc.1 r.1, r.2)) acc).1 b = true) ∧
      (∀ b, maskTestBit (types.foldl (fun acc t =>
            let r := getBit acc.2 t
            (maskSetBit acc.1 r.1, r.2)) acc).1 b = true →
          maskTestBit acc.1 b = true ∨ ∃ t ∈ types, mget (types.foldl (fun acc t =>
            let r := getBit acc.2 t
            (maskSetBit acc.1 r.1, r.2)) acc).2.componentBitIndex t = some b) := by
  induction types with
  | nil =>
      intro acc
      exact ⟨fun t' b' h => h, fun b h => h, fun t ht => absurd ht (List.not_mem_nil t),
             fun b h => Or.inl h⟩
  | cons x rest ih =>
      intro acc
      rw [List.foldl_cons]
      obtain ⟨ihmono, ihmask, ihall, ihcomp⟩ :=
        ih (maskSetBit acc.1 (getBit acc.2 x).1, (getBit acc.2 x).2)
      have hx : mget (getBit acc.2 x).2.componentBitIndex x = some (getBit acc.2 x).1 :=
        getBit_self acc.2 x
      refine ⟨?_, ?_, ?_, ?_⟩
      · intro t' b' h
        exact ihmono t' b' (getBit_mono acc.2 x t' b' h)
      · intro b h
        apply ihmask
        rw [maskTestBit_maskSetBit, h, Bool.or_true]
      · intro t ht
        rcases List.mem_cons.mp ht with rfl | ht'
        · refine ⟨(getBit acc.2 t).1, ihmono _ _ hx, ?_⟩
          apply ihmask
          rw [maskTestBit_maskSetBit]
          simp
        · exact ihall t ht'
      · intro b h
        rcases ihcomp b h with h1 | ⟨t, ht, hmem⟩
        · rw [maskTestBit_maskSetBit] at h1
          rcases Bool.or_eq_true_iff.mp h1 with hbe | hold
          · refine Or.inr ⟨x, List.mem_cons_self x rest, ?_⟩
            have hb : b = (getBit acc.2 x).1 := by simpa using hbe
            rw [hb]
            exact ihmono _ _ hx
          · exact Or.inl hold
        · exact Or.inr ⟨t, List.mem_cons_of_mem x ht, hmem⟩

theorem computeMask_spec (s : EMState) (types : List Sym) :
    (∀ t' b', mget s.componentBitIndex t' = some b' →
        mget (computeMask s types).2.componentBitIndex t' = some b') ∧
    (∀ t ∈ types, ∃ b, mget (computeMask s types).2.componentBitIndex t = some b ∧
        maskTestBit (computeMask s types).1 b = true) ∧
    (∀ b, maskTestBit (computeMask s types).1 b = true →
        ∃ t ∈ types, mget (computeMask s types).2.componentBitIndex t = some b) := by
  unfold computeMask
  dsimp only
  obtain ⟨hmono, hmask, hall, hcomp⟩ := computeMask_fold_spec types
    (createMask (if s.nextBitIndex > 0 then slotsNeeded s.nextBitIndex else 1), s)
  refine ⟨hmono, hall, ?_⟩
  intro b hb
  rcases hcomp b hb with h0 | h
  · rw [maskTestBit_createMask] at h0
    cases h0
  · exact h

theorem bitInv_computeMask_fold (types : List Sym) :
    ∀ acc : List Nat × EMState, BitInv acc.2 →
      BitInv (types.foldl (fun acc t =>
        let r := getBit acc.2 t
        (maskSetBit acc.1 r.1, r.2)) acc).2 := by
  induction types with
  | nil => intro acc h; exact h
  | cons x rest ih =>
      intro acc h
      rw [List.foldl_cons]
      exact ih _ (bitInv_getBit acc.2 x h)

theorem inv_bitInv {s : EMState} (h : Inv s) : BitInv s :=
  h.2.2.2.2.2.2.2.1

theorem archRowInv_congr (s s' : EMState) (ai : Nat)
    (harch : getArch s' ai = getArch s ai)
    (hea : s'.entityArchetype = s.entityArchetype)
    (h : ArchRowInv s ai) : ArchRowInv s' ai := by
  unfold ArchRowInv at h ⊢
  rw [harch, hea]
  exact h

theorem archTypeInv_mono (s s' : EMState) (ai : Nat)
    (harch : getArch s' ai = getArch s ai)
    (hmono : ∀ t b, mget s.componentBitIndex t = some b →
        mget s'.componentBitIndex t = some b)
    (h : ArchTypeInv s ai) : ArchTypeInv s' ai := by
  obtain ⟨h1, h2, h3, h4⟩ := h
  unfold ArchTypeInv
  rw [harch]
  refine ⟨h1, h2, ?_, ?_⟩
  · intro t ht
    obtain ⟨b, hb1, hb2⟩ := h3 t ht
    exact ⟨b, hmono t b hb1, hb2⟩
  · intro b hb1 hb2
    obtain ⟨t, ht, htb⟩ := h4 b hb1 hb2
    exact ⟨t, ht, hmono t b htb⟩

theorem deferAddOKb_mono {n n' : Nat} (h : n ≤ n') (dop : DeferredOp)
    (hok : deferAddOKb n dop = true) : deferAddOKb n' dop = true := by
  cases dop with
  | add e c d =>
      unfold deferAddOKb at hok ⊢
      have he := of_decide_eq_true hok
      exact decide_eq_true (by omega)
  | rem e c => rfl
  | destroy e => rfl

theorem inv_of_invFieldsLe {a b : EMState} (hf : InvFieldsLe a b) (h : Inv b) : Inv a := by
  obtain ⟨harchs, harchet, hea, hcbi, hnbi, hnid, hdf⟩ := hf
  obtain ⟨a1, a2, a3, a4, ab, ac, ac2, ad, af, adq⟩ := h
  have hga : ∀ ai, getArch a ai = getArch b ai := fun ai => by
    unfold getArch
    rw [harchs]
  refine ⟨?_, ?_, ?_, ?_, ?_, ?_, ?_, ?_, ?_, ?_⟩
  · rw [harchet, harchs]
    exact a1
  · intro p hp
    rw [harchet] at hp
    rw [hga]
    exact a2 p hp
  · rw [harchet]
    exact a3
  · rw [harchet]
    exact a4
  · intro ai hai
    rw [harchet] at hai
    exact ⟨archRowInv_congr b a ai (hga ai) hea (ab ai hai).1,
           archTypeInv_mono b a ai (hga ai) (fun t bb hb => by rw [hcbi]; exact hb)
             (ab ai hai).2⟩
  · intro p hp
    rw [hea] at hp
    rw [harchet, hga]
    exact ac p hp
  · rw [hea]
    exact ac2
  · unfold BitInv
    rw [hcbi, hnbi]
    exact ad
  · intro p hp
    rw [hea] at hp
    exact Nat.lt_of_lt_of_le (af p hp) hnid
  · intro dop hdop
    exact deferAddOKb_mono hnid dop (adq dop (hdf dop hdop))

theorem inv_of_bitsOnly_mono {s s' : EMState} (hbo : BitsOnly s' s)
    (hmono : ∀ t b, mget s.componentBitIndex t = some b →
        mget s'.componentBitIndex t = some b)
    (hbi : BitInv s') (h : Inv s) : Inv s' := by
  obtain ⟨hnid, _, _, _, _, _, _, _, _, _, hdf, _, harchs, harchet, hea, _, _⟩ := hbo
  obtain ⟨a1, a2, a3, a4, ab, ac, ac2, _, af, adq⟩ := h
  have hga : ∀ ai, getArch s' ai = getArch s ai := fun ai => by
    unfold getArch
    rw [harchs]
  refine ⟨?_, ?_, ?_, ?_, ?_, ?_, ?_, hbi, ?_, ?_⟩
  · rw [harchet, harchs]
    exact a1
  · intro p hp
    rw [harchet] at hp
    rw [hga]
    exact a2 p hp
  · rw [harchet]
    exact a3
  · rw [harchet]
    exact a4
  · intro ai hai
    rw [harchet] at hai
    exact ⟨archRowInv_congr s s' ai (hga ai) hea (ab ai hai).1,
           archTypeInv_mono s s' ai (hga ai) hmono (ab ai hai).2⟩
  · intro p hp
    rw [hea] at hp
    rw [harchet, hga]
    exact ac p hp
  · rw [hea]
    exact ac2
  · intro p hp
    rw [hnid]
    rw [hea] at hp
    exact af p hp
  · intro dop hdop
    rw [hnid]
    rw [hdf] at hdop
    exact adq dop hdop

theorem inv_getBit (s : EMState) (t : Sym) (h : Inv s) : Inv (getBit s t).2 :=
  inv_of_bitsOnly_mono (bitsOnly_getBit s t) (fun t' b' hb => getBit_mono s t t' b' hb)
    (bitInv_getBit s t (inv_bitInv h)) h

theorem inv_computeMask (s : EMState) (types : List Sym) (h : Inv s) :
    Inv (computeMask s types).2 := by
  refine inv_of_bitsOnly_mono (bitsOnly_computeMask s types) ?_ ?_ h
  · exact fun t b hb => (computeMask_spec s types).1 t b hb
  · unfold computeMask
    dsimp only
    exact bitInv_computeMask_fold types _ (inv_bitInv h)

theorem mset_eq_append_of_not_mem {κ α : Type} [DecidableEq κ] (m : List (κ × α)) (k : κ)
    (v : α) (h : k ∉ m.map Prod.fst) : mset m k v = m ++ [(k, v)] := by
  unfold mset
  rw [if_neg (fun hf => h ((mset_guard_iff m k).mp hf))]

theorem getArch_setArch_self (s : EMState) (ai : Nat) (a : Archetype)
    (h : ai < s.archs.length) : getArch (setArch s ai a) ai = a := by
  unfold getArch setArch
  dsimp only
  exact getD_set_self _ _ _ _ h

theorem getArch_setArch_ne (s : EMState) (ai aj : Nat) (a : Archetype) (h : ai ≠ aj) :
    getArch (setArch s ai a) aj = getArch s aj := by
  unfold getArch setArch
  dsimp only
  exact getD_set_ne _ _ _ _ _ h

theorem archs_length_setArch (s : EMState) (ai : Nat) (a : Archetype) :
    (setArch s ai a).archs.length = s.archs.length := by
  unfold setArch
  dsimp only
  simp

theorem setArch_eq_self_of_ge (s : EMState) (ai : Nat) (a : Archetype)
    (h : s.archs.length ≤ ai) : setArch s ai a = s := by
  unfold setArch
  rw [List.set_eq_of_length_le h]

theorem ensureCapacity_key (a : Archetype) : (ensureCapacity a).key = a.key := by
  unfold ensureCapacity
  split <;> rfl

theorem ensureCapacity_types (a : Archetype) : (ensureCapacity a).types = a.types := by
  unfold ensureCapacity
  split <;> rfl

theorem ensureCapacity_entityIds (a : Archetype) :
    (ensureCapacity a).entityIds = a.entityIds := by
  unfold ensureCapacity
  split <;> rfl

theorem ensureCapacity_entityToIndex (a : Archetype) :
    (ensureCapacity a).entityToIndex = a.entityToIndex := by
  unfold ensureCapacity
  split <;> rfl

theorem ensureCapacity_count (a : Archetype) : (ensureCapacity a).count = a.count := by
  unfold ensureCapacity
  split <;> rfl

theorem ensureCapacity_ckeys (a : Archetype) :
    (ensureCapacity a).components.map Prod.fst = a.components.map Prod.fst := by
  unfold ensureCapacity
  split
  · rfl
  · dsimp only
    rw [List.map_map]
    apply List.map_congr_left
    intro p _
    rfl

theorem removeFromArchetype_ea (s : EMState) (ai e : Nat) :
    (removeFromArchetype s ai e).entityArchetype = mdel s.entityArchetype e := rfl

theorem removeFromArchetype_nextId (s : EMState) (ai e : Nat) :
    (removeFromArchetype s ai e).nextId = s.nextId := rfl

theorem removeFromArchetype_archetypes (s : EMState) (ai e : Nat) :
    (removeFromArchetype s ai e).archetypes = s.archetypes := rfl

theorem removeFromArchetype_cbi (s : EMState) (ai e : Nat) :
    (removeFromArchetype s ai e).componentBitIndex = s.componentBitIndex := rfl

theorem removeFromArchetype_archs_length (s : EMState) (ai e : Nat) :
    (removeFromArchetype s ai e).archs.length = s.archs.length := by
  unfold removeFromArchetype setArch
  dsimp only
  simp

theorem addToArchetype_archetypes (s : EMState) (ai e : Nat)
    (cmap : List (Sym × ComponentData)) :
    (addToArchetype s ai e cmap).archetypes = s.archetypes := rfl

theorem addToArchetype_cbi (s : EMState) (ai e : Nat)
    (cmap : List (Sym × ComponentData)) :
    (addToArchetype s ai e cmap).componentBitIndex = s.componentBitIndex := rfl

theorem addToArchetype_archs_length (s : EMState) (ai e : Nat)
    (cmap : List (Sym × ComponentData)) :
    (addToArchetype s ai e cmap).archs.length = s.archs.length := by
  unfold addToArchetype setArch
  dsimp only
  simp

theorem inv_append_arch (s1 s2 : EMState) (arch : Archetype)
    (h2 : s2.archs = s1.archs ++ [arch])
    (h3 : s2.archetypes = mset s1.archetypes arch.key s1.archs.length)
    (hea : s2.entityArchetype = s1.entityArchetype)
    (hcbi : s2.componentBitIndex = s1.componentBitIndex)
    (hnbi : s2.nextBitIndex = s1.nextBitIndex)
    (hnid : s2.nextId = s1.nextId)
    (hdf : s2.deferred = s1.deferred)
    (hnotmem : arch.key ∉ s1.archetypes.map Prod.fst)
    (hids : arch.entityIds = []) (hcount : arch.count = 0)
    (he2i : arch.entityToIndex = [])
    (hE1 : arch.components.map Prod.fst = arch.types)
    (hE2 : arch.types.Nodup)
    (hE3 : ∀ t ∈ arch.types, ∃ b, mget s1.componentBitIndex t = some b ∧
        maskTestBit arch.key b = true)
    (hE4 : ∀ b, b < 32 * arch.key.length → maskTestBit arch.key b = true →
        ∃ t ∈ arch.types, mget s1.componentBitIndex t = some b)
    (h : Inv s1) : Inv s2 := by
  obtain ⟨a1, a2, a3, a4, ab, ac, ac2, ad, af, adq⟩ := h
  have happ : s2.archetypes = s1.archetypes ++ [(arch.key, s1.archs.length)] := by
    rw [h3, mset_eq_append_of_not_mem _ _ _ hnotmem]
  have hvals : s2.archetypes.map Prod.snd
      = s1.archetypes.map Prod.snd ++ [s1.archs.length] := by
    rw [happ]
    simp
  have hkeys : s2.archetypes.map Prod.fst = s1.archetypes.map Prod.fst ++ [arch.key] := by
    rw [happ]
    simp
  have hlen2 : s2.archs.length = s1.archs.length + 1 := by
    rw [h2]
    simp
  have hgaold : ∀ ai, ai < s1.archs.length → getArch s2 ai = getArch s1 ai := by
    intro ai hai
    unfold getArch
    rw [h2, getD_append_lt _ _ _ _ hai]
  have hganew : getArch s2 s1.archs.length = arch := by
    unfold getArch
    rw [h2, getD_append_self_len]
  have hnewfresh : s1.archs.length ∉ s1.archetypes.map Prod.snd :=
    fun hmem => absurd (a1 _ hmem) (lt_irrefl _)
  refine ⟨?_, ?_, ?_, ?_, ?_, ?_, ?_, ?_, ?_, ?_⟩
  · intro ai hai
    rw [hvals, List.mem_append] at hai
    rw [hlen2]
    rcases hai with hold | hnew
    · exact Nat.lt_succ_of_lt (a1 ai hold)
    · rw [List.mem_singleton] at hnew
      rw [hnew]
      exact Nat.lt_succ_self _
  · intro p hp
    rw [happ, List.mem_append] at hp
    rcases hp with hold | hnew
    · rw [hgaold p.2 (a1 p.2 (List.mem_map.mpr ⟨p, hold, rfl⟩))]
      exact a2 p hold
    · rw [List.mem_singleton] at hnew
      rw [hnew]
      dsimp only
      rw [hganew]
  · rw [hkeys]
    exact nodup_append_singleton a3 hnotmem
  · rw [hvals]
    exact nodup_append_singleton a4 hnewfresh
  · intro ai hai
    rw [hvals, List.mem_append] at hai
    rcases hai with hold | hnew
    · have hlt := a1 ai hold
      refine ⟨archRowInv_congr s1 s2 ai (hgaold ai hlt) hea (ab ai hold).1,
              archTypeInv_mono s1 s2 ai (hgaold ai hlt)
                (fun t b hb => by rw [hcbi]; exact hb) (ab ai hold).2⟩
    · rw [List.mem_singleton] at hnew
      subst hnew
      constructor
      · unfold ArchRowInv
        rw [hganew, hids, he2i, hcount]
        refine ⟨rfl, List.nodup_nil, ?_, ?_, by simp, ?_⟩
        · intro i hi
          exact absurd hi (Nat.not_lt_zero i)
        · intro p hp
          exact absurd hp (List.not_mem_nil p)
        · intro i hi
          exact absurd hi (Nat.not_lt_zero i)
      · unfold ArchTypeInv
        rw [hganew, hcbi]
        exact ⟨hE1, hE2, hE3, hE4⟩
  · intro p hp
    rw [hea] at hp
    obtain ⟨hval, hsome⟩ := ac p hp
    refine ⟨by rw [hvals]; exact List.mem_append_left _ hval, ?_⟩
    rw [hgaold p.2 (a1 p.2 hval)]
    exact hsome
  · rw [hea]
    exact ac2
  · unfold BitInv
    rw [hcbi, hnbi]
    exact ad
  · intro p hp
    rw [hea] at hp
    rw [hnid]
    exact af p hp
  · intro dop hdop
    rw [hdf] at hdop
    rw [hnid]
    exact adq dop hdop

theorem getOrCreateArchetype_spec (s : EMState) (types : List Sym) (h : Inv s) :
    Inv (getOrCreateArchetype s types).2 ∧
    (getOrCreateArchetype s types).1
      ∈ (getOrCreateArchetype s types).2.archetypes.map Prod.snd ∧
    (∀ ai, ai < s.archs.length →
        getArch (getOrCreateArchetype s types).2 ai = getArch s ai) ∧
    s.archs.length ≤ (getOrCreateArchetype s types).2.archs.length ∧
    (∀ t, t ∈ (getArch (getOrCreateArchetype s types).2
        (getOrCreateArchetype s types).1).types ↔ t ∈ types) := by
  have hinv1 : Inv (computeMask s types).2 := inv_computeMask s types h
  have hbo := bitsOnly_computeMask s types
  have harchs1 : (computeMask s types).2.archs = s.archs :=
    hbo.2.2.2.2.2.2.2.2.2.2.2.2.1
  have hga1 : ∀ ai, getArch (computeMask s types).2 ai = getArch s ai := fun ai => by
    unfold getArch
    rw [harchs1]
  have hspec := computeMask_spec s types
  unfold getOrCreateArchetype
  dsimp only
  cases hm : mget (computeMask s types).2.archetypes (computeMask s types).1 with
  | some ai =>
      simp only [hm]
      obtain ⟨a1, a2, a3, a4, ab, ac, ac2, ad, af, adq⟩ := hinv1
      have hmem : ((computeMask s types).1, ai) ∈ (computeMask s types).2.archetypes :=
        mem_of_mget_eq_some hm
      have hlive : ai ∈ (computeMask s types).2.archetypes.map Prod.snd :=
        List.mem_map.mpr ⟨_, hmem, rfl⟩
      refine ⟨⟨a1, a2, a3, a4, ab, ac, ac2, ad, af, adq⟩, hlive, fun aj _ => hga1 aj,
             le_of_eq (by rw [harchs1]), ?_⟩
      intro t
      have hkey : (getArch (computeMask s types).2 ai).key = (computeMask s types).1 :=
        a2 _ hmem
      obtain ⟨e1, e2, e3, e4⟩ := (ab ai hlive).2
      obtain ⟨d1, d2, d3⟩ := ad
      constructor
      · intro ht
        obtain ⟨b, hb1, hb2⟩ := e3 t ht
        rw [hkey] at hb2
        obtain ⟨t', ht', htb'⟩ := hspec.2.2 b hb2
        have heq : t = t' :=
          d2 _ (mem_of_mget_eq_some hb1) _ (mem_of_mget_eq_some htb') rfl
        rw [heq]
        exact ht'
      · intro ht
        obtain ⟨b, hb1, hb2⟩ := hspec.2.1 t ht
        have hb2k : maskTestBit (getArch (computeMask s types).2 ai).key b = true := by
          rw [hkey]
          exact hb2
        have hlt : b < 32 * (getArch (computeMask s types).2 ai).key.length := by
          by_contra hge
          rw [maskTestBit_oob _ _ (by omega)] at hb2k
          cases hb2k
        obtain ⟨t', ht', htb'⟩ := e4 b hlt hb2k
        have heq : t' = t :=
          d2 _ (mem_of_mget_eq_some htb') _ (mem_of_mget_eq_some hb1) rfl
        rw [← heq]
        exact ht'
  | none =>
      simp only [hm]
      have hnotmem : (computeMask s types).1
          ∉ (computeMask s types).2.archetypes.map Prod.fst :=
        (mget_eq_none_iff _ _).mp hm
      refine ⟨?_, ?_, ?_, ?_, ?_⟩
      · refine inv_append_arch (computeMask s types).2 _ _ rfl rfl rfl rfl rfl rfl rfl
          hnotmem rfl rfl rfl ?_ ?_ ?_ ?_ hinv1
        · dsimp only
          rw [List.map_map]
          exact (List.map_congr_left fun t ht => rfl).trans (List.map_id _)
        · exact jsSetOfList_nodup types
        · intro t ht
          exact hspec.2.1 t ((mem_jsSetOfList types t).mp ht)
        · intro b hblt hb
          obtain ⟨t, ht, htb⟩ := hspec.2.2 b hb
          exact ⟨t, (mem_jsSetOfList types t).mpr ht, htb⟩
      · rw [mset_eq_append_of_not_mem _ _ _ hnotmem]
        simp
      · intro ai hai
        have hai1 : ai < (computeMask s types).2.archs.length := by
          rw [harchs1]
          exact hai
        unfold getArch
        dsimp only
        rw [getD_append_lt _ _ _ _ hai1, harchs1]
      · dsimp only
        rw [List.length_append, harchs1]
        simp
      · intro t
        unfold getArch
        dsimp only
        rw [getD_append_self_len]
        exact mem_jsSetOfList types t

theorem inv_setArch_shape (s : EMState) (ai : Nat) (a : Archetype)
    (hkey : a.key = (getArch s ai).key)
    (htypes : a.types = (getArch s ai).types)
    (hids : a.entityIds = (getArch s ai).entityIds)
    (he2i : a.entityToIndex = (getArch s ai).entityToIndex)
    (hcount : a.count = (getArch s ai).count)
    (hckeys : a.components.map Prod.fst = (getArch s ai).components.map Prod.fst)
    (h : Inv s) : Inv (setArch s ai a) := by
  rcases Nat.lt_or_ge ai s.archs.length with hlt | hge
  · obtain ⟨a1, a2, a3, a4, ab, ac, ac2, ad, af, adq⟩ := h
    have hrow : ∀ aj, ArchRowInv s aj → ArchRowInv (setArch s ai a) aj := by
      intro aj hr
      by_cases haj : aj = ai
      · subst haj
        unfold ArchRowInv
        rw [getArch_setArch_self s aj a hlt, hids, he2i, hcount]
        exact hr
      · exact archRowInv_congr s _ aj
          (getArch_setArch_ne s ai aj a (fun hc => haj hc.symm)) rfl hr
    have htype : ∀ aj, ArchTypeInv s aj → ArchTypeInv (setArch s ai a) aj := by
      intro aj ht
      by_cases haj : aj = ai
      · subst haj
        unfold ArchTypeInv
        rw [getArch_setArch_self s aj a hlt, hkey, htypes, hckeys]
        exact ht
      · exact archTypeInv_mono s _ aj
          (getArch_setArch_ne s ai aj a (fun hc => haj hc.symm)) (fun t b hb => hb) ht
    refine ⟨?_, ?_, a3, a4, ?_, ?_, ac2, ad, af, adq⟩
    · intro aj haj
      rw [archs_length_setArch]
      exact a1 aj haj
    · intro p hp
      by_cases hp2 : p.2 = ai
      · rw [hp2, getArch_setArch_self s ai a hlt, hkey, ← hp2]
        exact a2 p hp
      · rw [getArch_setArch_ne s ai p.2 a (fun hc => hp2 hc.symm)]
        exact a2 p hp
    · intro aj haj
      exact ⟨hrow aj (ab aj haj).1, htype aj (ab aj haj).2⟩
    · intro p hp
      obtain ⟨hval, hsome⟩ := ac p hp
      refine ⟨hval, ?_⟩
      by_cases hp2 : p.2 = ai
      · rw [hp2, getArch_setArch_self s ai a hlt, he2i, ← hp2]
        exact hsome
      · rw [getArch_setArch_ne s ai p.2 a (fun hc => hp2 hc.symm)]
        exact hsome
  · rw [setArch_eq_self_of_ge s ai a hge]
    exact h

theorem inv_add_row (s s2 : EMState) (ai e : Nat) (a' : Archetype)
    (h : Inv s) (hlive : ai ∈ s.archetypes.map Prod.snd)
    (hfresh : mget s.entityArchetype e = none) (hnid : e < s.nextId)
    (hkey : a'.key = (getArch s ai).key)
    (htypes : a'.types = (getArch s ai).types)
    (hids : a'.entityIds = (getArch s ai).entityIds ++ [e])
    (he2i : a'.entityToIndex = mset (getArch s ai).entityToIndex e (getArch s ai).count)
    (hcount : a'.count = (getArch s ai).count + 1)
    (hck : a'.components.map Prod.fst = (getArch s ai).components.map Prod.fst)
    (harchs : s2.archs = s.archs.set ai a')
    (harchet : s2.archetypes = s.archetypes)
    (hsea : s2.entityArchetype = mset s.entityArchetype e ai)
    (hcbi : s2.componentBitIndex = s.componentBitIndex)
    (hnbi : s2.nextBitIndex = s.nextBitIndex)
    (hnid2 : s2.nextId = s.nextId)
    (hdf : s2.deferred = s.deferred) : Inv s2 := by
  obtain ⟨a1, a2, a3, a4, ab, ac, ac2, ad, af, adq⟩ := h
  have hai : ai < s.archs.length := a1 ai hlive
  obtain ⟨b1, b2, b3, b4, b5, b6⟩ := (ab ai hlive).1
  obtain ⟨t1, t2, t3, t4⟩ := (ab ai hlive).2
  have hlen2 : s2.archs.length = s.archs.length := by
    rw [harchs]
    simp
  have hga : getArch s2 ai = a' := by
    unfold getArch
    rw [harchs]
    exact getD_set_self _ _ _ _ hai
  have hgan : ∀ aj, aj ≠ ai → getArch s2 aj = getArch s aj := by
    intro aj haj
    unfold getArch
    rw [harchs]
    exact getD_set_ne _ _ _ _ _ (fun hc => haj hc.symm)
  have hidslen : (getArch s ai).entityIds.length = (getArch s ai).count := b1
  have hgetD : ∀ i, i < (getArch s ai).count → (getArch s ai).entityIds.getD i 0 ≠ e := by
    intro i hc hEq
    have h6 := b6 i hc
    rw [hEq, hfresh] at h6
    cases h6
  have henotin : e ∉ (getArch s ai).entityIds := by
    intro hmem
    obtain ⟨i, hilt, hgi⟩ := List.mem_iff_getElem.mp hmem
    apply hgetD i (by rw [← hidslen]; exact hilt)
    rw [List.getD_eq_getElem?_getD, List.getElem?_eq_getElem hilt]
    exact hgi
  refine ⟨?_, ?_, ?_, ?_, ?_, ?_, ?_, ?_, ?_, ?_⟩
  · intro aj haj
    rw [harchet] at haj
    rw [hlen2]
    exact a1 aj haj
  · intro p hp
    rw [harchet] at hp
    by_cases hp2 : p.2 = ai
    · rw [hp2, hga, hkey, ← hp2]
      exact a2 p hp
    · rw [hgan p.2 hp2]
      exact a2 p hp
  · rw [harchet]
    exact a3
  · rw [harchet]
    exact a4
  · intro aj haj
    rw [harchet] at haj
    by_cases haj2 : aj = ai
    · subst haj2
      constructor
      · unfold ArchRowInv
        rw [hga, hsea, hids, he2i, hcount]
        refine ⟨?_, ?_, ?_, ?_, ?_, ?_⟩
        · rw [List.length_append, hidslen]
          rfl
        · exact nodup_append_singleton b2 henotin
        · intro i hi
          rcases Nat.lt_or_ge i (getArch s aj).count with hilt | hige
          · rw [getD_append_lt _ _ _ _ (by rw [hidslen]; exact hilt),
               mget_mset_ne _ _ _ _ (hgetD i hilt)]
            exact b3 i hilt
          · have hieq : i = (getArch s aj).count := by omega
            have hlast : ((getArch s aj).entityIds ++ [e]).getD i 0 = e := by
              rw [hieq, ← hidslen]
              exact getD_append_self_len _ _ _
            rw [hlast, mget_mset_self, hieq]
        · intro p hp
          rcases mem_mset hp with hp1 | ⟨hpm, hpne⟩
          · rw [hp1]
            dsimp only
            refine ⟨Nat.lt_succ_self _, ?_⟩
            rw [← hidslen]
            exact getD_append_self_len _ _ _
          · obtain ⟨hp4a, hp4b⟩ := b4 p hpm
            refine ⟨Nat.lt_succ_of_lt hp4a, ?_⟩
            rw [getD_append_lt _ _ _ _ (by rw [hidslen]; exact hp4a)]
            exact hp4b
        · exact mset_keys_nodup _ _ _ b5
        · intro i hi
          rcases Nat.lt_or_ge i (getArch s aj).count with hilt | hige
          · rw [getD_append_lt _ _ _ _ (by rw [hidslen]; exact hilt),
               mget_mset_ne _ _ _ _ (hgetD i hilt)]
            exact b6 i hilt
          · have hieq : i = (getArch s aj).count := by omega
            have hlast : ((getArch s aj).entityIds ++ [e]).getD i 0 = e := by
              rw [hieq, ← hidslen]
              exact getD_append_self_len _ _ _
            rw [hlast, mget_mset_self]
      · unfold ArchTypeInv
        rw [hga, hkey, htypes, hck, hcbi]
        exact ⟨t1, t2, t3, t4⟩
    · constructor
      · obtain ⟨c1, c2, c3, c4, c5, c6⟩ := (ab aj haj).1
        unfold ArchRowInv
        rw [hgan aj haj2, hsea]
        refine ⟨c1, c2, c3, c4, c5, ?_⟩
        intro i hi
        have h6 := c6 i hi
        have hne : (getArch s aj).entityIds.getD i 0 ≠ e := by
          intro hEq
          rw [hEq, hfresh] at h6
          cases h6
        rw [mget_mset_ne _ _ _ _ hne]
        exact h6
      · exact archTypeInv_mono s s2 aj (hgan aj haj2)
          (fun t b hb => by rw [hcbi]; exact hb) (ab aj haj).2
  · intro p hp
    rw [hsea] at hp
    rcases mem_mset hp with hp1 | ⟨hpm, hpne⟩
    · rw [hp1]
      dsimp only
      refine ⟨by rw [harchet]; exact hlive, ?_⟩
      rw [hga, he2i, mget_mset_self]
      rfl
    · obtain ⟨hval, hsome⟩ := ac p hpm
      refine ⟨by rw [harchet]; exact hval, ?_⟩
      by_cases hp2 : p.2 = ai
      · rw [hp2, hga, he2i]
        rw [hp2] at hsome
        rw [mget_mset_ne _ _ _ _ hpne]
        exact hsome
      · rw [hgan p.2 hp2]
        exact hsome
  · rw [hsea]
    exact mset_keys_nodup _ _ _ ac2
  · unfold BitInv
    rw [hcbi, hnbi]
    exact ad
  · intro p hp
    rw [hsea] at hp
    rw [hnid2]
    rcases mem_mset hp with hp1 | ⟨hpm, _⟩
    · rw [hp1]
      exact hnid
    · exact af p hpm
  · intro dop hdop
    rw [hdf] at hdop
    rw [hnid2]
    exact adq dop hdop

theorem foldWriteCols_keys (ts : List Sym) (cmap : List (Sym × ComponentData)) (idx : Nat) :
    ∀ cs : List (Sym × Option SoAStore),
      ((ts.foldl (fun cs t =>
        match mget cs t with
        | some (some store) => mset cs t (some (soaWrite store idx ((mget cmap t).getD none)))
        | _ => cs) cs).map Prod.fst) = cs.map Prod.fst := by
  induction ts with
  | nil => intro cs; rfl
  | cons x rest ih =>
      intro cs
      rw [List.foldl_cons, ih]
      cases hm : mget cs x with
      | none => rfl
      | some o =>
          cases o with
          | none => simp only [hm]
          | some store =>
              simp only [hm]
              exact mset_keys_of_mem cs x _
                ((mget_isSome_iff cs x).mp (by rw [hm]; rfl))

theorem inv_addToArchetype (s : EMState) (ai e : Nat) (cmap : List (Sym × ComponentData))
    (h : Inv s) (hlive : ai ∈ s.archetypes.map Prod.snd)
    (hfresh : mget s.entityArchetype e = none) (hnid : e < s.nextId) :
    Inv (addToArchetype s ai e cmap) := by
  have hinv1 : Inv (setArch s ai (ensureCapacity (getArch s ai))) :=
    inv_setArch_shape s ai _ (ensureCapacity_key _) (ensureCapacity_types _)
      (ensureCapacity_entityIds _) (ensureCapacity_entityToIndex _)
      (ensureCapacity_count _) (ensureCapacity_ckeys _) h
  have hlive1 : ai ∈ (setArch s ai (ensureCapacity (getArch s ai))).archetypes.map Prod.snd :=
    hlive
  have hb1 : (getArch (setArch s ai (ensureCapacity (getArch s ai))) ai).entityIds.length
      = (getArch (setArch s ai (ensureCapacity (getArch s ai))) ai).count :=
    ((hinv1.2.2.2.2.1) ai hlive1).1.1
  unfold addToArchetype
  dsimp only
  refine inv_add_row _ _ ai e _ hinv1 hlive1 hfresh hnid ?_ ?_ ?_ ?_ ?_ ?_
    rfl rfl rfl rfl rfl rfl rfl
  · rfl
  · rfl
  · dsimp only
    rw [← hb1]
    exact jsArraySet_append _ e 0
  · rfl
  · rfl
  · exact foldWriteCols_keys _ _ _ _

theorem getD_take {α : Type} (l : List α) (n i : Nat) (d : α) (h : i < n) :
    (l.take n).getD i d = l.getD i d := by
  rw [List.getD_eq_getElem?_getD, List.getElem?_take, if_pos h, ← List.getD_eq_getElem?_getD]

theorem inv_remove_row_last (s s2 : EMState) (ai e : Nat) (a' : Archetype)
    (h : Inv s) (hd : mget s.entityArchetype e = some ai)
    (hlast : (mget (getArch s ai).entityToIndex e).getD 0 = (getArch s ai).count - 1)
    (hkey : a'.key = (getArch s ai).key)
    (htypes : a'.types = (getArch s ai).types)
    (hids : a'.entityIds = (getArch s ai).entityIds.take ((getArch s ai).count - 1))
    (he2i : a'.entityToIndex = mdel (getArch s ai).entityToIndex e)
    (hcount : a'.count = (getArch s ai).count - 1)
    (hck : a'.components.map Prod.fst = (getArch s ai).components.map Prod.fst)
    (harchs : s2.archs = s.archs.set ai a')
    (harchet : s2.archetypes = s.archetypes)
    (hsea : s2.entityArchetype = mdel s.entityArchetype e)
    (hcbi : s2.componentBitIndex = s.componentBitIndex)
    (hnbi : s2.nextBitIndex = s.nextBitIndex)
    (hnid2 : s2.nextId = s.nextId)
    (hdf : s2.deferred = s.deferred) : Inv s2 := by
  obtain ⟨a1, a2, a3, a4, ab, ac, ac2, ad, af, adq⟩ := h
  have hmem : (e, ai) ∈ s.entityArchetype := mem_of_mget_eq_some hd
  have hlive : ai ∈ s.archetypes.map Prod.snd := (ac (e, ai) hmem).1
  have hai : ai < s.archs.length := a1 ai hlive
  obtain ⟨b1, b2, b3, b4, b5, b6⟩ := (ab ai hlive).1
  obtain ⟨idx0, hidx0⟩ := Option.isSome_iff_exists.mp (ac (e, ai) hmem).2
  have hb4e := b4 (e, idx0) (mem_of_mget_eq_some hidx0)
  have hidx0v : idx0 = (getArch s ai).count - 1 := by
    rw [← hlast, hidx0]
    rfl
  have hlen2 : s2.archs.length = s.archs.length := by
    rw [harchs]
    simp
  have hga : getArch s2 ai = a' := by
    unfold getArch
    rw [harchs]
    exact getD_set_self _ _ _ _ hai
  have hgan : ∀ aj, aj ≠ ai → getArch s2 aj = getArch s aj := by
    intro aj haj
    unfold getArch
    rw [harchs]
    exact getD_set_ne _ _ _ _ _ (fun hc => haj hc.symm)
  have hrowne : ∀ j, j < (getArch s ai).count - 1 →
      (getArch s ai).entityIds.getD j 0 ≠ e := by
    intro j hj hEq
    have h3 := b3 j (by omega)
    rw [hEq, hidx0] at h3
    have : idx0 = j := by
      cases h3
      rfl
    omega
  have hgetD2 : ∀ j, j < (getArch s ai).count - 1 →
      a'.entityIds.getD j 0 = (getArch s ai).entityIds.getD j 0 := by
    intro j hj
    rw [hids]
    exact getD_take _ _ _ _ hj
  refine ⟨?_, ?_, ?_, ?_, ?_, ?_, ?_, ?_, ?_, ?_⟩
  · intro aj haj
    rw [harchet] at haj
    rw [hlen2]
    exact a1 aj haj
  · intro p hp
    rw [harchet] at hp
    by_cases hp2 : p.2 = ai
    · rw [hp2, hga, hkey, ← hp2]
      exact a2 p hp
    · rw [hgan p.2 hp2]
      exact a2 p hp
  · rw [harchet]
    exact a3
  · rw [harchet]
    exact a4
  · intro aj haj
    rw [harchet] at haj
    by_cases haj2 : aj = ai
    · subst haj2
      constructor
      · unfold ArchRowInv
        rw [hga, hsea, hids, he2i, hcount]
        refine ⟨?_, ?_, ?_, ?_, ?_, ?_⟩
        · rw [List.length_take, b1]
          omega
        · exact (List.take_sublist _ _).nodup b2
        · intro j hj
          rw [getD_take _ _ _ _ hj, mget_mdel_ne _ _ _ (hrowne j hj)]
          exact b3 j (by omega)
        · intro p hp
          obtain ⟨hpm, hpne⟩ := mem_mdel.mp hp
          obtain ⟨hp4a, hp4b⟩ := b4 p hpm
          have hp2ne : p.2 ≠ (getArch s aj).count - 1 := by
            intro hEq
            apply hpne
            rw [← hp4b, hEq, ← hidx0v]
            exact hb4e.2
          have hp2lt : p.2 < (getArch s aj).count - 1 := by omega
          refine ⟨hp2lt, ?_⟩
          rw [getD_take _ _ _ _ hp2lt]
          exact hp4b
        · exact mdel_keys_nodup _ _ b5
        · intro j hj
          rw [getD_take _ _ _ _ hj, mget_mdel_ne _ _ _ (hrowne j hj)]
          exact b6 j (by omega)
      · unfold ArchTypeInv
        rw [hga, hkey, htypes, hck, hcbi]
        exact (ab aj hlive).2
    · constructor
      · obtain ⟨c1, c2, c3, c4, c5, c6⟩ := (ab aj haj).1
        unfold ArchRowInv
        rw [hgan aj haj2, hsea]
        refine ⟨c1, c2, c3, c4, c5, ?_⟩
        intro i hi
        have h6 := c6 i hi
        have hne : (getArch s aj).entityIds.getD i 0 ≠ e := by
          intro hEq
          rw [hEq, hd] at h6
          exact haj2 (by cases h6; rfl)
        rw [mget_mdel_ne _ _ _ hne]
        exact h6
      · exact archTypeInv_mono s s2 aj (hgan aj haj2)
          (fun t b hb => by rw [hcbi]; exact hb) (ab aj haj).2
  · intro p hp
    rw [hsea] at hp
    obtain ⟨hpm, hpne⟩ := mem_mdel.mp hp
    obtain ⟨hval, hsome⟩ := ac p hpm
    refine ⟨by rw [harchet]; exact hval, ?_⟩
    by_cases hp2 : p.2 = ai
    · rw [hp2, hga, he2i, mget_mdel_ne _ _ _ hpne]
      rw [hp2] at hsome
      exact hsome
    · rw [hgan p.2 hp2]
      exact hsome
  · rw [hsea]
    exact mdel_keys_nodup _ _ ac2
  · unfold BitInv
    rw [hcbi, hnbi]
    exact ad
  · intro p hp
    rw [hsea] at hp
    rw [hnid2]
    exact af p (mem_mdel.mp hp).1
  · intro dop hdop
    rw [hdf] at hdop
    rw [hnid2]
    exact adq dop hdop

theorem inv_remove_row_swap (s s2 : EMState) (ai e : Nat) (a' : Archetype)
    (h : Inv s) (hd : mget s.entityArchetype e = some ai)
    (hne : (mget (getArch s ai).entityToIndex e).getD 0 ≠ (getArch s ai).count - 1)
    (hkey : a'.key = (getArch s ai).key)
    (htypes : a'.types = (getArch s ai).types)
    (hids : a'.entityIds = ((getArch s ai).entityIds.set
        ((mget (getArch s ai).entityToIndex e).getD 0)
        ((getArch s ai).entityIds.getD ((getArch s ai).count - 1) 0)).take
        ((getArch s ai).count - 1))
    (he2i : a'.entityToIndex = mdel (mset (getArch s ai).entityToIndex
        ((getArch s ai).entityIds.getD ((getArch s ai).count - 1) 0)
        ((mget (getArch s ai).entityToIndex e).getD 0)) e)
    (hcount : a'.count = (getArch s ai).count - 1)
    (hck : a'.components.map Prod.fst = (getArch s ai).components.map Prod.fst)
    (harchs : s2.archs = s.archs.set ai a')
    (harchet : s2.archetypes = s.archetypes)
    (hsea : s2.entityArchetype = mdel s.entityArchetype e)
    (hcbi : s2.componentBitIndex = s.componentBitIndex)
    (hnbi : s2.nextBitIndex = s.nextBitIndex)
    (hnid2 : s2.nextId = s.nextId)
    (hdf : s2.deferred = s.deferred) : Inv s2 := by
  obtain ⟨a1, a2, a3, a4, ab, ac, ac2, ad, af, adq⟩ := h
  have hmem : (e, ai) ∈ s.entityArchetype := mem_of_mget_eq_some hd
  have hlive : ai ∈ s.archetypes.map Prod.snd := (ac (e, ai) hmem).1
  have hai : ai < s.archs.length := a1 ai hlive
  obtain ⟨b1, b2, b3, b4, b5, b6⟩ := (ab ai hlive).1
  obtain ⟨idx0, hidx0⟩ := Option.isSome_iff_exists.mp (ac (e, ai) hmem).2
  have hb4e := b4 (e, idx0) (mem_of_mget_eq_some hidx0)
  have hidx0lt : idx0 < (getArch s ai).count := hb4e.1
  have hidxde : (getArch s ai).entityIds.getD idx0 0 = e := hb4e.2
  have hgd : (mget (getArch s ai).entityToIndex e).getD 0 = idx0 := by
    rw [hidx0]
    rfl
  have hidx0ne : idx0 ≠ (getArch s ai).count - 1 := by
    rw [hgd] at hne
    exact hne
  have hidx0lt1 : idx0 < (getArch s ai).count - 1 := by omega
  have hcpos : 0 < (getArch s ai).count := by omega
  have hlastlt : (getArch s ai).count - 1 < (getArch s ai).count := by omega
  have hlastmem : mget (getArch s ai).entityToIndex
      ((getArch s ai).entityIds.getD ((getArch s ai).count - 1) 0)
      = some ((getArch s ai).count - 1) := b3 _ hlastlt
  have hlaste : (getArch s ai).entityIds.getD ((getArch s ai).count - 1) 0 ≠ e := by
    intro hEq
    rw [hEq, hidx0] at hlastmem
    apply hidx0ne
    cases hlastmem
    rfl
  have hlen2 : s2.archs.length = s.archs.length := by
    rw [harchs]
    simp
  have hga : getArch s2 ai = a' := by
    unfold getArch
    rw [harchs]
    exact getD_set_self _ _ _ _ hai
  have hgan : ∀ aj, aj ≠ ai → getArch s2 aj = getArch s aj := by
    intro aj haj
    unfold getArch
    rw [harchs]
    exact getD_set_ne _ _ _ _ _ (fun hc => haj hc.symm)
  have hidslen : a'.entityIds.length = (getArch s ai).count - 1 := by
    rw [hids, List.length_take, List.length_set, b1]
    omega
  have hgetDa : ∀ j, j < (getArch s ai).count - 1 →
      a'.entityIds.getD j 0 = if j = idx0
        then (getArch s ai).entityIds.getD ((getArch s ai).count - 1) 0
        else (getArch s ai).entityIds.getD j 0 := by
    intro j hj
    rw [hids, getD_take _ _ _ _ hj, hgd]
    by_cases hji : j = idx0
    · rw [if_pos hji, hji]
      exact getD_set_self _ _ _ _ (by rw [b1]; omega)
    · rw [if_neg hji]
      exact getD_set_ne _ _ _ _ _ (fun hc => hji hc.symm)
  have hrowchar : ∀ j, j < (getArch s ai).count - 1 →
      mget a'.entityToIndex (a'.entityIds.getD j 0) = some j ∧
      a'.entityIds.getD j 0 ≠ e ∧
      mget s.entityArchetype (a'.entityIds.getD j 0) = some ai := by
    intro j hj
    rw [hgetDa j hj]
    by_cases hji : j = idx0
    · rw [if_pos hji, he2i, hgd]
      refine ⟨?_, hlaste, b6 _ hlastlt⟩
      rw [mget_mdel_ne _ _ _ hlaste, mget_mset_self, hji]
    · rw [if_neg hji]
      have hjlt : j < (getArch s ai).count := by omega
      have hjne : (getArch s ai).entityIds.getD j 0 ≠ e := by
        intro hEq
        have h3 := b3 j hjlt
        rw [hEq, hidx0] at h3
        apply hji
        cases h3
        rfl
      have hjnl : (getArch s ai).entityIds.getD j 0
          ≠ (getArch s ai).entityIds.getD ((getArch s ai).count - 1) 0 := by
        intro hEq
        have h3 := b3 j hjlt
        rw [hEq, hlastmem] at h3
        have : (getArch s ai).count - 1 = j := by
          cases h3
          rfl
        omega
      refine ⟨?_, hjne, b6 j hjlt⟩
      rw [he2i, hgd, mget_mdel_ne _ _ _ hjne, mget_mset_ne _ _ _ _ hjnl]
      exact b3 j hjlt
  refine ⟨?_, ?_, ?_, ?_, ?_, ?_, ?_, ?_, ?_, ?_⟩
  · intro aj haj
    rw [harchet] at haj
    rw [hlen2]
    exact a1 aj haj
  · intro p hp
    rw [harchet] at hp
    by_cases hp2 : p.2 = ai
    · rw [hp2, hga, hkey, ← hp2]
      exact a2 p hp
    · rw [hgan p.2 hp2]
      exact a2 p hp
  · rw [harchet]
    exact a3
  · rw [harchet]
    exact a4
  · intro aj haj
    rw [harchet] at haj
    by_cases haj2 : aj = ai
    · subst haj2
      constructor
      · unfold ArchRowInv
        rw [hga, hsea, hcount]
        refine ⟨hidslen, ?_, ?_, ?_, ?_, ?_⟩
        · apply nodup_of_getD_inj
          intro i j hi hj heq
          rw [hidslen] at hi hj
          have heq0 : a'.entityIds.getD i 0 = a'.entityIds.getD j 0 := heq
          have hci := (hrowchar i hi).1
          have hcj := (hrowchar j hj).1
          rw [heq0] at hci
          rw [hci] at hcj
          cases hcj
          rfl
        · intro j hj
          exact (hrowchar j hj).1
        · intro p hp
          rw [he2i] at hp
          obtain ⟨hpm1, hpne⟩ := mem_mdel.mp hp
          rcases mem_mset hpm1 with hp1 | ⟨hpm, hpnl⟩
          · rw [hp1]
            dsimp only
            rw [hgd]
            refine ⟨hidx0lt1, ?_⟩
            rw [hgetDa idx0 hidx0lt1, if_pos rfl]
          · obtain ⟨hp4a, hp4b⟩ := b4 p hpm
            have hp2ni : p.2 ≠ idx0 := by
              intro hEq
              apply hpne
              rw [← hp4b, hEq]
              exact hidxde
            have hp2nl : p.2 ≠ (getArch s aj).count - 1 := by
              intro hEq
              apply hpnl
              rw [← hp4b, hEq]
            have hp2lt : p.2 < (getArch s aj).count - 1 := by omega
            refine ⟨hp2lt, ?_⟩
            rw [hgetDa p.2 hp2lt, if_neg hp2ni]
            exact hp4b
        · rw [he2i]
          exact mdel_keys_nodup _ _ (mset_keys_nodup _ _ _ b5)
        · intro j hj
          rw [mget_mdel_ne _ _ _ (hrowchar j hj).2.1]
          exact (hrowchar j hj).2.2
      · unfold ArchTypeInv
        rw [hga, hkey, htypes, hck, hcbi]
        exact (ab aj hlive).2
    · constructor
      · obtain ⟨c1, c2, c3, c4, c5, c6⟩ := (ab aj haj).1
        unfold ArchRowInv
        rw [hgan aj haj2, hsea]
        refine ⟨c1, c2, c3, c4, c5, ?_⟩
        intro i hi
        have h6 := c6 i hi
        have hnei : (getArch s aj).entityIds.getD i 0 ≠ e := by
          intro hEq
          rw [hEq, hd] at h6
          exact haj2 (by cases h6; rfl)
        rw [mget_mdel_ne _ _ _ hnei]
        exact h6
      · exact archTypeInv_mono s s2 aj (hgan aj haj2)
          (fun t b hb => by rw [hcbi]; exact hb) (ab aj haj).2
  · intro p hp
    rw [hsea] at hp
    obtain ⟨hpm, hpne⟩ := mem_mdel.mp hp
    obtain ⟨hval, hsome⟩ := ac p hpm
    refine ⟨by rw [harchet]; exact hval, ?_⟩
    by_cases hp2 : p.2 = ai
    · rw [hp2, hga, he2i, hgd]
      rw [hp2] at hsome
      rw [mget_mdel_ne _ _ _ hpne]
      by_cases hpl : p.1 = (getArch s ai).entityIds.getD ((getArch s ai).count - 1) 0
      · rw [hpl, mget_mset_self]
        rfl
      · rw [mget_mset_ne _ _ _ _ hpl]
        exact hsome
    · rw [hgan p.2 hp2]
      exact hsome
  · rw [hsea]
    exact mdel_keys_nodup _ _ ac2
  · unfold BitInv
    rw [hcbi, hnbi]
    exact ad
  · intro p hp
    rw [hsea] at hp
    rw [hnid2]
    exact af p (mem_mdel.mp hp).1
  · intro dop hdop
    rw [hdf] at hdop
    rw [hnid2]
    exact adq dop hdop

theorem inv_removeFromArchetype (s : EMState) (ai e : Nat)
    (h : Inv s) (hd : mget s.entityArchetype e = some ai) :
    Inv (removeFromArchetype s ai e) := by
  unfold removeFromArchetype
  dsimp only
  by_cases hsw : (mget (getArch s ai).entityToIndex e).getD 0 ≠ (getArch s ai).count - 1
  · rw [if_pos hsw]
    refine inv_remove_row_swap s _ ai e _ h hd hsw ?_ ?_ ?_ ?_ ?_ ?_
      rfl rfl rfl rfl rfl rfl rfl
    · rfl
    · rfl
    · rfl
    · rfl
    · rfl
    · rw [List.map_map]
      exact List.map_congr_left fun p hp => rfl
  · rw [if_neg hsw]
    refine inv_remove_row_last s _ ai e _ h hd (not_not.mp hsw) ?_ ?_ ?_ ?_ ?_ ?_
      rfl rfl rfl rfl rfl rfl rfl
    · rfl
    · rfl
    · rfl
    · rfl
    · rfl
    · rfl

theorem inv_transfer {a b : EMState} (h : Inv b)
    (h1 : a.archs = b.archs) (h2 : a.archetypes = b.archetypes)
    (h3 : a.entityArchetype = b.entityArchetype)
    (h4 : a.componentBitIndex = b.componentBitIndex)
    (h5 : a.nextBitIndex = b.nextBitIndex) (h6 : a.nextId = b.nextId)
    (h7 : a.deferred = b.deferred) : Inv a :=
  inv_of_invFieldsLe ⟨h1, h2, h3, h4, h5, le_of_eq h6.symm, fun dop hd => h7 ▸ hd⟩ h

theorem trackDestroyed_ea (s : EMState) (key : List Nat) (id : Nat) :
    (trackDestroyed s key id).entityArchetype = s.entityArchetype := by
  unfold trackDestroyed
  cases s.destroyedSet <;> cases s.trackFilter <;> (try dsimp only) <;> (try split) <;> rfl

theorem trackDestroyed_nextId (s : EMState) (key : List Nat) (id : Nat) :
    (trackDestroyed s key id).nextId = s.nextId := by
  unfold trackDestroyed
  cases s.destroyedSet <;> cases s.trackFilter <;> (try dsimp only) <;> (try split) <;> rfl

theorem inv_trackDestroyed (s : EMState) (key : List Nat) (id : Nat) (h : Inv s) :
    Inv (trackDestroyed s key id) := by
  unfold trackDestroyed
  cases s.destroyedSet <;> cases s.trackFilter <;> (try dsimp only) <;> (try split) <;>
    exact inv_transfer h rfl rfl rfl rfl rfl rfl rfl

theorem inv_pushPendingAdd (s : EMState) (t : Sym) (id : Nat) (h : Inv s) :
    Inv (pushPendingAdd s t id) := by
  unfold pushPendingAdd
  cases s.hooks with
  | none => exact h
  | some hk =>
      dsimp only
      cases mget hk.pendingAdd t <;> (try dsimp only) <;>
        exact inv_transfer h rfl rfl rfl rfl rfl rfl rfl

theorem inv_doRemove_finish (s : EMState) (s1 : EMState) (e ai : Nat) (key : List Nat)
    (nts : List Sym) (cmap : List (Sym × ComponentData)) (P : Prop) [Decidable P]
    (h1 : Inv s1)
    (hea1 : s1.entityArchetype = s.entityArchetype)
    (hnid1 : s1.nextId = s.nextId)
    (hd : mget s.entityArchetype e = some ai)
    (henid : e < s.nextId) :
    Inv (if P then removeFromArchetype (trackDestroyed s1 key e) ai e
      else addToArchetype
        (removeFromArchetype (getOrCreateArchetype (trackDestroyed s1 key e) nts).2 ai e)
        (getOrCreateArchetype (trackDestroyed s1 key e) nts).1 e cmap) := by
  have h2 : Inv (trackDestroyed s1 key e) := inv_trackDestroyed s1 key e h1
  have hea2 : (trackDestroyed s1 key e).entityArchetype = s.entityArchetype := by
    rw [trackDestroyed_ea, hea1]
  have hnid2 : (trackDestroyed s1 key e).nextId = s.nextId := by
    rw [trackDestroyed_nextId, hnid1]
  have hd2 : mget (trackDestroyed s1 key e).entityArchetype e = some ai := by
    rw [hea2]
    exact hd
  split
  · exact inv_removeFromArchetype _ ai e h2 hd2
  · obtain ⟨hio, hmemo, hstab, hlen, htyp⟩ := getOrCreateArchetype_spec _ nts h2
    have hd3 : mget (getOrCreateArchetype (trackDestroyed s1 key e) nts).2.entityArchetype e
        = some ai := by
      rw [getOrCreateArchetype_ea, hea2]
      exact hd
    refine inv_addToArchetype _ _ e cmap
      (inv_removeFromArchetype _ ai e hio hd3) ?_ ?_ ?_
    · rw [removeFromArchetype_archetypes]
      exact hmemo
    · rw [removeFromArchetype_ea]
      exact mget_mdel_self _ _
    · rw [removeFromArchetype_nextId, getOrCreateArchetype_nextId, hnid2]
      exact henid

theorem nextId_remove_finish (s1 : EMState) (e ai : Nat) (key : List Nat) (nts : List Sym)
    (cmap : List (Sym × ComponentData)) (P : Prop) [Decidable P] :
    (if P then removeFromArchetype (trackDestroyed s1 key e) ai e
      else addToArchetype
        (removeFromArchetype (getOrCreateArchetype (trackDestroyed s1 key e) nts).2 ai e)
        (getOrCreateArchetype (trackDestroyed s1 key e) nts).1 e cmap).nextId
      = s1.nextId := by
  split
  · rw [removeFromArchetype_nextId, trackDestroyed_nextId]
  · rw [addToArchetype_nextId, removeFromArchetype_nextId, getOrCreateArchetype_nextId,
       trackDestroyed_nextId]

theorem inv_remove_hook_section (s : EMState) (e : Nat) (c : Sym) (ai : Nat) (h : Inv s) :
    Inv (match s.hooks with
      | none => s
      | some hh =>
          let h1 :=
            match mget hh.pendingRemove c with
            | some pending =>
                { hh with pendingRemove := mset hh.pendingRemove c (pending ++ [e]) }
            | none => hh
          let sh := { s with hooks := some h1 }
          if (mget h1.removeCbs c).isSome then
            match mget (getArch s ai).components c with
            | some (some store) =>
                let idx := (mget (getArch s ai).entityToIndex e).getD 0
                let cur := (mget sh.removedData e).getD []
                { sh with
                  removedData := mset sh.removedData e
                    (mset cur c (soaRead store idx)) }
            | _ => sh
          else sh) ∧
    (match s.hooks with
      | none => s
      | some hh =>
          let h1 :=
            match mget hh.pendingRemove c with
            | some pending =>
                { hh with pendingRemove := mset hh.pendingRemove c (pending ++ [e]) }
            | none => hh
          let sh := { s with hooks := some h1 }
          if (mget h1.removeCbs c).isSome then
            match mget (getArch s ai).components c with
            | some (some store) =>
                let idx := (mget (getArch s ai).entityToIndex e).getD 0
                let cur := (mget sh.removedData e).getD []
                { sh with
                  removedData := mset sh.removedData e
                    (mset cur c (soaRead store idx)) }
            | _ => sh
          else sh).entityArchetype = s.entityArchetype ∧
    (match s.hooks with
      | none => s
      | some hh =>
          let h1 :=
            match mget hh.pendingRemove c with
            | some pending =>
                { hh with pendingRemove := mset hh.pendingRemove c (pending ++ [e]) }
            | none => hh
          let sh := { s with hooks := some h1 }
          if (mget h1.removeCbs c).isSome then
            match mget (getArch s ai).components c with
            | some (some store) =>
                let idx := (mget (getArch s ai).entityToIndex e).getD 0
                let cur := (mget sh.removedData e).getD []
                { sh with
                  removedData := mset sh.removedData e
                    (mset cur c (soaRead store idx)) }
            | _ => sh
          else sh).nextId = s.nextId := by
  cases s.hooks with
  | none => exact ⟨h, rfl, rfl⟩
  | some hk =>
      dsimp only
      cases mget hk.pendingRemove c <;> dsimp only <;> split <;>
        (try (cases mget (getArch s ai).components c)) <;> (try dsimp only) <;>
        (try split) <;>
        exact ⟨inv_transfer h rfl rfl rfl rfl rfl rfl rfl, rfl, rfl⟩

theorem inv_doRemoveComponent (s : EMState) (e : Nat) (c : Sym) (h : Inv s) :
    Inv (doRemoveComponent s e c) := by
  unfold doRemoveComponent
  cases hd : mget s.entityArchetype e with
  | none => exact h
  | some ai =>
      dsimp only
      have henid : e < s.nextId :=
        (h.2.2.2.2.2.2.2.2.1) (e, ai) (mem_of_mget_eq_some hd)
      by_cases hct : c ∉ (getArch s ai).types
      · rw [if_pos hct]
        exact h
      · rw [if_neg hct]
        obtain ⟨hs1i, hs1ea, hs1nid⟩ := inv_remove_hook_section s e c ai h
        exact inv_doRemove_finish s _ e ai _ _ _ _ hs1i hs1ea hs1nid hd henid

theorem inv_destroy_hook_section (s : EMState) (id ai : Nat) (h : Inv s) :
    Inv (match s.hooks with
      | none => s
      | some hh =>
          let h1 :=
            { hh with pendingRemove := (getArch s ai).types.foldl (fun pr t =>
                match mget pr t with
                | some pending => mset pr t (pending ++ [id])
                | none => pr) hh.pendingRemove }
          let sh := { s with hooks := some h1 }
          if h1.removeCbs.length > 0 then
            let idx := (mget (getArch s ai).entityToIndex id).getD 0
            let snapEntries := (getArch s ai).types.filterMap (fun t =>
              if (mget h1.removeCbs t).isSome then
                match mget (getArch s ai).components t with
                | some (some store) => some (t, soaRead store idx)
                | _ => none
              else none)
            if snapEntries.length > 0 then
              { sh with removedData := mset sh.removedData id snapEntries }
            else sh
          else sh) ∧
    (match s.hooks with
      | none => s
      | some hh =>
          let h1 :=
            { hh with pendingRemove := (getArch s ai).types.foldl (fun pr t =>
                match mget pr t with
                | some pending => mset pr t (pending ++ [id])
                | none => pr) hh.pendingRemove }
          let sh := { s with hooks := some h1 }
          if h1.removeCbs.length > 0 then
            let idx := (mget (getArch s ai).entityToIndex id).getD 0
            let snapEntries := (getArch s ai).types.filterMap (fun t =>
              if (mget h1.removeCbs t).isSome then
                match mget (getArch s ai).components t with
                | some (some store) => some (t, soaRead store idx)
                | _ => none
              else none)
            if snapEntries.length > 0 then
              { sh with removedData := mset sh.removedData id snapEntries }
            else sh
          else sh).entityArchetype = s.entityArchetype ∧
    (match s.hooks with
      | none => s
      | some hh =>
          let h1 :=
            { hh with pendingRemove := (getArch s ai).types.foldl (fun pr t =>
                match mget pr t with
                | some pending => mset pr t (pending ++ [id])
                | none => pr) hh.pendingRemove }
          let sh := { s with hooks := some h1 }
          if h1.removeCbs.length > 0 then
            let idx := (mget (getArch s ai).entityToIndex id).getD 0
            let snapEntries := (getArch s ai).types.filterMap (fun t =>
              if (mget h1.removeCbs t).isSome then
                match mget (getArch s ai).components t with
                | some (some store) => some (t, soaRead store idx)
                | _ => none
              else none)
            if snapEntries.length > 0 then
              { sh with removedData := mset sh.removedData id snapEntries }
            else sh
          else sh).nextId = s.nextId := by
  cases s.hooks with
  | none => exact ⟨h, rfl, rfl⟩
  | some hk =>
      dsimp only
      split <;> (try split) <;>
        exact ⟨inv_transfer h rfl rfl rfl rfl rfl rfl rfl, rfl, rfl⟩

theorem inv_doDestroyEntity (s : EMState) (id : Nat) (h : Inv s) :
    Inv (doDestroyEntity s id) := by
  unfold doDestroyEntity
  cases hd : mget s.entityArchetype id with
  | none =>
      dsimp only
      exact inv_transfer h rfl rfl rfl rfl rfl rfl rfl
  | some ai =>
      dsimp only
      obtain ⟨hsai, hsaea, hsanid⟩ := inv_destroy_hook_section s id ai h
      refine inv_transfer (inv_removeFromArchetype _ ai id
        (inv_trackDestroyed _ _ _ hsai) ?_) rfl rfl rfl rfl rfl rfl rfl
      rw [trackDestroyed_ea, hsaea]
      exact hd

theorem inv_doAddComponent (s : EMState) (e : Nat) (c : Sym) (d : ComponentData)
    (h : Inv s) (henid : e < s.nextId) : Inv (doAddComponent s e c d) := by
  unfold doAddComponent
  cases hd : mget s.entityArchetype e with
  | none =>
      dsimp only
      obtain ⟨hio, hmemo, hstab, hlen, htyp⟩ := getOrCreateArchetype_spec s [c] h
      refine inv_pushPendingAdd _ c e (inv_addToArchetype _ _ e _ hio hmemo ?_ ?_)
      · rw [getOrCreateArchetype_ea]
        exact hd
      · rw [getOrCreateArchetype_nextId]
        exact henid
  | some ai =>
      dsimp only
      by_cases hct : c ∈ (getArch s ai).types
      · rw [if_pos hct]
        cases hcs : mget (getArch s ai).components c with
        | none => exact h
        | some o =>
            cases o with
            | none => exact h
            | some store =>
                refine inv_setArch_shape s ai _ rfl rfl rfl rfl rfl ?_ h
                exact mset_keys_of_mem _ _ _
                  ((mget_isSome_iff _ _).mp (by rw [hcs]; rfl))
      · rw [if_neg hct]
        obtain ⟨hio, hmemo, hstab, hlen, htyp⟩ :=
          getOrCreateArchetype_spec s ((getArch s ai).types ++ [c]) h
        have hd1 : mget (getOrCreateArchetype s
            ((getArch s ai).types ++ [c])).2.entityArchetype e = some ai := by
          rw [getOrCreateArchetype_ea]
          exact hd
        refine inv_pushPendingAdd _ c e (inv_addToArchetype _ _ e _
          (inv_removeFromArchetype _ ai e hio hd1) ?_ ?_ ?_)
        · rw [removeFromArchetype_archetypes]
          exact hmemo
        · rw [removeFromArchetype_ea]
          exact mget_mdel_self _ _
        · rw [removeFromArchetype_nextId, getOrCreateArchetype_nextId]
          exact henid

theorem doAddComponent_nextId (s : EMState) (e : Nat) (c : Sym) (d : ComponentData) :
    (doAddComponent s e c d).nextId = s.nextId := by
  unfold doAddComponent
  cases hd : mget s.entityArchetype e with
  | none =>
      dsimp only
      rw [pushPendingAdd_nextId, addToArchetype_nextId, getOrCreateArchetype_nextId]
  | some ai =>
      dsimp only
      by_cases hct : c ∈ (getArch s ai).types
      · rw [if_pos hct]
        cases hcs : mget (getArch s ai).components c with
        | none => rfl
        | some o => cases o <;> rfl
      · rw [if_neg hct]
        rw [pushPendingAdd_nextId, addToArchetype_nextId, removeFromArchetype_nextId,
           getOrCreateArchetype_nextId]

theorem doRemoveComponent_nextId (s : EMState) (e : Nat) (c : Sym) (h : Inv s) :
    (doRemoveComponent s e c).nextId = s.nextId := by
  unfold doRemoveComponent
  cases hd : mget s.entityArchetype e with
  | none => rfl
  | some ai =>
      dsimp only
      by_cases hct : c ∉ (getArch s ai).types
      · rw [if_pos hct]
      · rw [if_neg hct]
        rw [nextId_remove_finish]
        exact (inv_remove_hook_section s e c ai h).2.2

theorem doDestroyEntity_nextId (s : EMState) (id : Nat) (h : Inv s) :
    (doDestroyEntity s id).nextId = s.nextId := by
  unfold doDestroyEntity
  cases hd : mget s.entityArchetype id with
  | none => rfl
  | some ai =>
      dsimp only
      rw [removeFromArchetype_nextId, trackDestroyed_nextId]
      exact (inv_destroy_hook_section s id ai h).2.2

theorem inv_doOp (s : EMState) (op : DeferredOp) (h : Inv s)
    (hwf : deferAddOKb s.nextId op = true) : Inv (doOp s op) := by
  cases op with
  | add e c dta => exact inv_doAddComponent s e c dta h (of_decide_eq_true hwf)
  | rem e c => exact inv_doRemoveComponent s e c h
  | destroy e => exact inv_doDestroyEntity s e h

theorem doOp_nextId (s : EMState) (op : DeferredOp) (h : Inv s) :
    (doOp s op).nextId = s.nextId := by
  cases op with
  | add e c dta => exact doAddComponent_nextId s e c dta
  | rem e c => exact doRemoveComponent_nextId s e c h
  | destroy e => exact doDestroyEntity_nextId s e h

theorem inv_foldl_em {α : Type} (step : EMState → α → EMState) (l : List α)
    (hstep : ∀ st x, Inv st → Inv (step st x)) :
    ∀ st, Inv st → Inv (l.foldl step st) := by
  induction l with
  | nil => intro st h; exact h
  | cons x rest ih =>
      intro st h
      rw [List.foldl_cons]
      exact ih _ (hstep st x h)

theorem inv_foldl_doOp (ops : List DeferredOp) :
    ∀ st : EMState, Inv st → (∀ op ∈ ops, deferAddOKb st.nextId op = true) →
      Inv (ops.foldl doOp st) ∧ (ops.foldl doOp st).nextId = st.nextId := by
  induction ops with
  | nil => intro st h _; exact ⟨h, rfl⟩
  | cons op rest ih =>
      intro st h hwf
      rw [List.foldl_cons]
      have h1 : Inv (doOp st op) := inv_doOp st op h (hwf op (List.mem_cons_self op rest))
      have hn : (doOp st op).nextId = st.nextId := doOp_nextId st op h
      obtain ⟨ha, hb⟩ := ih (doOp st op) h1 (fun op' hop' => by
        rw [hn]
        exact hwf op' (List.mem_cons_of_mem op hop'))
      exact ⟨ha, by rw [hb, hn]⟩

theorem inv_clear_deferred (s : EMState) (h : Inv s) : Inv { s with deferred := [] } :=
  @inv_of_invFieldsLe { s with deferred := [] } s
    ⟨rfl, rfl, rfl, rfl, rfl, Nat.le_refl _,
     fun dop hd => absurd hd (List.not_mem_nil dop)⟩ h

theorem inv_flushDeferred (s : EMState) (h : Inv s) :
    Inv (flushDeferred s) ∧ (flushDeferred s).nextId = s.nextId := by
  unfold flushDeferred
  dsimp only
  have hdq := h.2.2.2.2.2.2.2.2.2
  exact inv_foldl_doOp s.deferred _ (inv_clear_deferred s h) (fun op hop => hdq op hop)

theorem inv_push_deferred (s : EMState) (op : DeferredOp) (h : Inv s)
    (hok : deferAddOKb s.nextId op = true) :
    Inv { s with deferred := s.deferred ++ [op] } := by
  obtain ⟨a1, a2, a3, a4, ab, ac, ac2, ad, af, adq⟩ := h
  refine ⟨a1, a2, a3, a4, ab, ac, ac2, ad, af, ?_⟩
  intro dop hdop
  rcases List.mem_append.mp hdop with hold | hnew
  · exact adq dop hold
  · rw [List.mem_singleton] at hnew
    rw [hnew]
    exact hok

theorem inv_destroyEntity (s : EMState) (id : Nat) (h : Inv s) : Inv (destroyEntity s id) := by
  unfold destroyEntity
  split
  · exact inv_push_deferred s _ h rfl
  · exact inv_doDestroyEntity s id h

theorem inv_removeComponent (s : EMState) (e : Nat) (c : Sym) (h : Inv s) :
    Inv (removeComponent s e c) := by
  unfold removeComponent
  split
  · exact inv_push_deferred s _ h rfl
  · exact inv_doRemoveComponent s e c h

theorem inv_addComponent (s : EMState) (e : Nat) (c : Sym) (d : ComponentData)
    (h : Inv s) (henid : e < s.nextId) : Inv (addComponent s e c d) := by
  unfold addComponent
  split
  · cases hd : mget s.entityArchetype e with
    | some ai =>
        dsimp only
        by_cases hct : c ∈ (getArch s ai).types
        · rw [if_pos hct]
          cases hcs : mget (getArch s ai).components c with
          | none => exact h
          | some o =>
              cases o with
              | none => exact h
              | some store =>
                  refine inv_setArch_shape s ai _ rfl rfl rfl rfl rfl ?_ h
                  exact mset_keys_of_mem _ _ _
                    ((mget_isSome_iff _ _).mp (by rw [hcs]; rfl))
        · rw [if_neg hct]
          exact inv_push_deferred s _ h (decide_eq_true henid)
    | none => exact inv_push_deferred s _ h (decide_eq_true henid)
  · exact inv_doAddComponent s e c d h henid

theorem inv_setField (s : EMState) (e : Nat) (sym : Sym) (f : String) (v : JVal)
    (h : Inv s) : Inv (setField s e sym f v) := by
  unfold setField
  cases hd : mget s.entityArchetype e with
  | none => exact h
  | some ai =>
      dsimp only
      cases hcs : mget (getArch s ai).components sym with
      | none => exact h
      | some o =>
          cases o with
          | none => exact h
          | some store =>
              refine inv_setArch_shape s ai _ rfl rfl rfl rfl rfl ?_ h
              exact mset_keys_of_mem _ _ _
                ((mget_isSome_iff _ _).mp (by rw [hcs]; rfl))

theorem inv_onAdd (s : EMState) (c : Sym) (cb : Nat) (h : Inv s) : Inv (onAdd s c cb) :=
  inv_transfer h rfl rfl rfl rfl rfl rfl rfl

theorem inv_onRemove (s : EMState) (c : Sym) (cb : Nat) (h : Inv s) : Inv (onRemove s c cb) :=
  inv_transfer h rfl rfl rfl rfl rfl rfl rfl

theorem inv_flushHooksRun (s : EMState) (h : Inv s) : Inv (flushHooksRun s).2 := by
  unfold flushHooksRun
  cases s.hooks <;> (try dsimp only) <;>
    exact inv_transfer h rfl rfl rfl rfl rfl rfl rfl

theorem inv_commitRemovals (s : EMState) (h : Inv s) : Inv (commitRemovals s) :=
  inv_transfer h rfl rfl rfl rfl rfl rfl rfl

theorem inv_flushChanges (s : EMState) (h : Inv s) : Inv (flushChanges s).2 :=
  inv_transfer h rfl rfl rfl rfl rfl rfl rfl

theorem inv_enableTracking (s : EMState) (c : Sym) (h : Inv s) :
    Inv (enableTracking s c) := by
  unfold enableTracking
  dsimp only
  refine inv_foldl_em _ _ ?_ _
    (inv_transfer (inv_getBit s c h) rfl rfl rfl rfl rfl rfl rfl)
  intro st p hst
  dsimp only
  split
  · refine inv_transfer (inv_setArch_shape st p.2 _ ?_ ?_ ?_ ?_ ?_ ?_ hst)
      rfl rfl rfl rfl rfl rfl rfl <;> rfl
  · exact hst

theorem inv_flushSnapshots (s : EMState) (h : Inv s) : Inv (flushSnapshots s) := by
  unfold flushSnapshots
  refine inv_foldl_em _ _ ?_ s h
  intro st ai hst
  dsimp only
  exact inv_setArch_shape st ai _ rfl rfl rfl rfl rfl rfl hst

theorem inv_getMatchingArchetypes (s : EMState) (inc exc : List Sym) (h : Inv s) :
    Inv (getMatchingArchetypes s inc exc).2 := by
  have h1 : Inv (computeMask s inc).2 := inv_computeMask s inc h
  have h2 : Inv (computeMask (computeMask s inc).2 exc).2 := inv_computeMask _ exc h1
  unfold getMatchingArchetypes
  by_cases hexc : exc.length > 0
  · simp only [if_pos hexc]
    cases hc : mget (computeMask (computeMask s inc).2 exc).2.queryCache
        ((computeMask s inc).1, some (computeMask (computeMask s inc).2 exc).1) with
    | none =>
        simp only [hc]
        exact inv_transfer h2 rfl rfl rfl rfl rfl rfl rfl
    | some c =>
        simp only [hc]
        by_cases hv : c.1 = (computeMask (computeMask s inc).2 exc).2.queryCacheVersion
        · simp only [if_pos hv]
          exact h2
        · simp only [if_neg hv]
          exact inv_transfer h2 rfl rfl rfl rfl rfl rfl rfl
  · simp only [if_neg hexc]
    cases hc : mget (computeMask s inc).2.queryCache ((computeMask s inc).1, none) with
    | none =>
        simp only [hc]
        exact inv_transfer h1 rfl rfl rfl rfl rfl rfl rfl
    | some c =>
        by_cases hv : c.1 = (computeMask s inc).2.queryCacheVersion
        · simp only [hc, if_pos hv]
          exact h1
        · simp only [hc, if_neg hv]
          exact inv_transfer h1 rfl rfl rfl rfl rfl rfl rfl

theorem inv_createEntity (s : EMState) (h : Inv s) : Inv (createEntity s).2 :=
  @inv_of_invFieldsLe (createEntity s).2 s
    ⟨rfl, rfl, rfl, rfl, rfl, Nat.le_succ _, fun _ hd => hd⟩ h

theorem inv_createEntityWith (s : EMState) (args : List (Sym × ComponentData)) (h : Inv s) :
    Inv (createEntityWith s args).2 := by
  unfold createEntityWith
  dsimp only
  have h0 : Inv { s with
      nextId := s.nextId + 1
      allEntityIds := jsSetAdd s.allEntityIds s.nextId } :=
    @inv_of_invFieldsLe { s with
        nextId := s.nextId + 1
        allEntityIds := jsSetAdd s.allEntityIds s.nextId } s
      ⟨rfl, rfl, rfl, rfl, rfl, Nat.le_succ _, fun _ hd => hd⟩ h
  obtain ⟨hio, hmemo, hstab, hlen, htyp⟩ :=
    getOrCreateArchetype_spec _ (args.map (fun a => a.1)) h0
  have haf : ∀ p ∈ s.entityArchetype, p.1 < s.nextId := h.2.2.2.2.2.2.2.2.1
  have hfresh : mget (getOrCreateArchetype
      { s with
        nextId := s.nextId + 1
        allEntityIds := jsSetAdd s.allEntityIds s.nextId }
      (args.map (fun a => a.1))).2.entityArchetype s.nextId = none := by
    rw [getOrCreateArchetype_ea]
    apply (mget_eq_none_iff _ _).mpr
    intro hmem
    obtain ⟨p, hp, hpe⟩ := List.mem_map.mp hmem
    have hlt := haf p hp
    omega
  have chain : Inv
      ((args.map (fun a => a.1)).foldl
        (fun st t => pushPendingAdd st t s.nextId)
        (addToArchetype
          (getOrCreateArchetype
            { s with
              nextId := s.nextId + 1
              allEntityIds := jsSetAdd s.allEntityIds s.nextId }
            (args.map (fun a => a.1))).2
          (getOrCreateArchetype
            { s with
              nextId := s.nextId + 1
              allEntityIds := jsSetAdd s.allEntityIds s.nextId }
            (args.map (fun a => a.1))).1
          s.nextId
          (args.foldl (fun m a => mset m a.1 a.2) []))) := by
    refine inv_foldl_em _ _ (fun st t hst => inv_pushPendingAdd st t s.nextId hst) _ ?_
    refine inv_addToArchetype _ _ _ _ hio hmemo hfresh ?_
    rw [getOrCreateArchetype_nextId]
    exact Nat.lt_succ_self _
  split
  · split
    · exact inv_transfer chain rfl rfl rfl rfl rfl rfl rfl
    · exact chain
  · exact chain

theorem mset_cons_ne {κ α : Type} [DecidableEq κ] (p : κ × α) (rest : List (κ × α))
    (k : κ) (w : α) (hp : p.1 ≠ k) (hfound : (mget rest k).isSome = true) :
    mset (p :: rest) k w = p :: mset rest k w := by
  have hf : (rest.find? (fun q => decide (q.1 = k))).isSome = true := by
    rw [mget_isSome_iff] at hfound
    exact (mset_guard_iff rest k).mpr hfound
  unfold mset
  rw [if_pos hf, if_pos]
  · rw [List.map_cons, if_neg hp]
  · rw [List.find?_cons_of_neg _ (by simpa using hp)]
    exact hf

theorem map_upd_eq_of_not_mem {κ α : Type} [DecidableEq κ] (m : List (κ × α)) (k : κ)
    (w : α) (h : k ∉ m.map Prod.fst) :
    m.map (fun q => if q.1 = k then (k, w) else q) = m := by
  have := List.map_congr_left (l := m)
    (f := fun q => if q.1 = k then (k, w) else q) (g := id) ?_
  · rw [this, List.map_id]
  · intro q hq
    have hqk : ¬q.1 = k := fun hc => h (List.mem_map.mpr ⟨q, hq, hc⟩)
    dsimp only
    rw [if_neg hqk]
    rfl

theorem mset_split_of_nodup {κ α : Type} [DecidableEq κ] {m : List (κ × α)} {k : κ} {v : α}
    (hnd : (m.map Prod.fst).Nodup) (h : mget m k = some v) (w : α) :
    ∃ m1 m2, m = m1 ++ (k, v) :: m2 ∧ mset m k w = m1 ++ (k, w) :: m2 := by
  induction m with
  | nil => cases h
  | cons p rest ih =>
      rw [mget_cons] at h
      rw [List.map_cons] at hnd
      obtain ⟨hnd1, hnd2⟩ := List.nodup_cons.mp hnd
      by_cases hp : p.1 = k
      · rw [if_pos hp] at h
        have hv : p.2 = v := by cases h; rfl
        refine ⟨[], rest, ?_, ?_⟩
        · rw [List.nil_append]
          have hpkv : p = (k, v) := by
            cases p
            dsimp only at hp hv
            rw [hp, hv]
          rw [hpkv]
        · have hguard : ((p :: rest).find? (fun q => decide (q.1 = k))).isSome = true := by
            rw [List.find?_cons_of_pos _ (by simpa using hp)]
            rfl
          unfold mset
          rw [if_pos hguard, List.map_cons, if_pos hp, List.nil_append]
          have hknotr : k ∉ rest.map Prod.fst := by
            rw [← hp]
            exact hnd1
          rw [map_upd_eq_of_not_mem rest k w hknotr]
      · rw [if_neg hp] at h
        obtain ⟨m1, m2, hsplit, hmset⟩ := ih hnd2 h
        refine ⟨p :: m1, m2, ?_, ?_⟩
        · rw [List.cons_append, ← hsplit]
        · rw [mset_cons_ne p rest k w hp (by rw [h]; rfl), hmset, List.cons_append]

theorem allGroupIds_cons (g : List Nat × List (Nat × List (Sym × ComponentData)))
    (gs : List (List Nat × List (Nat × List (Sym × ComponentData)))) :
    allGroupIds (g :: gs) = g.2.map Prod.fst ++ allGroupIds gs := by
  unfold allGroupIds
  rw [List.map_cons, List.flatten_cons]

theorem allGroupIds_append (g1 g2 : List (List Nat × List (Nat × List (Sym × ComponentData)))) :
    allGroupIds (g1 ++ g2) = allGroupIds g1 ++ allGroupIds g2 := by
  unfold allGroupIds
  rw [List.map_append, List.flatten_append]

theorem allGroupIds_mset (g : List (List Nat × List (Nat × List (Sym × ComponentData))))
    (k : List Nat) (lst : List (Nat × List (Sym × ComponentData)))
    (e : Nat × List (Sym × ComponentData))
    (hnd : (g.map Prod.fst).Nodup) (hget : mget g k = some lst) :
    (allGroupIds (mset g k (lst ++ [e]))).Perm (allGroupIds g ++ [e.1]) := by
  obtain ⟨m1, m2, hsplit, hmset⟩ := mset_split_of_nodup hnd hget (lst ++ [e])
  rw [hmset, hsplit, allGroupIds_append, allGroupIds_append, allGroupIds_cons,
     allGroupIds_cons]
  rw [List.perm_iff_count]
  intro a
  simp only [List.count_append, List.map_append, List.map_singleton]
  omega

theorem grouping_fold_state (es : List (Nat × List (Sym × ComponentData))) :
    ∀ acc : List (List Nat × List (Nat × List (Sym × ComponentData))) × EMState,
      (Inv acc.2 → Inv (es.foldl groupStep acc).2) ∧
      BitsOnly (es.foldl groupStep acc).2 acc.2 := by
  induction es with
  | nil => intro acc; exact ⟨fun h => h, bitsOnly_refl _⟩
  | cons e rest ih =>
      intro acc
      rw [List.foldl_cons]
      have hstep : (Inv acc.2 → Inv (groupStep acc e).2) ∧
          BitsOnly (groupStep acc e).2 acc.2 := by
        unfold groupStep
        dsimp only
        split
        · exact ⟨fun h => h, bitsOnly_refl _⟩
        · cases hm : mget acc.1 (computeMask acc.2 (e.2.map (fun p => p.1))).1 with
          | some lst =>
              simp only [hm]
              exact ⟨fun h => inv_computeMask _ _ h, bitsOnly_computeMask _ _⟩
          | none =>
              simp only [hm]
              exact ⟨fun h => inv_computeMask _ _ h, bitsOnly_computeMask _ _⟩
      obtain ⟨ih1, ih2⟩ := ih (groupStep acc e)
      exact ⟨fun h => ih1 (hstep.1 h), bitsOnly_trans ih2 hstep.2⟩

theorem grouping_fold_ids (es : List (Nat × List (Sym × ComponentData))) :
    ∀ acc : List (List Nat × List (Nat × List (Sym × ComponentData))) × EMState,
      (acc.1.map Prod.fst).Nodup →
      (allGroupIds acc.1 ++ es.map Prod.fst).Nodup →
      ((es.foldl groupStep acc).1.map Prod.fst).Nodup ∧
      (allGroupIds (es.foldl groupStep acc).1).Nodup ∧
      (∀ id ∈ allGroupIds (es.foldl groupStep acc).1,
          id ∈ allGroupIds acc.1 ∨ id ∈ es.map Prod.fst) := by
  induction es with
  | nil =>
      intro acc hkg hnd
      exact ⟨hkg, by simpa using hnd, fun id h => Or.inl h⟩
  | cons e rest ih =>
      intro acc hkg hnd
      rw [List.foldl_cons]
      rw [List.map_cons] at hnd
      by_cases ht : (e.2.map (fun p => p.1)).length = 0
      · have hstep : groupStep acc e = acc := by
          unfold groupStep
          dsimp only
          rw [if_pos ht]
        rw [hstep]
        have hnd' : (allGroupIds acc.1 ++ rest.map Prod.fst).Nodup :=
          ((List.sublist_cons_self e.1 (rest.map Prod.fst)).append_left _).nodup hnd
        obtain ⟨r1, r2, r3⟩ := ih acc hkg hnd'
        exact ⟨r1, r2, fun id hid =>
          (r3 id hid).imp (fun h => h) (fun h => List.mem_cons_of_mem _ h)⟩
      · have hargs : groupStep acc e =
            match mget acc.1 (computeMask acc.2 (e.2.map (fun p => p.1))).1 with
            | some lst =>
                (mset acc.1 (computeMask acc.2 (e.2.map (fun p => p.1))).1 (lst ++ [e]),
                 (computeMask acc.2 (e.2.map (fun p => p.1))).2)
            | none =>
                (acc.1 ++ [((computeMask acc.2 (e.2.map (fun p => p.1))).1, [e])],
                 (computeMask acc.2 (e.2.map (fun p => p.1))).2) := by
          unfold groupStep
          dsimp only
          rw [if_neg ht]
        cases hm : mget acc.1 (computeMask acc.2 (e.2.map (fun p => p.1))).1 with
        | some lst =>
            have hstep : groupStep acc e =
                (mset acc.1 (computeMask acc.2 (e.2.map (fun p => p.1))).1 (lst ++ [e]),
                 (computeMask acc.2 (e.2.map (fun p => p.1))).2) := by
              rw [hargs, hm]
            rw [hstep]
            have hknew := mset_keys_nodup acc.1
              (computeMask acc.2 (e.2.map (fun p => p.1))).1 (lst ++ [e]) hkg
            have hperm := allGroupIds_mset acc.1
              (computeMask acc.2 (e.2.map (fun p => p.1))).1 lst e hkg hm
            have heq2 : (allGroupIds acc.1 ++ [e.1]) ++ rest.map Prod.fst
                = allGroupIds acc.1 ++ (e.1 :: rest.map Prod.fst) := by
              rw [List.append_assoc]
              rfl
            have hndstep : (allGroupIds (mset acc.1
                (computeMask acc.2 (e.2.map (fun p => p.1))).1 (lst ++ [e]))
                ++ rest.map Prod.fst).Nodup := by
              apply List.Perm.nodup ((hperm.symm).append_right _)
              rw [heq2]
              exact hnd
            obtain ⟨r1, r2, r3⟩ := ih
              (mset acc.1 (computeMask acc.2 (e.2.map (fun p => p.1))).1 (lst ++ [e]),
               (computeMask acc.2 (e.2.map (fun p => p.1))).2) hknew hndstep
            refine ⟨r1, r2, ?_⟩
            intro id hid
            rcases r3 id hid with hin | hin
            · rcases List.mem_append.mp ((hperm.mem_iff).mp hin) with h1 | h1
              · exact Or.inl h1
              · rw [List.mem_singleton] at h1
                exact Or.inr (h1 ▸ List.mem_cons_self _ _)
            · exact Or.inr (List.mem_cons_of_mem _ hin)
        | none =>
            have hstep : groupStep acc e =
                (acc.1 ++ [((computeMask acc.2 (e.2.map (fun p => p.1))).1, [e])],
                 (computeMask acc.2 (e.2.map (fun p => p.1))).2) := by
              rw [hargs, hm]
            rw [hstep]
            have hkne : (computeMask acc.2 (e.2.map (fun p => p.1))).1
                ∉ acc.1.map Prod.fst := (mget_eq_none_iff _ _).mp hm
            have hknew : ((acc.1
                ++ [((computeMask acc.2 (e.2.map (fun p => p.1))).1, [e])]).map
                  Prod.fst).Nodup := by
              rw [List.map_append, List.map_singleton]
              exact nodup_append_singleton hkg hkne
            have hidseq : allGroupIds (acc.1
                ++ [((computeMask acc.2 (e.2.map (fun p => p.1))).1, [e])])
                = allGroupIds acc.1 ++ [e.1] := by
              rw [allGroupIds_append, allGroupIds_cons]
              rfl
            have hndstep : (allGroupIds (acc.1
                ++ [((computeMask acc.2 (e.2.map (fun p => p.1))).1, [e])])
                ++ rest.map Prod.fst).Nodup := by
              rw [hidseq, List.append_assoc]
              exact hnd
            obtain ⟨r1, r2, r3⟩ := ih
              (acc.1 ++ [((computeMask acc.2 (e.2.map (fun p => p.1))).1, [e])],
               (computeMask acc.2 (e.2.map (fun p => p.1))).2) hknew hndstep
            refine ⟨r1, r2, ?_⟩
            intro id hid
            rcases r3 id hid with hin | hin
            · rw [hidseq] at hin
              rcases List.mem_append.mp hin with h1 | h1
              · exact Or.inl h1
              · rw [List.mem_singleton] at h1
                exact Or.inr (h1 ▸ List.mem_cons_self _ _)
            · exact Or.inr (List.mem_cons_of_mem _ hin)

theorem loadGroup_inner (ai : Nat) (entries : List (Nat × List (Sym × ComponentData))) :
    ∀ st : EMState, Inv st → ai ∈ st.archetypes.map Prod.snd →
      (entries.map Prod.fst).Nodup →
      (∀ p ∈ entries, mget st.entityArchetype p.1 = none ∧ p.1 < st.nextId) →
      Inv (entries.foldl (fun st2 e => addToArchetype st2 ai e.1 e.2) st) ∧
      (entries.foldl (fun st2 e => addToArchetype st2 ai e.1 e.2) st).nextId = st.nextId ∧
      (∀ id, id ∉ entries.map Prod.fst →
        mget (entries.foldl (fun st2 e =>
          addToArchetype st2 ai e.1 e.2) st).entityArchetype id
          = mget st.entityArchetype id) := by
  induction entries with
  | nil => intro st h _ _ _; exact ⟨h, rfl, fun id _ => rfl⟩
  | cons e rest ih =>
      intro st h hlive hnd hfr
      rw [List.foldl_cons]
      have hfre := hfr e (List.mem_cons_self e rest)
      have h1 : Inv (addToArchetype st ai e.1 e.2) :=
        inv_addToArchetype st ai e.1 e.2 h hlive hfre.1 hfre.2
      rw [List.map_cons] at hnd
      obtain ⟨hnd1, hnd2⟩ := List.nodup_cons.mp hnd
      have hfr' : ∀ p ∈ rest,
          mget (addToArchetype st ai e.1 e.2).entityArchetype p.1 = none ∧
          p.1 < (addToArchetype st ai e.1 e.2).nextId := by
        intro p hp
        rw [addToArchetype_ea, addToArchetype_nextId]
        have hpneq : p.1 ≠ e.1 := fun hc => hnd1 (hc ▸ List.mem_map.mpr ⟨p, hp, rfl⟩)
        rw [mget_mset_ne _ _ _ _ hpneq]
        exact hfr p (List.mem_cons_of_mem e hp)
      have hlive' : ai ∈ (addToArchetype st ai e.1 e.2).archetypes.map Prod.snd := by
        rw [addToArchetype_archetypes]
        exact hlive
      obtain ⟨r1, r2, r3⟩ := ih _ h1 hlive' hnd2 hfr'
      refine ⟨r1, ?_, ?_⟩
      · rw [r2, addToArchetype_nextId]
      · intro id hid
        rw [List.map_cons] at hid
        have hid1 : id ≠ e.1 := fun hc => hid (hc ▸ List.mem_cons_self _ _)
        have hid2 : id ∉ rest.map Prod.fst := fun hc => hid (List.mem_cons_of_mem _ hc)
        rw [r3 id hid2, addToArchetype_ea, mget_mset_ne _ _ _ _ hid1]

theorem inv_loadGroup (st : EMState) (g : List Nat × List (Nat × List (Sym × ComponentData)))
    (h : Inv st) (hnd : (g.2.map Prod.fst).Nodup)
    (hfr : ∀ p ∈ g.2, mget st.entityArchetype p.1 = none ∧ p.1 < st.nextId) :
    Inv (loadGroup st g) ∧ (loadGroup st g).nextId = st.nextId ∧
    (∀ id, id ∉ g.2.map Prod.fst →
      mget (loadGroup st g).entityArchetype id = mget st.entityArchetype id) := by
  unfold loadGroup
  cases hg : g.2 with
  | nil => exact ⟨h, rfl, fun id _ => rfl⟩
  | cons first others =>
      dsimp only
      rw [hg] at hnd hfr
      obtain ⟨hio, hmemo, hstab, hlen, htyp⟩ :=
        getOrCreateArchetype_spec st (first.2.map (fun p => p.1)) h
      have hfr' : ∀ p ∈ first :: others,
          mget (getOrCreateArchetype st
            (first.2.map (fun p => p.1))).2.entityArchetype p.1 = none ∧
          p.1 < (getOrCreateArchetype st (first.2.map (fun p => p.1))).2.nextId := by
        intro p hp
        rw [getOrCreateArchetype_ea, getOrCreateArchetype_nextId]
        exact hfr p hp
      obtain ⟨r1, r2, r3⟩ :=
        loadGroup_inner (getOrCreateArchetype st (first.2.map (fun p => p.1))).1
          (first :: others) _ hio hmemo hnd hfr'
      refine ⟨r1, ?_, ?_⟩
      · rw [r2, getOrCreateArchetype_nextId]
      · intro id hid
        rw [r3 id hid, getOrCreateArchetype_ea]

theorem load_fold (groups : List (List Nat × List (Nat × List (Sym × ComponentData)))) :
    ∀ st : EMState, Inv st →
      (allGroupIds groups).Nodup →
      (∀ id ∈ allGroupIds groups, mget st.entityArchetype id = none ∧ id < st.nextId) →
      Inv (groups.foldl loadGroup st) := by
  induction groups with
  | nil => intro st h _ _; exact h
  | cons g rest ih =>
      intro st h hnd hfr
      rw [List.foldl_cons]
      rw [allGroupIds_cons g rest] at hnd hfr
      obtain ⟨hnd1, hnd2, hdisj⟩ := List.nodup_append.mp hnd
      have hfr1 : ∀ p ∈ g.2, mget st.entityArchetype p.1 = none ∧ p.1 < st.nextId := by
        intro p hp
        exact hfr p.1 (List.mem_append_left _ (List.mem_map.mpr ⟨p, hp, rfl⟩))
      obtain ⟨r1, r2, r3⟩ := inv_loadGroup st g h hnd1 hfr1
      apply ih _ r1 hnd2
      intro id hid
      have hidng : id ∉ g.2.map Prod.fst := fun hc => hdisj hc hid
      refine ⟨?_, ?_⟩
      · rw [r3 id hidng]
        exact (hfr id (List.mem_append_right _ hid)).1
      · rw [r2]
        exact (hfr id (List.mem_append_right _ hid)).2

theorem ec_inner_keys (sym : Sym) (entries : List (Nat × ComponentData)) :
    ∀ ec : List (Nat × List (Sym × ComponentData)),
      ((entries.foldl (fun ec2 q =>
        match mget ec2 q.1 with
        | none => ec2
        | some compMap => mset ec2 q.1 (mset compMap sym q.2)) ec).map Prod.fst)
      = ec.map Prod.fst := by
  induction entries with
  | nil => intro ec; rfl
  | cons q rest ih =>
      intro ec
      rw [List.foldl_cons, ih]
      cases hm : mget ec q.1 with
      | none => rfl
      | some compMap =>
          simp only [hm]
          exact mset_keys_of_mem _ _ _ ((mget_isSome_iff _ _).mp (by rw [hm]; rfl))

theorem ec_outer_keys (n2s : List (String × Sym))
    (comps : List (String × List (Nat × ComponentData))) :
    ∀ ec : List (Nat × List (Sym × ComponentData)),
      ((comps.foldl (fun ec p =>
        match mget n2s p.1 with
        | none => ec
        | some sym =>
            p.2.foldl (fun ec2 q =>
              match mget ec2 q.1 with
              | none => ec2
              | some compMap => mset ec2 q.1 (mset compMap sym q.2)) ec) ec).map Prod.fst)
      = ec.map Prod.fst := by
  induction comps with
  | nil => intro ec; rfl
  | cons p rest ih =>
      intro ec
      rw [List.foldl_cons, ih]
      cases hm : mget n2s p.1 with
      | none => rfl
      | some sym =>
          simp only [hm]
          exact ec_inner_keys sym p.2 ec

theorem inv_deserialize_s0 (s : EMState) (d : SerializedData) (h : Inv s)
    (hwf2 : ∀ dop ∈ s.deferred, deferAddOKb d.nextId dop = true) :
    Inv { s with
      allEntityIds := jsSetOfList d.entities
      archetypes := []
      entityArchetype := []
      queryCache := []
      queryCacheVersion := 0
      nextId := d.nextId } := by
  refine ⟨fun ai hai => ?_, fun p hp => absurd hp (List.not_mem_nil p), ?_, ?_,
          fun ai hai => ?_, fun p hp => absurd hp (List.not_mem_nil p),
          ?_, @inv_bitInv s h, fun p hp => absurd hp (List.not_mem_nil p), ?_⟩
  · simp at hai
  · simp
  · simp
  · simp at hai
  · simp
  · intro dop hdop
    exact hwf2 dop hdop

theorem inv_deserialize (s : EMState) (d : SerializedData) (n2s : List (String × Sym))
    (h : Inv s) (hwf1 : ∀ id ∈ d.entities, id < d.nextId)
    (hwf2 : ∀ dop ∈ s.deferred, deferAddOKb d.nextId dop = true) :
    Inv (deserialize s d n2s) := by
  unfold deserialize
  dsimp only
  have hs0 : Inv { s with
      allEntityIds := jsSetOfList d.entities
      archetypes := []
      entityArchetype := []
      queryCache := []
      queryCacheVersion := 0
      nextId := d.nextId } := inv_deserialize_s0 s d h hwf2
  have hgs := grouping_fold_state (d.components.foldl (fun ec p =>
    match mget n2s p.1 with
    | none => ec
    | some sym =>
        p.2.foldl (fun ec2 q =>
          match mget ec2 q.1 with
          | none => ec2
          | some compMap => mset ec2 q.1 (mset compMap sym q.2)) ec)
    ((jsSetOfList d.entities).map (fun id => (id, []))))
    ([], { s with
      allEntityIds := jsSetOfList d.entities
      archetypes := []
      entityArchetype := []
      queryCache := []
      queryCacheVersion := 0
      nextId := d.nextId })
  have heckeys : ((d.components.foldl (fun ec p =>
      match mget n2s p.1 with
      | none => ec
      | some sym =>
          p.2.foldl (fun ec2 q =>
            match mget ec2 q.1 with
            | none => ec2
            | some compMap => mset ec2 q.1 (mset compMap sym q.2)) ec)
      ((jsSetOfList d.entities).map (fun id => (id, [])))).map Prod.fst)
      = jsSetOfList d.entities := by
    rw [ec_outer_keys n2s d.components ((jsSetOfList d.entities).map (fun id => (id, [])))]
    rw [List.map_map]
    exact (List.map_congr_left fun t ht => rfl).trans (List.map_id _)
  have hgi := grouping_fold_ids (d.components.foldl (fun ec p =>
    match mget n2s p.1 with
    | none => ec
    | some sym =>
        p.2.foldl (fun ec2 q =>
          match mget ec2 q.1 with
          | none => ec2
          | some compMap => mset ec2 q.1 (mset compMap sym q.2)) ec)
    ((jsSetOfList d.entities).map (fun id => (id, []))))
    ([], { s with
      allEntityIds := jsSetOfList d.entities
      archetypes := []
      entityArchetype := []
      queryCache := []
      queryCacheVersion := 0
      nextId := d.nextId })
    (by simp [allGroupIds])
    (by
      rw [show allGroupIds [] = [] from rfl, List.nil_append, heckeys]
      exact jsSetOfList_nodup d.entities)
  obtain ⟨hgk, hgnd, hgmem⟩ := hgi
  apply load_fold _ _ (hgs.2 |> fun hbo => hgs.1 hs0) hgnd
  intro id hid
  rcases hgmem id hid with hin | hin
  · exact absurd hin (List.not_mem_nil id)
  · rw [heckeys] at hin
    have hidlt : id < d.nextId := hwf1 id ((mem_jsSetOfList d.entities id).mp hin)
    have hea0 := hgs.2.2.2.2.2.2.2.2.2.2.2.2.2.2.2.1
    have hnid0 := hgs.2.1
    refine ⟨?_, ?_⟩
    · rw [hea0]
      rfl
    · rw [hnid0]
      exact hidlt

theorem inv_applyOp (s : EMState) (op : UserOp) (h : Inv s) (hwf : OpWF s op) :
    Inv (applyOp s op) := by
  cases op with
  | createOp => exact inv_createEntity s h
  | createWithOp args => exact inv_createEntityWith s args h
  | destroyOp id => exact inv_destroyEntity s id h
  | addCompOp id c d => exact inv_addComponent s id c d h hwf
  | removeCompOp id c => exact inv_removeComponent s id c h
  | setOp id sym f v => exact inv_setField s id sym f v h
  | onAddOp c cb => exact inv_onAdd s c cb h
  | onRemoveOp c cb => exact inv_onRemove s c cb h
  | flushHooksOp => exact inv_flushHooksRun s h
  | commitRemovalsOp => exact inv_commitRemovals s h
  | enableTrackingOp c => exact inv_enableTracking s c h
  | flushChangesOp => exact inv_flushChanges s h
  | flushSnapshotsOp => exact inv_flushSnapshots s h
  | queryOp inc exc => exact inv_getMatchingArchetypes s inc exc h
  | countOp inc exc => exact inv_getMatchingArchetypes s inc exc h
  | deserializeOp d n2s => exact inv_deserialize s d n2s h hwf.1 hwf.2

theorem computeMask_nextId (s : EMState) (types : List Sym) :
    (computeMask s types).2.nextId = s.nextId :=
  (bitsOnly_computeMask s types).1

theorem nextId_getMatchingArchetypes (s : EMState) (inc exc : List Sym) :
    (getMatchingArchetypes s inc exc).2.nextId = s.nextId := by
  unfold getMatchingArchetypes
  by_cases hexc : exc.length > 0
  · simp only [if_pos hexc]
    cases hc : mget (computeMask (computeMask s inc).2 exc).2.queryCache
        ((computeMask s inc).1, some (computeMask (computeMask s inc).2 exc).1) with
    | none =>
        simp only [hc]
        exact (computeMask_nextId _ _).trans (computeMask_nextId _ _)
    | some c =>
        simp only [hc]
        by_cases hv : c.1 = (computeMask (computeMask s inc).2 exc).2.queryCacheVersion
        · simp only [if_pos hv]
          exact (computeMask_nextId _ _).trans (computeMask_nextId _ _)
        · simp only [if_neg hv]
          exact (computeMask_nextId _ _).trans (computeMask_nextId _ _)
  · simp only [if_neg hexc]
    cases hc : mget (computeMask s inc).2.queryCache ((computeMask s inc).1, none) with
    | none =>
        simp only [hc]
        exact computeMask_nextId _ _
    | some c =>
        by_cases hv : c.1 = (computeMask s inc).2.queryCacheVersion
        · simp only [hc, if_pos hv]
          exact computeMask_nextId _ _
        · simp only [hc, if_neg hv]
          exact computeMask_nextId _ _

theorem nextId_addComponent (s : EMState) (id : Nat) (c : Sym) (d : ComponentData) :
    (addComponent s id c d).nextId = s.nextId := by
  unfold addComponent
  split
  · cases hm : mget s.entityArchetype id with
    | none => rfl
    | some ai =>
        dsimp only
        split
        · split <;> rfl
        · rfl
  · exact doAddComponent_nextId s id c d

theorem nextId_destroyEntity (s : EMState) (id : Nat) (h : Inv s) :
    (destroyEntity s id).nextId = s.nextId := by
  unfold destroyEntity
  split
  · rfl
  · exact doDestroyEntity_nextId s id h

theorem nextId_removeComponent (s : EMState) (e : Nat) (c : Sym) (h : Inv s) :
    (removeComponent s e c).nextId = s.nextId := by
  unfold removeComponent
  split
  · rfl
  · exact doRemoveComponent_nextId s e c h

theorem nextId_setField (s : EMState) (e : Nat) (sym : Sym) (f : String) (v : JVal) :
    (setField s e sym f v).nextId = s.nextId := by
  unfold setField
  cases mget s.entityArchetype e with
  | none => rfl
  | some ai =>
      dsimp only
      cases mget (getArch s ai).components sym with
      | none => rfl
      | some o => cases o <;> rfl

theorem nextId_flushHooksRun (s : EMState) : (flushHooksRun s).2.nextId = s.nextId := by
  unfold flushHooksRun
  cases s.hooks <;> rfl

theorem foldl_nextId_pres {α : Type} (step : EMState → α → EMState) (l : List α)
    (hstep : ∀ st x, (step st x).nextId = st.nextId) :
    ∀ st, (l.foldl step st).nextId = st.nextId := by
  induction l with
  | nil => intro st; rfl
  | cons x rest ih =>
      intro st
      rw [List.foldl_cons, ih, hstep]

theorem nextId_enableTracking (s : EMState) (c : Sym) :
    (enableTracking s c).nextId = s.nextId := by
  unfold enableTracking
  dsimp only
  refine (foldl_nextId_pres _ _ ?_ _).trans (getBit_nextId s c)
  intro st p
  dsimp only
  split <;> rfl

theorem nextId_flushSnapshots (s : EMState) : (flushSnapshots s).nextId = s.nextId := by
  unfold flushSnapshots
  refine foldl_nextId_pres _ _ ?_ s
  intro st ai
  rfl

theorem nextId_applyOp_mono (s : EMState) (op : UserOp) (h : Inv s)
    (hnd : ∀ d n2s, op ≠ UserOp.deserializeOp d n2s) :
    s.nextId ≤ (applyOp s op).nextId := by
  cases op with
  | createOp => exact Nat.le_succ _
  | createWithOp args =>
      dsimp only [applyOp]
      rw [(createEntityWith_nextId_ea s args).1]
      exact Nat.le_succ _
  | destroyOp id => exact le_of_eq (nextId_destroyEntity s id h).symm
  | addCompOp id c d => exact le_of_eq (nextId_addComponent s id c d).symm
  | removeCompOp id c => exact le_of_eq (nextId_removeComponent s id c h).symm
  | setOp id sym f v => exact le_of_eq (nextId_setField s id sym f v).symm
  | onAddOp c cb => exact Nat.le_refl _
  | onRemoveOp c cb => exact Nat.le_refl _
  | flushHooksOp => exact le_of_eq (nextId_flushHooksRun s).symm
  | commitRemovalsOp => exact Nat.le_refl _
  | enableTrackingOp c => exact le_of_eq (nextId_enableTracking s c).symm
  | flushChangesOp => exact Nat.le_refl _
  | flushSnapshotsOp => exact le_of_eq (nextId_flushSnapshots s).symm
  | queryOp inc exc => exact le_of_eq (nextId_getMatchingArchetypes s inc exc).symm
  | countOp inc exc => exact le_of_eq (nextId_getMatchingArchetypes s inc exc).symm
  | deserializeOp d n2s => exact absurd rfl (hnd d n2s)

theorem inv_ops_fold (s0 : EMState) (ops : List UserOp)
    (hwf : ∀ op ∈ ops, BodyOpWF s0 op) :
    ∀ st : EMState, Inv st → s0.nextId ≤ st.nextId →
      Inv (ops.foldl applyOp st) ∧ s0.nextId ≤ (ops.foldl applyOp st).nextId := by
  induction ops with
  | nil => intro st h hle; exact ⟨h, hle⟩
  | cons op rest ih =>
      intro st h hle
      rw [List.foldl_cons]
      have hwo := hwf op (List.mem_cons_self op rest)
      have hopwf : OpWF st op := by
        cases op with
        | addCompOp id c d => exact Nat.lt_of_lt_of_le hwo hle
        | deserializeOp d n2s => exact hwo.elim
        | createOp => exact trivial
        | createWithOp args => exact trivial
        | destroyOp id => exact trivial
        | removeCompOp id c => exact trivial
        | setOp id sym f v => exact trivial
        | onAddOp c cb => exact trivial
        | onRemoveOp c cb => exact trivial
        | flushHooksOp => exact trivial
        | commitRemovalsOp => exact trivial
        | enableTrackingOp c => exact trivial
        | flushChangesOp => exact trivial
        | flushSnapshotsOp => exact trivial
        | queryOp inc exc => exact trivial
        | countOp inc exc => exact trivial
      have hndes : ∀ d n2s, op ≠ UserOp.deserializeOp d n2s := by
        intro d n2s hEq
        subst hEq
        exact hwo
      exact ih (fun op' hop' => hwf op' (List.mem_cons_of_mem op hop'))
        (applyOp st op) (inv_applyOp st op h hopwf)
        (le_trans hle (nextId_applyOp_mono st op h hndes))

theorem inv_forEachBody (s : EMState) (inc exc : List Sym) (ops : List UserOp)
    (h : Inv s) (hwf : ∀ op ∈ ops, BodyOpWF s op) :
    Inv (forEachBody s inc exc ops) ∧ s.nextId ≤ (forEachBody s inc exc ops).nextId := by
  unfold forEachBody
  dsimp only
  have h1 : Inv { (getMatchingArchetypes s inc exc).2 with
      iterating := (getMatchingArchetypes s inc exc).2.iterating + 1 } :=
    inv_transfer (inv_getMatchingArchetypes s inc exc h) rfl rfl rfl rfl rfl rfl rfl
  have hn1 : s.nextId ≤ ({ (getMatchingArchetypes s inc exc).2 with
      iterating := (getMatchingArchetypes s inc exc).2.iterating + 1 } : EMState).nextId :=
    le_of_eq (nextId_getMatchingArchetypes s inc exc).symm
  have hfold : ∀ l : List Nat, ∀ st : EMState, Inv st → s.nextId ≤ st.nextId →
      Inv (l.foldl (fun st ai =>
        if (getArch st ai).count = 0 then st else ops.foldl applyOp st) st) ∧
      s.nextId ≤ (l.foldl (fun st ai =>
        if (getArch st ai).count = 0 then st else ops.foldl applyOp st) st).nextId := by
    intro l
    induction l with
    | nil => intro st hst hle; exact ⟨hst, hle⟩
    | cons ai rest ih =>
        intro st hst hle
        rw [List.foldl_cons]
        by_cases hc : (getArch st ai).count = 0
        · rw [if_pos hc]
          exact ih st hst hle
        · rw [if_neg hc]
          obtain ⟨ha, hb⟩ := inv_ops_fold s ops hwf st hst hle
          exact ih _ ha hb
  exact hfold _ _ h1 hn1

theorem inv_runForEach (s : EMState) (inc exc : List Sym) (ops : List UserOp)
    (h : Inv s) (hwf : ∀ op ∈ ops, BodyOpWF s op) : Inv (runForEach s inc exc ops) := by
  unfold runForEach
  dsimp only
  have hb := inv_forEachBody s inc exc ops h hwf
  have h3 : Inv { forEachBody s inc exc ops with
      iterating := (forEachBody s inc exc ops).iterating - 1 } :=
    inv_transfer hb.1 rfl rfl rfl rfl rfl rfl rfl
  split
  · exact (inv_flushDeferred _ h3).1
  · exact h3

theorem i1_of_inv {s : EMState} (h : Inv s) :
    ∀ ai ∈ s.archetypes.map Prod.snd, ∀ i, i < (getArch s ai).count →
      mget s.entityArchetype ((getArch s ai).entityIds.getD i 0) = some ai ∧
      mget (getArch s ai).entityToIndex ((getArch s ai).entityIds.getD i 0) = some i := by
  intro ai hai i hi
  obtain ⟨b1, b2, b3, b4, b5, b6⟩ := (h.2.2.2.2.1 ai hai).1
  exact ⟨b6 i hi, b3 i hi⟩

theorem inv_initState (schemas : List (Sym × List (String × FieldSpec))) :
    Inv (initState schemas) := by
  refine ⟨fun ai hai => ?_, fun p hp => absurd hp (List.not_mem_nil p), ?_, ?_,
          fun ai hai => ?_, fun p hp => absurd hp (List.not_mem_nil p), ?_,
          ⟨fun p hp => absurd hp (List.not_mem_nil p),
           fun p hp q hq heq => absurd hp (List.not_mem_nil p), ?_⟩,
          fun p hp => absurd hp (List.not_mem_nil p),
          fun dop hdop => absurd hdop (List.not_mem_nil dop)⟩
  · simp [initState] at hai
  · simp [initState]
  · simp [initState]
  · simp [initState] at hai
  · simp [initState]
  · simp [initState]

/-- C4 counterexample.  The claim asserts that after every public
operation completed at iteration depth 0, every table row satisfies
`directory[T.entityIds[i]] = T` and `T.entityToIndex[T.entityIds[i]] = i`.
It fails without an input-wellformedness proviso: `deserialize` accepts a
world whose stored `nextId` (7) collides with a loaded entity id (7), and
the next `createEntityWith` — both calls at depth 0 — re-issues id 7,
seating a second row for it in the same table.  In `c4State` table 0 has
two rows, row 0 holds id 7, but the row map sends id 7 to row 1, so the
round-trip at row 0 gives 1 ≠ 0. -/
theorem c4_row_directory_counterexample :
    (getArch c4State 0).count = 2 ∧
    (getArch c4State 0).entityIds.getD 0 0 = 7 ∧
    mget (getArch c4State 0).entityToIndex 7 = some 1 ∧
    mget c4State.entityArchetype 7 = some 0 ∧
    c4State.iterating = 0 :=
  ⟨rfl, rfl, rfl, rfl, rfl⟩

/-- C4 (amended): provided the inputs are well formed — `addComponent`
targets an already-issued id, and `deserialize` is fed a world whose
entity ids are all below its stored `nextId` (with any retained deferred
adds also below it) — the structural invariant `Inv` is preserved by
every public operation, and in every invariant state every table row
round-trips: the directory maps `T.entityIds[i]` back to `T` and the row
map back to `i`; likewise `forEach` with a well-formed callback body
preserves the invariant (including the deferred flush at depth 0). -/
theorem c4_row_directory_amended (s : EMState) (op : UserOp)
    (hInv : Inv s) (hwf : OpWF s op) :
    Inv (applyOp s op) ∧
    (∀ ai ∈ (applyOp s op).archetypes.map Prod.snd,
      ∀ i, i < (getArch (applyOp s op) ai).count →
        mget (applyOp s op).entityArchetype
          ((getArch (applyOp s op) ai).entityIds.getD i 0) = some ai ∧
        mget (getArch (applyOp s op) ai).entityToIndex
          ((getArch (applyOp s op) ai).entityIds.getD i 0) = some i) ∧
    (∀ inc exc ops, (∀ o ∈ ops, BodyOpWF s o) → Inv (runForEach s inc exc ops)) := by
  have h1 := inv_applyOp s op hInv hwf
  exact ⟨h1, i1_of_inv h1, fun inc exc ops hops => inv_runForEach s inc exc ops hInv hops⟩

theorem c4_row_directory_amended_witness :
    Inv (applyOp (initState []) UserOp.createOp) ∧
    (∀ ai ∈ (applyOp (initState []) UserOp.createOp).archetypes.map Prod.snd,
      ∀ i, i < (getArch (applyOp (initState []) UserOp.createOp) ai).count →
        mget (applyOp (initState []) UserOp.createOp).entityArchetype
          ((getArch (applyOp (initState []) UserOp.createOp) ai).entityIds.getD i 0)
          = some ai ∧
        mget (getArch (applyOp (initState []) UserOp.createOp) ai).entityToIndex
          ((getArch (applyOp (initState []) UserOp.createOp) ai).entityIds.getD i 0)
          = some i) ∧
    (∀ inc exc ops, (∀ o ∈ ops, BodyOpWF (initState []) o) →
      Inv (runForEach (initState []) inc exc ops)) :=
  c4_row_directory_amended (initState []) UserOp.createOp (inv_initState []) True.intro

/-- C3 counterexample.  The claim asserts that after a remove whose
component had a remove-observer, and before `commitRemovals`, BOTH
`getComponent(id, C)` and `get(id, f)` return the pre-removal data, even
when the entity still holds other components in a reduced archetype.  In
`c3State` entity 1 lives in the reduced `{1}` archetype after
`removeComponent(1, 0)`: the tombstone holds the pre-removal record
`hp = 42` and `get` returns it, but `getComponent(1, 0)` returns absent —
the entity has a placement and a row index, so the code returns
`readComponentData` (which is `none` for a component the reduced table
lacks) and never reaches the tombstone fallback. -/
theorem c3_tombstone_counterexample :
    hasComponent c3State 1 0 = false ∧
    removedRecordLookup c3State 1 0 = some [("hp", JVal.num 42)] ∧
    getComponent c3State 1 0 = none ∧
    getField c3State 1 0 "hp" = JVal.num 42 ∧
    getField (commitRemovals c3State) 1 0 "hp" = JVal.undef :=
  ⟨rfl, rfl, rfl, rfl, rfl⟩

-- ══ Field-preservation lemmas for the mutator pipeline ══

theorem trackDestroyed_removedData (s : EMState) (key : List Nat) (id : Nat) :
    (trackDestroyed s key id).removedData = s.removedData := by
  unfold trackDestroyed
  cases s.destroyedSet <;> cases s.trackFilter <;> (try dsimp only) <;> (try split) <;> rfl

set_option maxHeartbeats 2000000 in
theorem removeFromArchetype_removedData (s : EMState) (ai e : Nat) :
    (removeFromArchetype s ai e).removedData = s.removedData := rfl

theorem addToArchetype_removedData (s : EMState) (ai e : Nat)
    (cmap : List (Sym × ComponentData)) :
    (addToArchetype s ai e cmap).removedData = s.removedData := rfl

theorem getOrCreateArchetype_removedData (s : EMState) (types : List Sym) :
    (getOrCreateArchetype s types).2.removedData = s.removedData :=
  (loadKeeps_getOrCreateArchetype s types).1.2.1

theorem getOrCreateArchetype_qc (s : EMState) (types : List Sym) :
    (getOrCreateArchetype s types).2.queryCache = s.queryCache := by
  unfold getOrCreateArchetype
  cases hm : mget (computeMask s types).2.archetypes (computeMask s types).1 with
  | some ai =>
      simp only [hm]
      exact (bitsOnly_computeMask s types).2.2.2.2.2.2.2.2.2.2.2.2.2.2.2.2
  | none =>
      simp only [hm]
      exact (bitsOnly_computeMask s types).2.2.2.2.2.2.2.2.2.2.2.2.2.2.2.2

theorem addToArchetype_qc (s : EMState) (ai e : Nat)
    (cmap : List (Sym × ComponentData)) :
    (addToArchetype s ai e cmap).queryCache = s.queryCache := rfl

-- ══ Swap-remove and row-insert: shape of the touched table ══

theorem removeFromArchetype_ckeys (s : EMState) (ai e aj : Nat) :
    (getArch (removeFromArchetype s ai e) aj).components.map Prod.fst
      = (getArch s aj).components.map Prod.fst := by
  unfold removeFromArchetype setArch getArch
  dsimp only
  by_cases haj : aj = ai
  · subst haj
    rcases Nat.lt_or_ge aj s.archs.length with hlt | hge
    · rw [getD_set_self _ _ _ _ hlt]
      dsimp only
      split
      · dsimp only
        rw [List.map_map]
        exact List.map_congr_left fun p hp => rfl
      · rfl
    · rw [List.getD_eq_default _ _ (by rw [List.length_set]; exact hge),
          List.getD_eq_default _ _ hge]
  · rw [getD_set_ne _ _ _ _ _ (fun hc => haj hc.symm)]

theorem addToArchetype_facts (s : EMState) (ai e : Nat)
    (cmap : List (Sym × ComponentData)) (hai : ai < s.archs.length) :
    mget (getArch (addToArchetype s ai e cmap) ai).entityToIndex e
      = some (getArch s ai).count ∧
    (getArch (addToArchetype s ai e cmap) ai).components.map Prod.fst
      = (getArch s ai).components.map Prod.fst := by
  have hlen1 : ai < (s.archs.set ai (ensureCapacity (s.archs.getD ai default))).length := by
    rw [List.length_set]
    exact hai
  unfold addToArchetype setArch getArch
  dsimp only
  constructor
  · rw [getD_set_self _ _ _ _ hlen1]
    dsimp only
    rw [mget_mset_self, getD_set_self _ _ _ _ hai, ensureCapacity_count]
  · rw [getD_set_self _ _ _ _ hlen1]
    dsimp only
    refine (foldWriteCols_keys _ _ _ _).trans ?_
    rw [getD_set_self _ _ _ _ hai, ensureCapacity_ckeys]

-- ══ Read-path lemmas for getComponent / get ══════════════

theorem getComponent_no_placement (s : EMState) (e : Nat) (c : Sym)
    (hd : mget s.entityArchetype e = none) :
    getComponent s e c = removedRecordLookup s e c := by
  unfold getComponent
  rw [hd]

theorem getField_no_placement (s : EMState) (e : Nat) (c : Sym) (f : String)
    (hd : mget s.entityArchetype e = none) :
    getField s e c f = removedFieldLookup s e c f := by
  unfold getField
  rw [hd]

theorem getField_missing_store (s : EMState) (e : Nat) (c : Sym) (f : String) (ti : Nat)
    (hd : mget s.entityArchetype e = some ti)
    (hnone : mget (getArch s ti).components c = none) :
    getField s e c f = removedFieldLookup s e c f := by
  unfold getField
  rw [hd]
  dsimp only
  rw [hnone]

theorem getComponent_absent (s : EMState) (e : Nat) (c : Sym) (ti idx : Nat)
    (hd : mget s.entityArchetype e = some ti)
    (hidx : mget (getArch s ti).entityToIndex e = some idx)
    (hnone : mget (getArch s ti).components c = none) :
    getComponent s e c = none := by
  unfold getComponent
  rw [hd]
  dsimp only
  rw [hidx]
  dsimp only
  unfold readComponentData
  rw [hnone]

theorem removedRecordLookup_of (s : EMState) (e : Nat) (c : Sym)
    (m : List (Sym × Record)) (h1 : mget s.removedData e = some m) :
    removedRecordLookup s e c = mget m c := by
  unfold removedRecordLookup
  rw [h1]

theorem removedFieldLookup_of (s : EMState) (e : Nat) (c : Sym) (f : String)
    (m : List (Sym × Record)) (r : Record)
    (h1 : mget s.removedData e = some m) (h2 : mget m c = some r) :
    removedFieldLookup s e c f = (mget r f).getD JVal.undef := by
  unfold removedFieldLookup
  rw [h1]
  dsimp only
  rw [h2]

theorem removedRecordLookup_commit (s : EMState) (e : Nat) (c : Sym) :
    removedRecordLookup (commitRemovals s) e c = none := rfl

theorem removedFieldLookup_commit (s : EMState) (e : Nat) (c : Sym) (f : String) :
    removedFieldLookup (commitRemovals s) e c f = JVal.undef := rfl

theorem removeComponent_eq_do (s : EMState) (e : Nat) (c : Sym)
    (hit : s.iterating = 0) :
    removeComponent s e c = doRemoveComponent s e c := by
  unfold removeComponent
  rw [hit, if_neg (Nat.lt_irrefl 0)]

theorem destroyEntity_eq_do (s : EMState) (id : Nat) (hit : s.iterating = 0) :
    destroyEntity s id = doDestroyEntity s id := by
  unfold destroyEntity
  rw [hit, if_neg (Nat.lt_irrefl 0)]

-- ══ Tombstone lookup inside a filterMap snapshot ═════════

theorem mget_filterMap_self {κ β : Type} [DecidableEq κ] (f : κ → Option (κ × β))
    (ts : List κ) (c : κ) (v : β) (hnd : ts.Nodup) (hmem : c ∈ ts)
    (hfc : f c = some (c, v)) (hkey : ∀ t p, f t = some p → p.1 = t) :
    mget (ts.filterMap f) c = some v := by
  induction ts with
  | nil => cases hmem
  | cons t rest ih =>
      obtain ⟨hnd1, hnd2⟩ := List.nodup_cons.mp hnd
      rw [List.filterMap_cons]
      rcases List.mem_cons.mp hmem with heq | hmem2
      · subst heq
        rw [hfc]
        dsimp only
        rw [mget_cons, if_pos rfl]
      · cases hft : f t with
        | none =>
            exact ih hnd2 hmem2
        | some p =>
            dsimp only
            rw [mget_cons]
            have hp1 : p.1 = t := hkey t p hft
            have hne : ¬p.1 = c := by
              rw [hp1]
              intro hc
              rw [hc] at hnd1
              exact hnd1 hmem2
            rw [if_neg hne]
            exact ih hnd2 hmem2

-- ══ What doRemoveComponent does to the observable state ══

theorem remove_hook_section_facts (s : EMState) (e : Nat) (c : Sym) (ai : Nat) (hk : Hooks)
    (store : SoAStore) (h : Inv s) (hh : s.hooks = some hk)
    (hobs : (mget hk.removeCbs c).isSome = true)
    (hcs : mget (getArch s ai).components c = some (some store)) :
    Inv (match s.hooks with
      | none => s
      | some hh =>
          let h1 :=
            match mget hh.pendingRemove c with
            | some pending =>
                { hh with pendingRemove := mset hh.pendingRemove c (pending ++ [e]) }
            | none => hh
          let sh := { s with hooks := some h1 }
          if (mget h1.removeCbs c).isSome then
            match mget (getArch s ai).components c with
            | some (some store) =>
                let idx := (mget (getArch s ai).entityToIndex e).getD 0
                let cur := (mget sh.removedData e).getD []
                { sh with
                  removedData := mset sh.removedData e
                    (mset cur c (soaRead store idx)) }
            | _ => sh
          else sh) ∧
    (match s.hooks with
      | none => s
      | some hh =>
          let h1 :=
            match mget hh.pendingRemove c with
            | some pending =>
                { hh with pendingRemove := mset hh.pendingRemove c (pending ++ [e]) }
            | none => hh
          let sh := { s with hooks := some h1 }
          if (mget h1.removeCbs c).isSome then
            match mget (getArch s ai).components c with
            | some (some store) =>
                let idx := (mget (getArch s ai).entityToIndex e).getD 0
                let cur := (mget sh.removedData e).getD []
                { sh with
                  removedData := mset sh.removedData e
                    (mset cur c (soaRead store idx)) }
            | _ => sh
          else sh).removedData
      = mset s.removedData e (mset ((mget s.removedData e).getD []) c
          (soaRead store ((mget (getArch s ai).entityToIndex e).getD 0))) := by
  rw [hh]
  dsimp only
  cases mget hk.pendingRemove c with
  | some pending =>
      dsimp only
      rw [if_pos hobs, hcs]
      exact ⟨inv_transfer h rfl rfl rfl rfl rfl rfl rfl, rfl⟩
  | none =>
      dsimp only
      rw [if_pos hobs, hcs]
      exact ⟨inv_transfer h rfl rfl rfl rfl rfl rfl rfl, rfl⟩

theorem remove_finish_facts (s1 : EMState) (e ai : Nat) (c : Sym) (key : List Nat)
    (nts : List Sym) (cmap : List (Sym × ComponentData)) (P : Prop) [Decidable P]
    (h1 : Inv s1) (hc : c ∉ nts) :
    (if P then removeFromArchetype (trackDestroyed s1 key e) ai e
      else addToArchetype
        (removeFromArchetype (getOrCreateArchetype (trackDestroyed s1 key e) nts).2 ai e)
        (getOrCreateArchetype (trackDestroyed s1 key e) nts).1 e cmap).removedData
      = s1.removedData ∧
    (P → mget (if P then removeFromArchetype (trackDestroyed s1 key e) ai e
      else addToArchetype
        (removeFromArchetype (getOrCreateArchetype (trackDestroyed s1 key e) nts).2 ai e)
        (getOrCreateArchetype (trackDestroyed s1 key e) nts).1 e cmap).entityArchetype e
      = none) ∧
    (¬P → ∃ ti,
      mget (if P then removeFromArchetype (trackDestroyed s1 key e) ai e
        else addToArchetype
          (removeFromArchetype (getOrCreateArchetype (trackDestroyed s1 key e) nts).2 ai e)
          (getOrCreateArchetype (trackDestroyed s1 key e) nts).1 e cmap).entityArchetype e
        = some ti ∧
      (mget (getArch (if P then removeFromArchetype (trackDestroyed s1 key e) ai e
        else addToArchetype
          (removeFromArchetype (getOrCreateArchetype (trackDestroyed s1 key e) nts).2 ai e)
          (getOrCreateArchetype (trackDestroyed s1 key e) nts).1 e cmap)
        ti).entityToIndex e).isSome = true ∧
      mget (getArch (if P then removeFromArchetype (trackDestroyed s1 key e) ai e
        else addToArchetype
          (removeFromArchetype (getOrCreateArchetype (trackDestroyed s1 key e) nts).2 ai e)
          (getOrCreateArchetype (trackDestroyed s1 key e) nts).1 e cmap)
        ti).components c = none) := by
  by_cases hp : P
  · simp only [if_pos hp]
    refine ⟨?_, fun _ => ?_, fun hnp => absurd hp hnp⟩
    · rw [removeFromArchetype_removedData, trackDestroyed_removedData]
    · rw [removeFromArchetype_ea]
      exact mget_mdel_self _ _
  · simp only [if_neg hp]
    have h2 : Inv (trackDestroyed s1 key e) := inv_trackDestroyed s1 key e h1
    obtain ⟨hio, hmemo, hstab, hlen, htyp⟩ :=
      getOrCreateArchetype_spec (trackDestroyed s1 key e) nts h2
    have hlt3 : (getOrCreateArchetype (trackDestroyed s1 key e) nts).1
        < (removeFromArchetype (getOrCreateArchetype (trackDestroyed s1 key e) nts).2
            ai e).archs.length := by
      rw [removeFromArchetype_archs_length]
      exact hio.1 _ hmemo
    have hfacts := addToArchetype_facts
      (removeFromArchetype (getOrCreateArchetype (trackDestroyed s1 key e) nts).2 ai e)
      (getOrCreateArchetype (trackDestroyed s1 key e) nts).1 e cmap hlt3
    refine ⟨?_, fun hp2 => absurd hp2 hp,
      fun _ => ⟨(getOrCreateArchetype (trackDestroyed s1 key e) nts).1, ?_, ?_, ?_⟩⟩
    · rw [addToArchetype_removedData, removeFromArchetype_removedData,
        getOrCreateArchetype_removedData, trackDestroyed_removedData]
    · rw [addToArchetype_ea]
      exact mget_mset_self _ _ _
    · rw [hfacts.1]
      rfl
    · refine (mget_eq_none_iff _ _).mpr ?_
      intro hcin
      rw [hfacts.2, removeFromArchetype_ckeys] at hcin
      have hE1go : (getArch (getOrCreateArchetype (trackDestroyed s1 key e) nts).2
            (getOrCreateArchetype (trackDestroyed s1 key e) nts).1).components.map Prod.fst
          = (getArch (getOrCreateArchetype (trackDestroyed s1 key e) nts).2
            (getOrCreateArchetype (trackDestroyed s1 key e) nts).1).types :=
        ((hio.2.2.2.2.1) _ hmemo).2.1
      rw [hE1go] at hcin
      exact hc ((htyp c).mp hcin)

theorem doRemove_facts (s : EMState) (e : Nat) (c : Sym) (ai : Nat) (hk : Hooks)
    (store : SoAStore)
    (hInv : Inv s) (hh : s.hooks = some hk)
    (hobs : (mget hk.removeCbs c).isSome = true)
    (hd : mget s.entityArchetype e = some ai)
    (hcs : mget (getArch s ai).components c = some (some store)) :
    (doRemoveComponent s e c).removedData
      = mset s.removedData e (mset ((mget s.removedData e).getD []) c
          (soaRead store ((mget (getArch s ai).entityToIndex e).getD 0))) ∧
    ((getArch s ai).types.length = 1 →
      mget (doRemoveComponent s e c).entityArchetype e = none) ∧
    (¬(getArch s ai).types.length = 1 → ∃ ti,
      mget (doRemoveComponent s e c).entityArchetype e = some ti ∧
      (mget (getArch (doRemoveComponent s e c) ti).entityToIndex e).isSome = true ∧
      mget (getArch (doRemoveComponent s e c) ti).components c = none) := by
  have hpmem : (e, ai) ∈ s.entityArchetype := mem_of_mget_eq_some hd
  have hlive : ai ∈ s.archetypes.map Prod.snd := (hInv.2.2.2.2.2.1 _ hpmem).1
  have hE1 : (getArch s ai).components.map Prod.fst = (getArch s ai).types :=
    ((hInv.2.2.2.2.1) ai hlive).2.1
  have hckey : c ∈ (getArch s ai).components.map Prod.fst :=
    (mget_isSome_iff _ _).mp (by rw [hcs]; rfl)
  have hctin : c ∈ (getArch s ai).types := by
    rw [← hE1]
    exact hckey
  have hcnts : c ∉ (getArch s ai).types.filter (fun t => decide (t ≠ c)) := by
    intro hin
    exact (of_decide_eq_true (List.mem_filter.mp hin).2) rfl
  obtain ⟨hhI, hhrd⟩ := remove_hook_section_facts s e c ai hk store hInv hh hobs hcs
  unfold doRemoveComponent
  rw [hd]
  dsimp only
  rw [if_neg (not_not_intro hctin)]
  refine ⟨?_, ?_, ?_⟩
  · exact (remove_finish_facts _ e ai c _ _ _ _ hhI hcnts).1.trans hhrd
  · exact (remove_finish_facts _ e ai c _ _ _ _ hhI hcnts).2.1
  · exact (remove_finish_facts _ e ai c _ _ _ _ hhI hcnts).2.2

-- ══ What doDestroyEntity does to the observable state ════

theorem doDestroy_core (s : EMState) (e : Nat) (c : Sym) (ai : Nat) (hk : Hooks)
    (store : SoAStore)
    (hInv : Inv s) (hh : s.hooks = some hk)
    (hobs : (mget hk.removeCbs c).isSome = true)
    (hd : mget s.entityArchetype e = some ai)
    (hcs : mget (getArch s ai).components c = some (some store)) :
    mget (doDestroyEntity s e).entityArchetype e = none ∧
    mget (doDestroyEntity s e).removedData e
      = some ((getArch s ai).types.filterMap (fun t =>
          if (mget hk.removeCbs t).isSome then
            match mget (getArch s ai).components t with
            | some (some st) =>
                some (t, soaRead st ((mget (getArch s ai).entityToIndex e).getD 0))
            | _ => none
          else none)) ∧
    mget ((getArch s ai).types.filterMap (fun t =>
        if (mget hk.removeCbs t).isSome then
          match mget (getArch s ai).components t with
          | some (some st) =>
              some (t, soaRead st ((mget (getArch s ai).entityToIndex e).getD 0))
          | _ => none
        else none)) c
      = some (soaRead store ((mget (getArch s ai).entityToIndex e).getD 0)) := by
  have hpmem : (e, ai) ∈ s.entityArchetype := mem_of_mget_eq_some hd
  have hlive : ai ∈ s.archetypes.map Prod.snd := (hInv.2.2.2.2.2.1 _ hpmem).1
  have hE1 : (getArch s ai).components.map Prod.fst = (getArch s ai).types :=
    ((hInv.2.2.2.2.1) ai hlive).2.1
  have hE2 : (getArch s ai).types.Nodup := ((hInv.2.2.2.2.1) ai hlive).2.2.1
  have hckey : c ∈ (getArch s ai).components.map Prod.fst :=
    (mget_isSome_iff _ _).mp (by rw [hcs]; rfl)
  have hctin : c ∈ (getArch s ai).types := by
    rw [← hE1]
    exact hckey
  have hcbmem : c ∈ hk.removeCbs.map Prod.fst := (mget_isSome_iff _ _).mp hobs
  have hlenpos : 0 < hk.removeCbs.length := by
    obtain ⟨p, hp, hpe⟩ := List.mem_map.mp hcbmem
    exact List.length_pos.mpr (List.ne_nil_of_mem hp)
  have hfc : (fun t =>
      if (mget hk.removeCbs t).isSome then
        match mget (getArch s ai).components t with
        | some (some st) =>
            some (t, soaRead st ((mget (getArch s ai).entityToIndex e).getD 0))
        | _ => none
      else none) c
      = some (c, soaRead store ((mget (getArch s ai).entityToIndex e).getD 0)) := by
    dsimp only
    rw [if_pos hobs, hcs]
  have hkeyP : ∀ t p, (fun t =>
      if (mget hk.removeCbs t).isSome then
        match mget (getArch s ai).components t with
        | some (some st) =>
            some (t, soaRead st ((mget (getArch s ai).entityToIndex e).getD 0))
        | _ => none
      else none) t = some p → p.1 = t := by
    intro t p hft
    dsimp only at hft
    split at hft
    · cases hmc : mget (getArch s ai).components t with
      | none =>
          rw [hmc] at hft
          cases hft
      | some o =>
          cases o with
          | none =>
              rw [hmc] at hft
              cases hft
          | some st =>
              rw [hmc] at hft
              injection hft with h2
              rw [← h2]
    · cases hft
  have hsnapc := mget_filterMap_self _ (getArch s ai).types c _ hE2 hctin hfc hkeyP
  have hsnapMem : (c, soaRead store ((mget (getArch s ai).entityToIndex e).getD 0))
      ∈ (getArch s ai).types.filterMap (fun t =>
        if (mget hk.removeCbs t).isSome then
          match mget (getArch s ai).components t with
          | some (some st) =>
              some (t, soaRead st ((mget (getArch s ai).entityToIndex e).getD 0))
          | _ => none
        else none) :=
    List.mem_filterMap.mpr ⟨c, hctin, hfc⟩
  have hsnapPos : 0 < ((getArch s ai).types.filterMap (fun t =>
      if (mget hk.removeCbs t).isSome then
        match mget (getArch s ai).components t with
        | some (some st) =>
            some (t, soaRead st ((mget (getArch s ai).entityToIndex e).getD 0))
        | _ => none
      else none)).length :=
    List.length_pos.mpr (List.ne_nil_of_mem hsnapMem)
  refine ⟨?_, ?_, hsnapc⟩
  · unfold doDestroyEntity
    rw [hd]
    dsimp only
    rw [hh]
    dsimp only
    rw [if_pos hlenpos, if_pos hsnapPos]
    rw [removeFromArchetype_ea]
    exact mget_mdel_self _ _
  · unfold doDestroyEntity
    rw [hd]
    dsimp only
    rw [hh]
    dsimp only
    rw [if_pos hlenpos, if_pos hsnapPos]
    rw [removeFromArchetype_removedData, trackDestroyed_removedData]
    exact mget_mset_self _ _ _


/-- C3 (amended): with a remove-observer registered on `c` and the
entity holding `c` in a live store, `removeComponent` at depth 0
snapshots the pre-removal row into the tombstone map: afterwards `get`
returns the pre-removal field value for every field, and `getComponent`
returns the full pre-removal record exactly when `c` was the entity's
only component (the placement is deleted and the tombstone fallback is
reached) but absent when other components remain (the reduced placement
has a live row whose missing store short-circuits the fallback).
`destroyEntity` at depth 0 also snapshots and deletes the placement, so
both readers then serve the pre-removal data from the tombstone; in
general, whenever an entity has no placement both readers consult the
tombstone, and `get` falls back to it whenever the placement's table
lacks the component's store.  After `commitRemovals` all these reads
return absent/undefined. -/
theorem c3_removed_reads_amended (s : EMState) (e : Nat) (c : Sym) (ai : Nat)
    (hk : Hooks) (store : SoAStore)
    (hInv : Inv s) (hit : s.iterating = 0) (hh : s.hooks = some hk)
    (hobs : (mget hk.removeCbs c).isSome = true)
    (hd : mget s.entityArchetype e = some ai)
    (hcs : mget (getArch s ai).components c = some (some store)) :
    removedRecordLookup (removeComponent s e c) e c
      = some (soaRead store ((mget (getArch s ai).entityToIndex e).getD 0)) ∧
    (∀ f, getField (removeComponent s e c) e c f
      = (mget (soaRead store ((mget (getArch s ai).entityToIndex e).getD 0)) f).getD
          JVal.undef) ∧
    ((getArch s ai).types.length = 1 →
      getComponent (removeComponent s e c) e c
        = some (soaRead store ((mget (getArch s ai).entityToIndex e).getD 0))) ∧
    (¬(getArch s ai).types.length = 1 →
      getComponent (removeComponent s e c) e c = none) ∧
    (∀ f, getField (commitRemovals (removeComponent s e c)) e c f = JVal.undef) ∧
    getComponent (commitRemovals (removeComponent s e c)) e c = none ∧
    getComponent (destroyEntity s e) e c
      = some (soaRead store ((mget (getArch s ai).entityToIndex e).getD 0)) ∧
    (∀ f, getField (destroyEntity s e) e c f
      = (mget (soaRead store ((mget (getArch s ai).entityToIndex e).getD 0)) f).getD
          JVal.undef) ∧
    getComponent (commitRemovals (destroyEntity s e)) e c = none ∧
    (∀ f, getField (commitRemovals (destroyEntity s e)) e c f = JVal.undef) ∧
    (∀ s2 : EMState, ∀ f, mget s2.entityArchetype e = none →
      getComponent s2 e c = removedRecordLookup s2 e c ∧
      getField s2 e c f = removedFieldLookup s2 e c f) ∧
    (∀ s2 : EMState, ∀ ti f, mget s2.entityArchetype e = some ti →
      mget (getArch s2 ti).components c = none →
      getField s2 e c f = removedFieldLookup s2 e c f) := by
  have hR := doRemove_facts s e c ai hk store hInv hh hobs hd hcs
  have hD := doDestroy_core s e c ai hk store hInv hh hobs hd hcs
  rw [removeComponent_eq_do s e c hit, destroyEntity_eq_do s e hit]
  have hrde : mget (doRemoveComponent s e c).removedData e
      = some (mset ((mget s.removedData e).getD []) c
          (soaRead store ((mget (getArch s ai).entityToIndex e).getD 0))) := by
    rw [hR.1]
    exact mget_mset_self _ _ _
  have hrdc : mget (mset ((mget s.removedData e).getD []) c
        (soaRead store ((mget (getArch s ai).entityToIndex e).getD 0))) c
      = some (soaRead store ((mget (getArch s ai).entityToIndex e).getD 0)) :=
    mget_mset_self _ _ _
  refine ⟨?_, ?_, ?_, ?_, ?_, ?_, ?_, ?_, ?_, ?_, ?_, ?_⟩
  · exact (removedRecordLookup_of _ _ _ _ hrde).trans hrdc
  · intro f
    by_cases hlen : (getArch s ai).types.length = 1
    · rw [getField_no_placement _ _ _ _ (hR.2.1 hlen)]
      exact removedFieldLookup_of _ _ _ _ _ _ hrde hrdc
    · obtain ⟨ti, g1, g2, g3⟩ := hR.2.2 hlen
      rw [getField_missing_store _ _ _ _ _ g1 g3]
      exact removedFieldLookup_of _ _ _ _ _ _ hrde hrdc
  · intro hlen
    rw [getComponent_no_placement _ _ _ (hR.2.1 hlen)]
    exact (removedRecordLookup_of _ _ _ _ hrde).trans hrdc
  · intro hlen
    obtain ⟨ti, g1, g2, g3⟩ := hR.2.2 hlen
    obtain ⟨idx, hidx⟩ := Option.isSome_iff_exists.mp g2
    exact getComponent_absent _ _ _ _ _ g1 hidx g3
  · intro f
    by_cases hlen : (getArch s ai).types.length = 1
    · rw [getField_no_placement (commitRemovals (doRemoveComponent s e c)) e c f
        (hR.2.1 hlen)]
      exact removedFieldLookup_commit _ _ _ _
    · obtain ⟨ti, g1, g2, g3⟩ := hR.2.2 hlen
      rw [getField_missing_store (commitRemovals (doRemoveComponent s e c)) e c f ti g1 g3]
      exact removedFieldLookup_commit _ _ _ _
  · by_cases hlen : (getArch s ai).types.length = 1
    · rw [getComponent_no_placement (commitRemovals (doRemoveComponent s e c)) e c
        (hR.2.1 hlen)]
      exact removedRecordLookup_commit _ _ _
    · obtain ⟨ti, g1, g2, g3⟩ := hR.2.2 hlen
      obtain ⟨idx, hidx⟩ := Option.isSome_iff_exists.mp g2
      exact getComponent_absent (commitRemovals (doRemoveComponent s e c)) e c ti idx
        g1 hidx g3
  · rw [getComponent_no_placement _ _ _ hD.1]
    exact (removedRecordLookup_of _ _ _ _ hD.2.1).trans hD.2.2
  · intro f
    rw [getField_no_placement _ _ _ _ hD.1]
    exact removedFieldLookup_of _ _ _ _ _ _ hD.2.1 hD.2.2
  · rw [getComponent_no_placement (commitRemovals (doDestroyEntity s e)) e c hD.1]
    exact removedRecordLookup_commit _ _ _
  · intro f
    rw [getField_no_placement (commitRemovals (doDestroyEntity s e)) e c f hD.1]
    exact removedFieldLookup_commit _ _ _ _
  · intro s2 f h0
    exact ⟨getComponent_no_placement s2 e c h0, getField_no_placement s2 e c f h0⟩
  · intro s2 ti f h1 h2
    exact getField_missing_store s2 e c f ti h1 h2

theorem c3_removed_reads_amended_witness :
    (removedRecordLookup (removeComponent c3Pre 1 0) 1 0 = some [("hp", JVal.num 42)] ∧
     getField (removeComponent c3Pre 1 0) 1 0 "hp" = JVal.num 42 ∧
     getComponent (removeComponent c3Pre 1 0) 1 0 = none ∧
     getField (commitRemovals (removeComponent c3Pre 1 0)) 1 0 "hp" = JVal.undef ∧
     getComponent (destroyEntity c3Pre 1) 1 0 = some [("hp", JVal.num 42)] ∧
     getField (destroyEntity c3Pre 1) 1 0 "hp" = JVal.num 42 ∧
     getComponent (commitRemovals (destroyEntity c3Pre 1)) 1 0 = none) ∧
    (removedRecordLookup (removeComponent c3Pre1 1 0) 1 0 = some [("hp", JVal.num 7)] ∧
     getComponent (removeComponent c3Pre1 1 0) 1 0 = some [("hp", JVal.num 7)] ∧
     getField (removeComponent c3Pre1 1 0) 1 0 "hp" = JVal.num 7) := by
  have h := c3_removed_reads_amended c3Pre 1 0 0 _ _
    (inv_createEntityWith _ _ (inv_onRemove _ 0 9 (inv_initState _)))
    rfl rfl rfl rfl rfl
  have h2 := c3_removed_reads_amended c3Pre1 1 0 0 _ _
    (inv_createEntityWith _ _ (inv_onRemove _ 0 9 (inv_initState _)))
    rfl rfl rfl rfl rfl
  exact ⟨⟨h.1, h.2.1 "hp", h.2.2.2.1 (by decide), h.2.2.2.2.1 "hp",
      h.2.2.2.2.2.2.1, h.2.2.2.2.2.2.2.1 "hp", h.2.2.2.2.2.2.2.2.1⟩,
    ⟨h2.1, h2.2.2.1 (by decide), h2.2.1 "hp"⟩⟩


-- ══ The loading phase of deserialize: positive facts ═════

theorem deserialize_eq (s : EMState) (d : SerializedData) (n2s : List (String × Sym)) :
    deserialize s d n2s
      = ((entityComponentsOf d n2s).foldl groupStep ([], clearedState s d)).1.foldl
          loadGroup
          ((entityComponentsOf d n2s).foldl groupStep ([], clearedState s d)).2 := rfl

theorem entityComponentsOf_keys (d : SerializedData) (n2s : List (String × Sym)) :
    (entityComponentsOf d n2s).map Prod.fst = jsSetOfList d.entities := by
  unfold entityComponentsOf
  rw [ec_outer_keys n2s d.components ((jsSetOfList d.entities).map (fun id => (id, [])))]
  rw [List.map_map]
  exact (List.map_congr_left fun t ht => rfl).trans (List.map_id _)

theorem loadGroup_inner_qc (ai : Nat) (entries : List (Nat × List (Sym × ComponentData))) :
    ∀ st : EMState,
      (entries.foldl (fun st2 e => addToArchetype st2 ai e.1 e.2) st).queryCache
        = st.queryCache := by
  induction entries with
  | nil => intro st; rfl
  | cons e rest ih =>
      intro st
      rw [List.foldl_cons, ih, addToArchetype_qc]

theorem load_fold_qc (groups : List (List Nat × List (Nat × List (Sym × ComponentData)))) :
    ∀ st : EMState, (groups.foldl loadGroup st).queryCache = st.queryCache := by
  induction groups with
  | nil => intro st; rfl
  | cons g rest ih =>
      intro st
      rw [List.foldl_cons, ih]
      unfold loadGroup
      cases hg : g.2 with
      | nil => rfl
      | cons first others =>
          dsimp only
          rw [loadGroup_inner_qc, getOrCreateArchetype_qc]

theorem loadGroup_inner_ea_sub (ai : Nat)
    (entries : List (Nat × List (Sym × ComponentData))) :
    ∀ st : EMState, ∀ p ∈ (entries.foldl (fun st2 e =>
        addToArchetype st2 ai e.1 e.2) st).entityArchetype,
      p ∈ st.entityArchetype ∨ p.1 ∈ entries.map Prod.fst := by
  induction entries with
  | nil => intro st p hp; exact Or.inl hp
  | cons e rest ih =>
      intro st p hp
      rw [List.foldl_cons] at hp
      rcases ih _ p hp with hin | hin
      · rw [addToArchetype_ea] at hin
        rcases mem_mset hin with hpe | hold
        · refine Or.inr ?_
          rw [List.map_cons, hpe]
          exact List.mem_cons_self _ _
        · exact Or.inl hold.1
      · refine Or.inr ?_
        rw [List.map_cons]
        exact List.mem_cons_of_mem _ hin

theorem load_fold_ea_sub
    (groups : List (List Nat × List (Nat × List (Sym × ComponentData)))) :
    ∀ st : EMState, ∀ p ∈ (groups.foldl loadGroup st).entityArchetype,
      p ∈ st.entityArchetype ∨ p.1 ∈ allGroupIds groups := by
  induction groups with
  | nil => intro st p hp; exact Or.inl hp
  | cons g rest ih =>
      intro st p hp
      rw [List.foldl_cons] at hp
      rw [allGroupIds_cons]
      rcases ih _ p hp with hin | hin
      · unfold loadGroup at hin
        cases hg : g.2 with
        | nil =>
            rw [hg] at hin
            exact Or.inl hin
        | cons first others =>
            rw [hg] at hin
            dsimp only at hin
            rcases loadGroup_inner_ea_sub _ _ _ p hin with h2 | h2
            · rw [getOrCreateArchetype_ea] at h2
              exact Or.inl h2
            · exact Or.inr (List.mem_append_left _ h2)
      · exact Or.inr (List.mem_append_right _ hin)

/-- C9 amended: `deserialize` first clears the world — the known entity
ids are replaced by exactly the input's entity set, the archetype key
map, the entity placements and the query cache are emptied with the
cache version reset, and `nextId` is taken from the input — and then
loads the entities and components: deserializing an empty world yields
precisely the cleared state with every other field untouched, and after
any deserialize the query cache is empty and every surviving entity
placement belongs to an entity of the input.  It does NOT clear the
pending hook buffers, the removed-row tombstones, or the change-tracking
delta sets, and it only appends to (never resets) the tracked-archetype
registrations; the deferral queue and iteration depth are likewise
retained. -/
theorem c9_deserialize_amended (s : EMState) (d : SerializedData)
    (n2s : List (String × Sym)) :
    (deserialize s d n2s).hooks = s.hooks ∧
    (deserialize s d n2s).removedData = s.removedData ∧
    (deserialize s d n2s).createdSet = s.createdSet ∧
    (deserialize s d n2s).destroyedSet = s.destroyedSet ∧
    (deserialize s d n2s).iterating = s.iterating ∧
    (deserialize s d n2s).deferred = s.deferred ∧
    (deserialize s d n2s).nextId = d.nextId ∧
    (deserialize s d n2s).allEntityIds = jsSetOfList d.entities ∧
    (∃ t, (deserialize s d n2s).trackedArchetypes = s.trackedArchetypes ++ t) ∧
    (deserialize s d n2s).queryCache = [] ∧
    (∀ p ∈ (deserialize s d n2s).entityArchetype, p.1 ∈ d.entities) ∧
    deserialize s { nextId := d.nextId, entities := [], components := [] } n2s
      = { s with
          allEntityIds := []
          archetypes := []
          entityArchetype := []
          queryCache := []
          queryCacheVersion := 0
          nextId := d.nextId } := by
  obtain ⟨⟨m1, m2, m3, m4, m5, m6, m7, m8⟩, t, ht⟩ := deserialize_keeps s d n2s
  have hbo := (grouping_fold_state (entityComponentsOf d n2s) ([], clearedState s d)).2
  have hqc : (deserialize s d n2s).queryCache = [] := by
    rw [deserialize_eq, load_fold_qc]
    exact (hbo.2.2.2.2.2.2.2.2.2.2.2.2.2.2.2.2).trans rfl
  have hgi := grouping_fold_ids (entityComponentsOf d n2s) ([], clearedState s d)
    (by simp)
    (by
      rw [show allGroupIds ([] : List (List Nat × List (Nat × List (Sym × ComponentData))))
        = [] from rfl, List.nil_append, entityComponentsOf_keys]
      exact jsSetOfList_nodup d.entities)
  have hea : ∀ p ∈ (deserialize s d n2s).entityArchetype, p.1 ∈ d.entities := by
    intro p hp
    rw [deserialize_eq] at hp
    rcases load_fold_ea_sub _ _ p hp with hin | hin
    · rw [hbo.2.2.2.2.2.2.2.2.2.2.2.2.2.2.1] at hin
      simp [clearedState] at hin
    · rcases hgi.2.2 p.1 hin with h0 | h0
      · exact absurd h0 (List.not_mem_nil _)
      · rw [entityComponentsOf_keys] at h0
        exact (mem_jsSetOfList d.entities p.1).mp h0
  exact ⟨m1, m2, m3, m4, m5, m6, m7, m8, ⟨t, ht⟩, hqc, hea, rfl⟩

end ECS
